import Mathlib

/-!
# EigenIPC: shared-memory tensors, string tensors and the trigger/ack barrier

A shallow embedding of `Server.cpp`, `StringTensor.cpp` and `Consumer.cpp`.

* C++ `int` values are `Int`s kept in the 32-bit range by `wrapInt32` / `toInt32`.
* A `std::string` is a list of bytes (`Fin 256`), so embedded zero bytes and
  bytes `>= 0x80` are ordinary values.
* An Eigen matrix is a shape together with a cell function; an access outside
  the shape (an Eigen assertion, undefined behaviour in release builds) makes
  the embedding return `none`.
* Exceptions thrown through the journal or `failWithCode` are the `fatal`
  constructor of `Outcome`.
-/

namespace EigenIPC

/-! ## Machine integers and bytes -/

/-- One `char` of a `std::string`, as its unsigned value. -/
abbrev Byte := Fin 256

/-- The `int` whose 32-bit two's-complement pattern is `p % 2^32`. -/
def toInt32 (p : Nat) : Int :=
  if p % 2 ^ 32 < 2 ^ 31 then ((p % 2 ^ 32 : Nat) : Int) else ((p % 2 ^ 32 : Nat) : Int) - 2 ^ 32

/-- Reduction of a mathematical integer to the range of a 32-bit `int`
(two's-complement wrap-around). -/
def wrapInt32 (x : Int) : Int := (x + 2 ^ 31) % 2 ^ 32 - 2 ^ 31

/-- Conversion of an `int` to `size_t` (64-bit unsigned), as done by the usual
arithmetic conversions in `index + vec.size() > _length`. -/
def toSizeT (x : Int) : Nat := (x % 2 ^ 64).toNat

/-! ## Tensors -/

/-- `Tensor<Scalar>`: a dense matrix given by its shape and its cells. Only the
cells inside the shape are meaningful. -/
structure Tensor (α : Type) where
  rows : Nat
  cols : Nat
  cell : Nat → Nat → α

namespace Tensor

variable {α : Type}

/-- Assignment `t(row, col) = v`. -/
def set (t : Tensor α) (row col : Nat) (v : α) : Tensor α :=
  { t with cell := fun r c => if r = row ∧ c = col then v else t.cell r c }

/-- The block of shape `(nr, nc)` whose top-left corner is `(r0, c0)`, as a tensor
of its own (`t.block(r0, c0, nr, nc)` read as a value). -/
def block (t : Tensor α) (r0 c0 nr nc : Nat) : Tensor α :=
  { rows := nr, cols := nc, cell := fun r c => t.cell (r0 + r) (c0 + c) }

/-- Overwrites the block of `t` with top-left corner `(r0, c0)` and the shape of
`b` by the cells of `b` (assignment through `t.block(...)`). -/
def setBlock (t : Tensor α) (r0 c0 : Nat) (b : Tensor α) : Tensor α :=
  { t with cell := fun r c =>
      if r0 ≤ r ∧ r < r0 + b.rows ∧ c0 ≤ c ∧ c < c0 + b.cols then b.cell (r - r0) (c - c0)
      else t.cell r c }

/-- The constant tensor of the given shape (`Tensor::Zero` for `v = 0`). -/
def const (rows cols : Nat) (v : α) : Tensor α :=
  { rows := rows, cols := cols, cell := fun _ _ => v }

end Tensor

/-! ## String codec (`StringTensor.cpp`) -/

/-- `_buffer.col(col).setZero()`. -/
def setColZero (buf : Tensor Int) (col : Nat) : Tensor Int :=
  { buf with cell := fun r c => if c = col then 0 else buf.cell r c }

/-- Inner loop of `_encode_str`:
`for (j; j < sizeof(int) && i + j < str.size(); ++j) tmp |= uchar(str[i+j]) << (j*8)`.
`rest` is the string from index `i + j` on, `tmp` the bit pattern of `_tmp_value`. -/
def encodeChunk : List Byte → Nat → Nat → Nat
  | [], _, tmp => tmp
  | b :: rest, j, tmp =>
    if j < 4 then encodeChunk rest (j + 1) (tmp ||| (b.val <<< (j * 8))) else tmp

/-- Outer loop of `_encode_str`: `for (i, row; i < str.size(); i += sizeof(int), ++row)`.
`rest` is the string from index `i` on. Writing `_buffer(row, col)` with
`row >= rows` is out of bounds. -/
def encodeLoop (rest : List Byte) (row col : Nat) (buf : Tensor Int) : Option (Tensor Int) :=
  match rest with
  | [] => some buf
  | b :: tl =>
    if row < buf.rows then
      encodeLoop (tl.drop 3) (row + 1) col (buf.set row col (toInt32 (encodeChunk (b :: tl) 0 0)))
    else none
termination_by rest.length
decreasing_by simp only [List.length_drop, List.length_cons]; omega

/-- `StringTensor::_encode_str(str, col_index)` on the owned buffer. -/
def _encode_str (buf : Tensor Int) (str : List Byte) (col_index : Int) : Option (Tensor Int) :=
  if 0 ≤ col_index ∧ col_index < buf.cols then
    encodeLoop str 0 col_index.toNat (setColZero buf col_index.toNat)
  else none

/-- `char c = (_tmp_value >> (j * 8)) & 0xFF`: the arithmetic shift is `>>>` on
`Int`, masking with `0xFF` is the remainder modulo 256. -/
def byteAt (tmp : Int) (j : Nat) : Byte := Fin.ofNat (((tmp >>> (j * 8)) % 256).toNat)

/-- Inner loop of `_decode_str`: `for (j; j < sizeof(int); ++j)` with its `break`
on a zero byte; `fuel` is `sizeof(int) - j`. -/
def decodeCell (tmp : Int) : Nat → Nat → List Byte → List Byte
  | _, 0, str => str
  | j, fuel + 1, str =>
    if byteAt tmp j = 0 then str else decodeCell tmp (j + 1) fuel (str ++ [byteAt tmp j])

/-- Outer loop of `_decode_str`: `for (row; row < _n_rows; ++row)` with its `break`
when the length of the string is not a multiple of `sizeof(int)`; `fuel` is
`_n_rows - row`. -/
def decodeLoop (buf : Tensor Int) (col : Nat) : Nat → Nat → List Byte → List Byte
  | _, 0, str => str
  | row, fuel + 1, str =>
    if (decodeCell (buf.cell row col) 0 4 str).length % 4 ≠ 0 then
      decodeCell (buf.cell row col) 0 4 str
    else decodeLoop buf col (row + 1) fuel (decodeCell (buf.cell row col) 0 4 str)

/-- `StringTensor::_decode_str(str, col_index)`: the new value of `str`. Reading
`_buffer(row, col_index)` outside the buffer is out of bounds. -/
def _decode_str (n_rows : Nat) (buf : Tensor Int) (col_index : Int) : Option (List Byte) :=
  if 0 ≤ col_index ∧ col_index < buf.cols ∧ n_rows ≤ buf.rows then
    some (decodeLoop buf col_index.toNat 0 n_rows [])
  else none

/-- The number whose little-endian base-256 digits are the first four bytes of
`chunk` (fewer if `chunk` is shorter). -/
def packLE : List Byte → Nat
  | [] => 0
  | [a] => a.val
  | [a, b] => a.val + b.val * 256
  | [a, b, c] => a.val + b.val * 256 + c.val * 65536
  | a :: b :: c :: d :: _ => a.val + b.val * 256 + c.val * 65536 + d.val * 16777216

/-- The content of row `r` of a column that holds the encoding of `str`: the
packed bytes `4r .. 4r+3` of `str`, and 0 from the end of `str` on. -/
def encodedCell (str : List Byte) (r : Nat) : Int :=
  if 4 * r < str.length then toInt32 (packLE (str.drop (4 * r))) else 0

/-! ## Operating-system objects shared under one `(basename, namespace)` -/

/-- The two named semaphores of a server. -/
inductive SemName where
  | serversem
  | datasem
  deriving DecidableEq, Repr

/-- The seven named shared-memory segments of a server. -/
inductive Segment where
  | data
  | nrows
  | ncols
  | clients
  | dtype
  | isrunning
  | memlayout
  deriving DecidableEq, Repr

/-- The error kinds that can be recorded in `_return_code`. `ReturnCode::RESET`
empties the record, `isin` is membership. -/
inductive ReturnCode where
  | MEMCREATFAIL
  | MEMSETFAIL
  | MEMMAPFAIL
  | SEMACQFAIL
  | SEMRELFAIL
  deriving DecidableEq, Repr

/-- `Journal::LogType`. -/
inductive LogType where
  | INFO
  | STAT
  | WARN
  | EXCEP
  deriving DecidableEq, Repr

/-- The calls a server makes to the operating system and to the journal, in the
order in which they happen. -/
inductive Event where
  | semInit (n : SemName)
  | semAcquire (n : SemName)
  | semAcquireFail (n : SemName)
  | semRecreate (n : SemName)
  | semRelease (n : SemName)
  | semClose (n : SemName) (unlink : Bool)
  | checkMem (g : Segment)
  | initMem (g : Segment)
  | cleanUpMem (g : Segment) (unlink : Bool)
  | memWrite (ok : Bool)
  | memRead (ok : Bool)
  | journal (t : LogType) (throws : Bool)
  deriving DecidableEq, Repr

/-- A named POSIX semaphore: its counter and whether the name is still linked. -/
structure NamedSem where
  value : Nat
  linked : Bool
  deriving DecidableEq, Repr

/-- The named objects of one `(basename, namespace)`: both semaphores, the data
segment seen through `_tensor_view`, the metadata cells, the codes that `initMem`
reports for each segment, and the trace of calls made so far. -/
structure World (α : Type) where
  srvr_sem : NamedSem
  data_sem : NamedSem
  tensor : Tensor α
  n_rows_cell : Int
  n_cols_cell : Int
  n_clients_cell : Int
  dtype_cell : Int
  isrunning_cell : Bool
  mem_layout_cell : Int
  memFail : Segment → List ReturnCode
  log : List Event

namespace World

variable {α : Type}

/-- The semaphore with the given name. -/
def sem (w : World α) : SemName → NamedSem
  | .serversem => w.srvr_sem
  | .datasem => w.data_sem

/-- Replaces the semaphore with the given name. -/
def setSem (w : World α) (n : SemName) (s : NamedSem) : World α :=
  match n with
  | .serversem => { w with srvr_sem := s }
  | .datasem => { w with data_sem := s }

/-- Appends one call to the trace. -/
def emit (w : World α) (e : Event) : World α := { w with log := w.log ++ [e] }

end World

/-- The result of an operation that may throw: `fatal` carries the state at the
moment the exception leaves the operation. -/
inductive Outcome (σ : Type) where
  | ok : σ → Outcome σ
  | fatal : σ → Outcome σ

namespace Outcome

variable {σ : Type}

/-- The state carried by an outcome. -/
def state : Outcome σ → σ
  | ok s => s
  | fatal s => s

/-- Whether the operation threw. -/
def isFatal : Outcome σ → Bool
  | ok _ => false
  | fatal _ => true

end Outcome

/-! ## `MemUtils` and `Journal` -/

namespace MemUtils

variable {α : Type}

/-- Modelled from the spec: `MemUtils::semInit` (private header `MemUtils.hpp`),
"create-or-open a named semaphore initialized to 1". -/
def semInit (n : SemName) (w : World α) : World α :=
  (w.setSem n (if (w.sem n).linked then w.sem n else { value := 1, linked := true })).emit
    (.semInit n)

/-- Modelled from the spec: `MemUtils::acquireSemTimeout`, "try to acquire within
`timeout`; on timeout, if `force?`, forcibly destroy and recreate the semaphore
initialized to 1 and treat as acquired; otherwise fail SemAcqFail". No other
process runs during the call, so the wait expires exactly when the counter is 0. -/
def acquireSemTimeout (n : SemName) (force : Bool) (w : World α) :
    World α × List ReturnCode :=
  if 0 < (w.sem n).value then
    ((w.setSem n { w.sem n with value := (w.sem n).value - 1 }).emit (.semAcquire n), [])
  else if force then
    ((w.setSem n { value := 1, linked := true }).emit (.semRecreate n), [])
  else (w.emit (.semAcquireFail n), [.SEMACQFAIL])

/-- Modelled from the spec: `MemUtils::acquireSemOneShot` (`acquire_sem_try`), one
non-blocking attempt. -/
def acquireSemOneShot (n : SemName) (w : World α) : World α × List ReturnCode :=
  if 0 < (w.sem n).value then
    ((w.setSem n { w.sem n with value := (w.sem n).value - 1 }).emit (.semAcquire n), [])
  else (w.emit (.semAcquireFail n), [.SEMACQFAIL])

/-- Modelled from the spec: `MemUtils::acquireSemBlocking`. With no other process
running, a wait on a counter that is 0 never returns (`none`). -/
def acquireSemBlocking (n : SemName) (w : World α) : Option (World α) :=
  if 0 < (w.sem n).value then
    some ((w.setSem n { w.sem n with value := (w.sem n).value - 1 }).emit (.semAcquire n))
  else none

/-- Modelled from the spec: `MemUtils::releaseSem` (`release_sem`), a post. -/
def releaseSem (n : SemName) (w : World α) : World α :=
  (w.setSem n { w.sem n with value := (w.sem n).value + 1 }).emit (.semRelease n)

/-- Modelled from the spec: `MemUtils::semClose`, `sem_close(name, sem, unlink?)`. -/
def semClose (n : SemName) (unlink : Bool) (w : World α) : World α :=
  (w.setSem n { w.sem n with linked := (w.sem n).linked && !unlink }).emit (.semClose n unlink)

/-- Modelled from the spec: `MemUtils::checkMem`, "if a stale segment with the name
exists, unlink it". -/
def checkMem (g : Segment) (w : World α) : World α := w.emit (.checkMem g)

/-- Modelled from the spec: `MemUtils::initMem`, "create or open-and-resize the
segment, map it read/write"; it reports `w.memFail g`. -/
def initMem (g : Segment) (w : World α) : World α × List ReturnCode :=
  (w.emit (.initMem g), w.memFail g)

/-- Modelled from the spec: `MemUtils::cleanUpMem`, "unmap and close; if `unlink?`
and this is the owner, unlink the name". -/
def cleanUpMem (g : Segment) (unlink : Bool) (w : World α) : World α :=
  w.emit (.cleanUpMem g unlink)

/-- Whether a block of shape `(nr, nc)` at offset `(row, col)` lies inside a view
of shape `(rows, cols)`. -/
def blockFits (rows cols : Nat) (row col : Int) (nr nc : Nat) : Bool :=
  decide (0 ≤ row ∧ 0 ≤ col ∧ row + nr ≤ rows ∧ col + nc ≤ cols)

/-- Modelled from the spec: strided `MemUtils::write(src, dst_view, row, col)`,
"copy the overlapping block element-wise ... Return false if the block would fall
outside `dst_view`". -/
def write (src dst : Tensor α) (row col : Int) : Bool × Tensor α :=
  if blockFits dst.rows dst.cols row col src.rows src.cols then
    (true, dst.setBlock row.toNat col.toNat src)
  else (false, dst)

/-- Modelled from the spec: strided `MemUtils::read(src_view, row, col, dst)`, the
block of the view at `(row, col)` of the shape of `dst` is copied into `dst`;
false if that block falls outside the view. -/
def read (row col : Int) (dst src : Tensor α) : Bool × Tensor α :=
  if blockFits src.rows src.cols row col dst.rows dst.cols then
    (true, dst.setBlock 0 0 (src.block row.toNat col.toNat dst.rows dst.cols))
  else (false, dst)

end MemUtils

/-- Modelled from the spec: `Journal::log(method, message, type, throw_when_excep)`
(`Journal.hpp`), "Excep optionally raises a fatal error; otherwise diagnostics are
side effects only". The result tells whether the call throws. -/
def Journal.log {α : Type} (t : LogType) (throw_when_excep : Bool) (w : World α) :
    World α × Bool :=
  (w.emit (.journal t (decide (t = .EXCEP) && throw_when_excep)),
    decide (t = .EXCEP) && throw_when_excep)

/-! ## `Server<Scalar, Layout>` (`Server.cpp`) -/

/-- The members of a `Server` object that its operations read or write.
`scalar_size` is `sizeof(Scalar)` and `mem_layout` the `Layout` template argument;
`vlevel` is `0..3` for `V0..V3`. -/
structure Server where
  n_rows : Nat
  n_cols : Nat
  scalar_size : Nat
  mem_layout : Nat
  verbose : Bool
  vlevel : Nat
  safe : Bool
  force_reconnection : Bool
  unlink_data : Bool
  terminated : Bool
  running : Bool
  data_acquired : Bool
  n_clients : Int
  return_code : List ReturnCode
  deriving DecidableEq, Repr

/-- A server object together with the named objects it works on. -/
abbrev ServerState (α : Type) := Server × World α

namespace Server

variable {α : Type}

/-- `isin(code, _return_code)`. -/
def isin (c : ReturnCode) (rc : List ReturnCode) : Bool := decide (c ∈ rc)

/-- The `STAT`/`WARN` messages guarded by `_verbose && _vlevel > VLevel::V1`. -/
def logVerbose (t : LogType) (st : ServerState α) : ServerState α :=
  if st.1.verbose && decide (1 < st.1.vlevel) then (st.1, (Journal.log t false st.2).1) else st

/-- `Server::_acquireSemTimeout`: a failed acquisition ends in `failWithCode`. -/
def _acquireSemTimeout (n : SemName) (st : ServerState α) : Outcome (ServerState α) :=
  let r := MemUtils.acquireSemTimeout n st.1.force_reconnection st.2
  if isin .SEMACQFAIL r.2 then .fatal ({ st.1 with return_code := r.2 }, r.1)
  else .ok ({ st.1 with return_code := [] }, r.1)

/-- `Server::_acquireSemOneShot`. -/
def _acquireSemOneShot (n : SemName) (st : ServerState α) : Bool × ServerState α :=
  let r := MemUtils.acquireSemOneShot n st.2
  if isin .SEMACQFAIL r.2 then (false, ({ st.1 with return_code := r.2 }, r.1))
  else (true, ({ st.1 with return_code := [] }, r.1))

/-- `Server::_acquireSemBlocking`; `none` when the wait never returns. -/
def _acquireSemBlocking (n : SemName) (st : ServerState α) : Option (ServerState α) :=
  (MemUtils.acquireSemBlocking n st.2).map fun w => ({ st.1 with return_code := [] }, w)

/-- `Server::_releaseSem`: the return code is reset before `SEMRELFAIL` is looked
up in it. -/
def _releaseSem (n : SemName) (st : ServerState α) : Outcome (ServerState α) :=
  let w := MemUtils.releaseSem n st.2
  let rc : List ReturnCode := []
  if isin .SEMRELFAIL rc then .fatal ({ st.1 with return_code := rc }, w)
  else .ok ({ st.1 with return_code := rc }, w)

/-- `Server::_acquireData(blocking = false, ...)`. -/
def _acquireData (st : ServerState α) : Bool × ServerState α :=
  _acquireSemOneShot .datasem st

/-- `Server::_releaseData`. -/
def _releaseData (st : ServerState α) : Outcome (ServerState α) :=
  _releaseSem .datasem st

/-- `Server::_initSems`. -/
def _initSems (st : ServerState α) : ServerState α :=
  (st.1, MemUtils.semInit .datasem (MemUtils.semInit .serversem st.2))

/-- `Server::_initDataMem`: the return code is reset before it is inspected, the
codes reported by `initMem` are reset afterwards. -/
def _initDataMem (st : ServerState α) : Outcome (ServerState α) :=
  let rc : List ReturnCode := []
  if !isin .MEMCREATFAIL rc && !isin .MEMSETFAIL rc && !isin .MEMMAPFAIL rc then
    let r := MemUtils.initMem .data st.2
    .ok ({ st.1 with return_code := [] },
      { r.1 with tensor := { rows := st.1.n_rows, cols := st.1.n_cols, cell := r.1.tensor.cell } })
  else .fatal ({ st.1 with return_code := rc }, st.2)

/-- `Server::_initMetaMem`: six `initMem` calls accumulate their codes; the cells
are populated only if none of the three memory failures was reported. -/
def _initMetaMem (st : ServerState α) : Outcome (ServerState α) :=
  let r1 := MemUtils.initMem .nrows st.2
  let r2 := MemUtils.initMem .ncols r1.1
  let r3 := MemUtils.initMem .clients r2.1
  let r4 := MemUtils.initMem .dtype r3.1
  let r5 := MemUtils.initMem .isrunning r4.1
  let r6 := MemUtils.initMem .memlayout r5.1
  let rc := r1.2 ++ r2.2 ++ r3.2 ++ r4.2 ++ r5.2 ++ r6.2
  if !isin .MEMCREATFAIL rc && !isin .MEMSETFAIL rc && !isin .MEMMAPFAIL rc then
    .ok ({ st.1 with return_code := [] },
      { r6.1 with
        n_rows_cell := st.1.n_rows
        n_cols_cell := st.1.n_cols
        n_clients_cell := 0
        isrunning_cell := false
        mem_layout_cell := st.1.mem_layout
        dtype_cell := st.1.scalar_size })
  else .fatal ({ st.1 with return_code := rc }, r6.1)

/-- The member initialisers of the constructor, with the in-class defaults of
`Server.hpp` for the members it does not mention. -/
def init (n_rows n_cols scalar_size mem_layout : Nat) (verbose : Bool) (vlevel : Nat)
    (force_reconnection safe : Bool) : Server :=
  { n_rows := n_rows, n_cols := n_cols, scalar_size := scalar_size, mem_layout := mem_layout,
    verbose := verbose, vlevel := vlevel, safe := safe,
    force_reconnection := force_reconnection, unlink_data := true, terminated := false,
    running := false, data_acquired := false, n_clients := -1, return_code := [] }

/-- `Server::Server(n_rows, n_cols, basename, name_space, verbose, vlevel,
force_reconnection, safe)` on the named objects `w`. A `fatal` outcome means the
constructor threw and no object exists. -/
def construct (n_rows n_cols scalar_size mem_layout : Nat) (verbose : Bool) (vlevel : Nat)
    (force_reconnection safe : Bool) (w : World α) : Outcome (ServerState α) :=
  let s0 := init n_rows n_cols scalar_size mem_layout verbose vlevel force_reconnection safe
  let st1 : ServerState α :=
    if force_reconnection && verbose && decide (1 < vlevel) then
      (s0, (Journal.log .WARN false w).1)
    else (s0, w)
  match _acquireSemTimeout .datasem (_initSems (logVerbose .STAT st1)) with
  | .fatal st => .fatal st
  | .ok st2 =>
    match _initDataMem (st2.1, MemUtils.checkMem .data st2.2) with
    | .fatal st => .fatal st
    | .ok st3 =>
      match _initMetaMem st3 with
      | .fatal st => .fatal st
      | .ok st4 => .ok (logVerbose .STAT ({ st4.1 with terminated := false }, st4.2))

/-- `Server::isRunning`. -/
def isRunning (s : Server) : Bool := s.running

/-- `Server::_checkIsRunning`: an `EXCEP` diagnostic that does not throw. -/
def _checkIsRunning (st : ServerState α) : ServerState α :=
  if !st.1.running && st.1.verbose then (st.1, (Journal.log .EXCEP false st.2).1) else st

/-- `Server::run`. -/
def run (st : ServerState α) : Outcome (ServerState α) :=
  if !isRunning st.1 then
    match _acquireSemTimeout .serversem st with
    | .fatal st1 => .fatal st1
    | .ok st1 =>
      match _releaseSem .datasem st1 with
      | .fatal st2 => .fatal st2
      | .ok st2 =>
        .ok (logVerbose .STAT ({ st2.1 with running := true }, { st2.2 with isrunning_cell := true }))
  else .ok st

/-- `Server::stop`. -/
def stop (st : ServerState α) : ServerState α :=
  if isRunning st.1 then
    ({ st.1 with running := false },
      MemUtils.releaseSem .serversem { st.2 with isrunning_cell := false })
  else st

/-- `Server::_cleanMetaMem`. -/
def _cleanMetaMem (st : ServerState α) : ServerState α :=
  ({ st.1 with return_code := [] },
    MemUtils.cleanUpMem .memlayout st.1.unlink_data
      (MemUtils.cleanUpMem .dtype st.1.unlink_data
        (MemUtils.cleanUpMem .clients st.1.unlink_data
          (MemUtils.cleanUpMem .ncols st.1.unlink_data
            (MemUtils.cleanUpMem .nrows st.1.unlink_data st.2)))))

/-- `Server::_closeSems`. -/
def _closeSems (st : ServerState α) : ServerState α :=
  (st.1, MemUtils.semClose .datasem true (MemUtils.semClose .serversem true st.2))

/-- `Server::_cleanMems`. The data segment is cleaned with the default value of the
unlink argument of `MemUtils::cleanUpMem`, taken to be `true`. -/
def _cleanMems (st : ServerState α) : ServerState α :=
  if !st.1.terminated then
    let st1 : ServerState α :=
      ({ st.1 with return_code := [] }, MemUtils.cleanUpMem .data true st.2)
    let st2 := logVerbose .STAT (_closeSems (_cleanMetaMem st1))
    ({ st2.1 with terminated := true }, st2.2)
  else st

/-- `Server::close`. -/
def close (st : ServerState α) : ServerState α :=
  logVerbose .STAT (_cleanMems (stop st))

/-- `Server::write(const TRef<Scalar, Layout> data, int row, int col)`. -/
def write (data : Tensor α) (row col : Int) (st : ServerState α) :
    Outcome (Bool × ServerState α) :=
  if st.1.running then
    let a : Bool × ServerState α :=
      if st.1.safe then _acquireData ({ st.1 with data_acquired := true }, st.2)
      else (true, ({ st.1 with data_acquired := true }, st.2))
    let st1 : ServerState α := ({ a.2.1 with data_acquired := a.1 }, a.2.2)
    if st1.1.data_acquired then
      let r := MemUtils.write data st1.2.tensor row col
      let st2 : ServerState α := (st1.1, { st1.2 with tensor := r.2 }.emit (.memWrite r.1))
      if st2.1.safe then
        match _releaseData st2 with
        | .fatal st3 => .fatal (r.1, st3)
        | .ok st3 => .ok (r.1, st3)
      else .ok (r.1, st2)
    else .ok (false, st1)
  else .ok (false, _checkIsRunning st)

/-- `Server::write(const TensorView<Scalar, Layout>& data, int row, int col)`. -/
def writeView (data : Tensor α) (row col : Int) (st : ServerState α) :
    Outcome (Bool × ServerState α) :=
  if st.1.running then
    let a : Bool × ServerState α :=
      if st.1.safe then _acquireData ({ st.1 with data_acquired := true }, st.2)
      else (true, ({ st.1 with data_acquired := true }, st.2))
    let st1 : ServerState α := ({ a.2.1 with data_acquired := a.1 }, a.2.2)
    if st1.1.data_acquired then
      let r := MemUtils.write data st1.2.tensor row col
      let st2 : ServerState α := (st1.1, { st1.2 with tensor := r.2 }.emit (.memWrite r.1))
      if st2.1.safe then
        match _releaseData st2 with
        | .fatal st3 => .fatal (r.1, st3)
        | .ok st3 => .ok (r.1, st3)
      else .ok (r.1, st2)
    else .ok (false, st1)
  else .ok (false, _checkIsRunning st)

/-- `Server::read(TRef<Scalar, Layout> output, int row, int col)`: the result
carries the new content of `output`. -/
def read (output : Tensor α) (row col : Int) (st : ServerState α) :
    Outcome (Bool × Tensor α × ServerState α) :=
  if st.1.running then
    let a : Bool × ServerState α :=
      if st.1.safe then _acquireData ({ st.1 with data_acquired := true }, st.2)
      else (true, ({ st.1 with data_acquired := true }, st.2))
    let st1 : ServerState α := ({ a.2.1 with data_acquired := a.1 }, a.2.2)
    if st1.1.data_acquired then
      let r := MemUtils.read row col output st1.2.tensor
      let st2 : ServerState α := (st1.1, st1.2.emit (.memRead r.1))
      if st2.1.safe then
        match _releaseData st2 with
        | .fatal st3 => .fatal (r.1, r.2, st3)
        | .ok st3 => .ok (r.1, r.2, st3)
      else .ok (r.1, r.2, st2)
    else .ok (false, output, st1)
  else .ok (false, output, _checkIsRunning st)

/-- `Server::read(TensorView<Scalar, Layout>& output, int row, int col)`. -/
def readView (output : Tensor α) (row col : Int) (st : ServerState α) :
    Outcome (Bool × Tensor α × ServerState α) :=
  if st.1.running then
    let a : Bool × ServerState α :=
      if st.1.safe then _acquireData ({ st.1 with data_acquired := true }, st.2)
      else (true, ({ st.1 with data_acquired := true }, st.2))
    let st1 : ServerState α := ({ a.2.1 with data_acquired := a.1 }, a.2.2)
    if st1.1.data_acquired then
      let r := MemUtils.read row col output st1.2.tensor
      let st2 : ServerState α := (st1.1, st1.2.emit (.memRead r.1))
      if st2.1.safe then
        match _releaseData st2 with
        | .fatal st3 => .fatal (r.1, r.2, st3)
        | .ok st3 => .ok (r.1, r.2, st3)
      else .ok (r.1, r.2, st2)
    else .ok (false, output, st1)
  else .ok (false, output, _checkIsRunning st)

/-- `Server::~Server`. -/
def destroy (st : ServerState α) : ServerState α :=
  if !st.1.terminated then close st else st

/-- `Server::getNClients`: a blocking acquisition of the data semaphore around the
read of the clients cell; `none` when the wait never returns. -/
def getNClients (st : ServerState α) : Option (Outcome (Int × ServerState α)) :=
  (_acquireSemBlocking .datasem st).map fun st1 =>
    match _releaseData ({ st1.1 with n_clients := st1.2.n_clients_cell }, st1.2) with
    | .fatal st2 => .fatal (st1.2.n_clients_cell, st2)
    | .ok st2 => .ok (st1.2.n_clients_cell, st2)

/-- `Server::dataSemAcquire`; `none` when the blocking wait never returns. -/
def dataSemAcquire (st : ServerState α) : Option (ServerState α) :=
  _acquireSemBlocking .datasem st

/-- `Server::dataSemRelease`. -/
def dataSemRelease (st : ServerState α) : Outcome (ServerState α) :=
  _releaseSem .datasem st

end Server

/-! ## `StringTensor<ShMemType>` (`StringTensor.cpp`) -/

/-- The two operations of `ShMemType` (`Server<int>` or `Client<int>`) that the
wrapper calls, on a state `σ` of the underlying object. `read` returns the new
content of the block it was given. -/
structure ShMem (σ : Type) where
  write : Tensor Int → Int → Int → σ → Bool × σ
  read : Tensor Int → Int → Int → σ → Bool × Tensor Int × σ

/-- `StrServer` as a `ShMem`: the `TRef` overloads of `Server<int>`. -/
def serverShMem : ShMem (ServerState Int) where
  write data row col st := (Server.write data row col st).state
  read output row col st := (Server.read output row col st).state

/-- The members of a `StringTensor`. `n_rows` is the constant `_n_rows` of
`StringTensor.hpp` (the number of `int` cells of one column), `buffer` the owned
`Tensor<int>(_n_rows, _length)`. -/
structure StringTensor (σ : Type) where
  n_rows : Nat
  length : Nat
  buffer : Tensor Int
  running : Bool
  is_server : Bool
  sh_mem : σ

namespace StringTensor

variable {σ : Type}

/-- `StringTensor::isRunning`. -/
def isRunning (t : StringTensor σ) : Bool := t.running

/-- `StringTensor::_fits(vec, index)`: `index + vec.size() > _length` is evaluated
in `size_t`. -/
def _fits (t : StringTensor σ) (size : Nat) (index : Int) : Bool :=
  !decide ((toSizeT index + size) % 2 ^ 64 > toSizeT t.length)

/-- The loop of `_encode_vec`: one `_encode_str` per string, `++col_index`. -/
def encodeVecLoop (buf : Tensor Int) : List (List Byte) → Int → Option (Tensor Int)
  | [], _ => some buf
  | str :: rest, col_index =>
    match _encode_str buf str col_index with
    | none => none
    | some buf1 => encodeVecLoop buf1 rest (col_index + 1)

/-- `StringTensor::_encode_vec`: its result and the new buffer. -/
def _encode_vec (t : StringTensor σ) (vec : List (List Byte)) (col_index : Int) :
    Option (Bool × Tensor Int) :=
  if !_fits t vec.length col_index then some (false, t.buffer)
  else (encodeVecLoop t.buffer vec col_index).map fun b => (true, b)

/-- The loop of `_decode_vec`: one `_decode_str` per element of the output vector,
of which only the number matters. -/
def decodeVecLoop (n_rows : Nat) (buf : Tensor Int) : Nat → Int → Option (List (List Byte))
  | 0, _ => some []
  | k + 1, col_index =>
    match _decode_str n_rows buf col_index with
    | none => none
    | some str =>
      match decodeVecLoop n_rows buf k (col_index + 1) with
      | none => none
      | some rest => some (str :: rest)

/-- `StringTensor::_decode_vec`: its result and the new content of `vec`. -/
def _decode_vec (t : StringTensor σ) (vec : List (List Byte)) (col_index : Int) :
    Option (Bool × List (List Byte)) :=
  if !_fits t vec.length col_index then some (false, vec)
  else (decodeVecLoop t.n_rows t.buffer vec.length col_index).map fun v => (true, v)

/-- `_buffer.block(0, col_index, _n_rows, width)`: `none` when the block does not
lie inside the buffer. -/
def bufferBlock (t : StringTensor σ) (buf : Tensor Int) (col_index : Int) (width : Nat) :
    Option (Tensor Int) :=
  if 0 ≤ col_index ∧ col_index + width ≤ buf.cols ∧ t.n_rows ≤ buf.rows then
    some (buf.block 0 col_index.toNat t.n_rows width)
  else none

/-- `StringTensor::write(const std::vector<std::string>&, int)`. -/
def write (M : ShMem σ) (t : StringTensor σ) (vec : List (List Byte)) (col_index : Int) :
    Option (Bool × StringTensor σ) :=
  if !t.isRunning then some (false, t)
  else
    match _encode_vec t vec col_index with
    | none => none
    | some (false, buf) => some (false, { t with buffer := buf })
    | some (true, buf) =>
      match bufferBlock t buf col_index vec.length with
      | none => none
      | some blk =>
        some ((M.write blk 0 col_index t.sh_mem).1,
          { t with buffer := buf, sh_mem := (M.write blk 0 col_index t.sh_mem).2 })

/-- `StringTensor::read(std::vector<std::string>&, int)`: the result, the new
content of `vec` and the new state. -/
def read (M : ShMem σ) (t : StringTensor σ) (vec : List (List Byte)) (col_index : Int) :
    Option (Bool × List (List Byte) × StringTensor σ) :=
  if !t.isRunning then some (false, vec, t)
  else
    match bufferBlock t t.buffer col_index vec.length with
    | none => none
    | some blk =>
      let r := M.read blk 0 col_index t.sh_mem
      let t1 : StringTensor σ :=
        { t with buffer := t.buffer.setBlock 0 col_index.toNat r.2.1, sh_mem := r.2.2 }
      if !r.1 then some (false, vec, t1)
      else (_decode_vec t1 vec col_index).map fun d => (d.1, d.2, t1)

/-- `StringTensor::write(const std::string&, int)`. -/
def writeStr (M : ShMem σ) (t : StringTensor σ) (str : List Byte) (col_index : Int) :
    Option (Bool × StringTensor σ) :=
  if !t.isRunning || decide (col_index < 0) || decide (col_index ≥ t.length) then some (false, t)
  else
    match _encode_str t.buffer str col_index with
    | none => none
    | some buf =>
      match bufferBlock t buf col_index 1 with
      | none => none
      | some blk =>
        some ((M.write blk 0 col_index t.sh_mem).1,
          { t with buffer := buf, sh_mem := (M.write blk 0 col_index t.sh_mem).2 })

/-- `StringTensor::read(std::string&, int)`. -/
def readStr (M : ShMem σ) (t : StringTensor σ) (str : List Byte) (col_index : Int) :
    Option (Bool × List Byte × StringTensor σ) :=
  if !t.isRunning || decide (col_index < 0) || decide (col_index ≥ t.length) then
    some (false, str, t)
  else
    match bufferBlock t t.buffer col_index 1 with
    | none => none
    | some blk =>
      let r := M.read blk 0 col_index t.sh_mem
      let t1 : StringTensor σ :=
        { t with buffer := t.buffer.setBlock 0 col_index.toNat r.2.1, sh_mem := r.2.2 }
      if !r.1 then some (false, str, t1)
      else (_decode_str t1.n_rows t1.buffer col_index).map fun d => (true, d, t1)

end StringTensor

/-! ## `Consumer` (`Consumer.cpp`) -/

/-- What a consumer does that is visible outside its own members. -/
inductive CEvent where
  | readTrigger (ok : Bool)
  | timedWait (ms : Int)
  | blockingWait
  | preAck (result : Bool)
  | readAck (ok : Bool)
  | writeAck (ok : Bool)
  | notifyOne
  | journal (t : LogType) (throws : Bool)
  deriving DecidableEq, Repr

/-- The members of a `Consumer`; `trigger_counter` and `ack_counter` are the single
cells of the local 1x1 tensors `_trigger_counter` and `_ack_counter`. -/
structure Consumer where
  is_running : Bool
  closed : Bool
  trigger_received : Bool
  timeout : Bool
  internal_trigger_counter : Int
  trigger_counter_increment : Int
  fail_count : Int
  trigger_counter : Int
  ack_counter : Int
  deriving DecidableEq, Repr

/-- The shared ack cell and the trace of the consumer's visible actions. -/
structure Shared where
  ack : Int
  trace : List CEvent
  deriving DecidableEq, Repr

/-- Appends an action to the trace. -/
def Shared.emit (sh : Shared) (e : CEvent) : Shared := { sh with trace := sh.trace ++ [e] }

/-- A consumer together with the shared ack cell and the trace. -/
abbrev ConsumerState := Consumer × Shared

/-- What the environment presents to one iteration of the loop of `wait`: the
result of `_trigger_counter_clnt.read`, the content of the shared trigger cell at
that moment, and, should the consumer go on to wait on `TriggerCond` with a
timeout, whether it is notified before expiry. -/
structure Obs where
  readOk : Bool
  value : Int
  notified : Bool
  deriving DecidableEq, Repr

namespace Consumer

/-- The members after `Consumer::Consumer`: the in-class defaults of `Consumer.hpp`,
`_closed(true)` from the initialiser list, and the uninitialised cells `tc`, `ac`
of the two local 1x1 tensors. -/
def fresh (tc ac : Int) : Consumer :=
  { is_running := false, closed := true, trigger_received := false, timeout := false,
    internal_trigger_counter := 0, trigger_counter_increment := 0, fail_count := 0,
    trigger_counter := tc, ack_counter := ac }

/-- The value of `_trigger_counter(0, 0) - _internal_trigger_counter` that
`_check_trigger_received` computes, in `int`, from the observation `o`. -/
def delta (o : Obs) (c : Consumer) : Int :=
  wrapInt32 ((if o.readOk then o.value else c.trigger_counter) - c.internal_trigger_counter)

/-- `Consumer::run` on the members (attachment of the clients and opening of the
condition variables are outside the members). -/
def run (c : Consumer) : Consumer :=
  if !c.is_running then
    { c with is_running := true, closed := false, internal_trigger_counter := 0 }
  else c

/-- `Consumer::_check_running`: throws through the journal when not running. -/
def _check_running (st : ConsumerState) : Outcome ConsumerState :=
  if !st.1.is_running then .fatal (st.1, st.2.emit (.journal .EXCEP true)) else .ok st

/-- `Consumer::_check_trigger_received`. A successful read copies the shared cell
into `_trigger_counter`; the result of the read is not looked at. The subtraction
is done in `int`. -/
def _check_trigger_received (o : Obs) (st : ConsumerState) : Outcome (Bool × ConsumerState) :=
  let tc := if o.readOk then o.value else st.1.trigger_counter
  let inc := wrapInt32 (tc - st.1.internal_trigger_counter)
  let c1 : Consumer := { st.1 with trigger_counter := tc, trigger_counter_increment := inc }
  let sh1 := st.2.emit (.readTrigger o.readOk)
  if inc > 1 ∨ inc < 0 then .fatal (false, (c1, sh1.emit (.journal .EXCEP true)))
  else if inc = 1 then .ok (true, ({ c1 with internal_trigger_counter := tc }, sh1))
  else .ok (false, (c1, sh1))

/-- `Consumer::_wait(lock, ms_timeout)`: `notified` is the result of `timedwait`;
the untimed wait returns once notified. -/
def _wait (ms_timeout : Int) (notified : Bool) (st : ConsumerState) : Bool × ConsumerState :=
  if ms_timeout > 0 then
    (notified, ({ st.1 with timeout := !notified }, st.2.emit (.timedWait ms_timeout)))
  else (true, (st.1, st.2.emit .blockingWait))

/-- The loop `while (!_trigger_received)` of `Consumer::wait`, one observation per
iteration; `none` when the observations end while the consumer is still
waiting. -/
def waitLoop (ms_timeout : Int) : List Obs → ConsumerState → Option (Outcome (Bool × ConsumerState))
  | [], _ => none
  | o :: rest, st =>
    match _check_trigger_received o st with
    | .fatal r => some (.fatal r)
    | .ok (true, st1) => some (.ok (true, ({ st1.1 with trigger_received := true }, st1.2)))
    | .ok (false, st1) =>
      let w := _wait ms_timeout o.notified ({ st1.1 with trigger_received := false }, st1.2)
      if !w.1 then some (.ok (false, w.2)) else waitLoop ms_timeout rest w.2

/-- `Consumer::wait(ms_timeout)`. -/
def wait (ms_timeout : Int) (obs : List Obs) (st : ConsumerState) :
    Option (Outcome (Bool × ConsumerState)) :=
  match _check_running st with
  | .fatal st1 => some (.fatal (false, st1))
  | .ok st1 => waitLoop ms_timeout obs ({ st1.1 with trigger_received := false }, st1.2)

/-- `Consumer::_acknowledge`; `readOk` and `writeOk` are the results of
`_ack_counter_clnt.read` and `_ack_counter_clnt.write`. Its two `EXCEP`
diagnostics are logged with `throw_when_excep = false`. -/
def _acknowledge (readOk writeOk : Bool) (st : ConsumerState) : Bool × ConsumerState :=
  let c0 : Consumer := { st.1 with fail_count := 0 }
  let sh0 := st.2.emit (.readAck readOk)
  let c1 : Consumer :=
    if readOk then { c0 with ack_counter := st.2.ack } else { c0 with fail_count := c0.fail_count + 1 }
  let sh1 := if readOk then sh0 else sh0.emit (.journal .EXCEP false)
  let c2 : Consumer := { c1 with ack_counter := wrapInt32 (c1.ack_counter + 1) }
  let sh2 := sh1.emit (.writeAck writeOk)
  let c3 : Consumer := if writeOk then c2 else { c2 with fail_count := c2.fail_count + 1 }
  let sh3 : Shared :=
    if writeOk then { sh2 with ack := c2.ack_counter } else sh2.emit (.journal .EXCEP false)
  (decide (c3.fail_count = 0), (c3, sh3.emit .notifyOne))

/-- `Consumer::ack`. -/
def ack (readOk writeOk : Bool) (st : ConsumerState) : Outcome (Bool × ConsumerState) :=
  match _check_running st with
  | .fatal st1 => .fatal (false, st1)
  | .ok st1 => .ok (_acknowledge readOk writeOk st1)

/-- `Consumer::wait_and_ack(pre_ack, ms_timeout)`; `pre_ack` is the value the user
callback returns. -/
def wait_and_ack (pre_ack : Bool) (ms_timeout : Int) (obs : List Obs) (readOk writeOk : Bool)
    (st : ConsumerState) : Option (Outcome (Bool × ConsumerState)) :=
  match wait ms_timeout obs ({ st.1 with fail_count := 0 }, st.2) with
  | none => none
  | some (.fatal r) => some (.fatal r)
  | some (.ok (false, st1)) =>
    some (.ok (decide (st1.1.fail_count + 1 = 0),
      ({ st1.1 with fail_count := st1.1.fail_count + 1 }, st1.2)))
  | some (.ok (true, st1)) =>
    let st2 : ConsumerState :=
      if !pre_ack then
        ({ st1.1 with fail_count := st1.1.fail_count + 1 }, st1.2.emit (.preAck pre_ack))
      else (st1.1, st1.2.emit (.preAck pre_ack))
    match ack readOk writeOk st2 with
    | .fatal r => some (.fatal r)
    | .ok (true, st3) => some (.ok (decide (st3.1.fail_count = 0), st3))
    | .ok (false, st3) =>
      some (.ok (decide (st3.1.fail_count + 1 = 0),
        ({ st3.1 with fail_count := st3.1.fail_count + 1 }, st3.2)))

end Consumer

/-! ## Producer and consumers around the two counters -/

/-- Modelled from the spec: the effect of `Producer::trigger` (`Producer.cpp`) on
the shared trigger cell, "read+increment+write the trigger counter". -/
def Producer.trigger (trigger : Int) : Int := wrapInt32 (trigger + 1)

/-- One producer and its consumers: the shared trigger cell, the shared ack cell
with the trace, and the members of each consumer. -/
structure Barrier where
  trigger : Int
  sh : Shared
  consumers : List Consumer
  deriving DecidableEq, Repr

/-- The calls of a schedule: `trigger()` of the producer, `wait()` and `ack()` of
consumer `i`. -/
inductive Call where
  | trigger
  | wait (i : Nat)
  | ack (i : Nat)
  deriving DecidableEq, Repr

/-- How a call ended. -/
inductive CallResult where
  | returned (b : Bool)
  | threw
  | blocked
  | noSuchConsumer
  deriving DecidableEq, Repr

namespace Barrier

/-- The state after `Producer::run` ("initialize both counters to 0") and
`Consumer::run` of one consumer per element of `locals`, which gives the values
the two local 1x1 tensors of that consumer happen to hold. -/
def init (locals : List (Int × Int)) : Barrier :=
  { trigger := 0, sh := { ack := 0, trace := [] },
    consumers := locals.map fun g => Consumer.run (Consumer.fresh g.1 g.2) }

/-- One call, run to its end with no other process acting meanwhile and every
counter read and write succeeding. A `wait()` sees the current trigger cell; if
it then waits on `TriggerCond` nothing can wake it up (`blocked`). -/
def step (b : Barrier) : Call → Barrier × CallResult
  | .trigger => ({ b with trigger := Producer.trigger b.trigger }, .returned true)
  | .wait i =>
    match b.consumers.get? i with
    | none => (b, .noSuchConsumer)
    | some c =>
      match Consumer.wait (-1) [{ readOk := true, value := b.trigger, notified := false }]
          (c, b.sh) with
      | none => (b, .blocked)
      | some (.fatal r) => ({ b with sh := r.2.2, consumers := b.consumers.set i r.2.1 }, .threw)
      | some (.ok r) =>
        ({ b with sh := r.2.2, consumers := b.consumers.set i r.2.1 }, .returned r.1)
  | .ack i =>
    match b.consumers.get? i with
    | none => (b, .noSuchConsumer)
    | some c =>
      match Consumer.ack true true (c, b.sh) with
      | .fatal r => ({ b with sh := r.2.2, consumers := b.consumers.set i r.2.1 }, .threw)
      | .ok r => ({ b with sh := r.2.2, consumers := b.consumers.set i r.2.1 }, .returned r.1)

/-- Runs a schedule and collects how each call ended. -/
def exec (b : Barrier) : List Call → Barrier × List CallResult
  | [] => (b, [])
  | c :: rest => ((exec (step b c).1 rest).1, (step b c).2 :: (exec (step b c).1 rest).2)

/-- Whether a call is an `ack()`. -/
def isAck : Call → Bool
  | .ack _ => true
  | _ => false

/-- The calls that follow each trigger: `wait()` and `ack()` of each of the `n`
consumers. -/
def roundCalls (n : Nat) : List Call :=
  (List.range n).map Call.wait ++ (List.range n).map Call.ack

/-- The schedule made of the given rounds, each started by a trigger. -/
def schedule (rounds : List (List Call)) : List Call :=
  rounds.flatMap fun r => Call.trigger :: r

end Barrier

/-! ## Properties and inputs used in the statements -/

/-- The discipline of one safe-mode access, read off the trace: the data
semaphore ends as it started and either the try-acquire failed, nothing was
copied and the call returned false, or the copy (the event `copy ret`) stands
between an acquire and a release of the data semaphore. -/
def Sandwiched {α : Type} (copy : Bool → Event) (w w' : World α) (ret : Bool) : Prop :=
  w'.data_sem = w.data_sem ∧
  ((w.data_sem.value = 0 ∧ ret = false ∧ w'.tensor = w.tensor ∧
      w'.log = w.log ++ [.semAcquireFail .datasem]) ∨
    (0 < w.data_sem.value ∧
      w'.log = w.log ++ [.semAcquire .datasem, copy ret, .semRelease .datasem]))

/-- The named objects before any server exists: both semaphores at their initial
value 1, no segment failure, an empty trace. -/
def World.initial : World Int :=
  { srvr_sem := { value := 1, linked := false }, data_sem := { value := 1, linked := false },
    tensor := Tensor.const 0 0 0, n_rows_cell := 0, n_cols_cell := 0, n_clients_cell := 0,
    dtype_cell := 0, isrunning_cell := false, mem_layout_cell := 0, memFail := fun _ => [],
    log := [] }

/-- A 2x2 row-major `Server<int>` constructed on `World.initial`. -/
def Server.sample (force_reconnection safe : Bool) : ServerState Int :=
  (Server.construct 2 2 4 1 false 0 force_reconnection safe World.initial).state

/-- The same server after `run()`. -/
def Server.sampleRunning (force_reconnection safe : Bool) : ServerState Int :=
  (Server.run (Server.sample force_reconnection safe)).state

/-- A running server-side `StringTensor` of two strings with two cells per column,
on top of the running 2x2 server. -/
def StringTensor.sample : StringTensor (ServerState Int) :=
  { n_rows := 2, length := 2, buffer := Tensor.const 2 2 0, running := true, is_server := true,
    sh_mem := Server.sampleRunning false true }

/-- The barrier inside a round whose calls still to come are `rest`: the trigger
cell holds `t'`, every consumer is running, a consumer whose `wait()` is still to
come remembers the previous trigger value `t` and every other one `t'`; the calls
to come are distinct calls of existing consumers. -/
def Barrier.InRound (n : Nat) (t t' : Int) (rest : List Call) (b : Barrier) : Prop :=
  b.trigger = t' ∧ b.consumers.length = n ∧
  (∀ i c, b.consumers.get? i = some c →
    c.is_running = true ∧
      c.internal_trigger_counter = if Call.wait i ∈ rest then t else t') ∧
  rest.Nodup ∧ Call.trigger ∉ rest ∧ (∀ i, Call.wait i ∈ rest → i < n) ∧
  (∀ i, Call.ack i ∈ rest → i < n)

/-! ## Two servers on one `(basename, namespace)` -/

/-- The arguments of the `Server` constructor (with the template arguments). -/
structure ServerConfig where
  n_rows : Nat
  n_cols : Nat
  scalar_size : Nat
  mem_layout : Nat
  verbose : Bool
  vlevel : Nat
  force_reconnection : Bool
  safe : Bool
  deriving DecidableEq, Repr

/-- The life of a `Server` instance: not yet constructed, construction threw (no
object exists), or constructed with the given members. -/
inductive Life where
  | unborn
  | dead
  | alive (s : Server)
  deriving DecidableEq, Repr

/-- Whether the instance exists and is in the running state. -/
def Life.isRunning : Life → Bool
  | .alive s => s.running
  | _ => false

/-- The two instances. -/
inductive Inst where
  | a
  | b
  deriving DecidableEq, Repr

/-- The other instance. -/
def Inst.other : Inst → Inst
  | .a => .b
  | .b => .a

/-- Two `Server` instances created on the same `(basename, namespace)`, sharing
its named objects. The two instances are the only users of the names, so a
semaphore name that has been unlinked is only re-created when every existing
instance has closed its handle. -/
structure Pair (α : Type) where
  world : World α
  a : Life
  b : Life

/-- The operations of the interleaving. -/
inductive Op where
  | construct (i : Inst)
  | run (i : Inst)
  | stop (i : Inst)
  | close (i : Inst)
  deriving DecidableEq, Repr

namespace Pair

variable {α : Type}

/-- The life of instance `i`. -/
def get (p : Pair α) : Inst → Life
  | .a => p.a
  | .b => p.b

/-- Replaces the shared objects and the life of instance `i`. -/
def put (p : Pair α) (i : Inst) (w : World α) (l : Life) : Pair α :=
  match i with
  | .a => { p with world := w, a := l }
  | .b => { p with world := w, b := l }

/-- One operation of one instance, run to its end; the flag tells whether it
threw. `none` when the operation is outside the life cycle of the instance:
construction of an instance that was already constructed, any operation on an
instance that does not exist, `run()` after `close()`. -/
def step (cfg : Inst → ServerConfig) (p : Pair α) : Op → Option (Pair α × Bool)
  | .construct i =>
    match p.get i with
    | .unborn =>
      match Server.construct (cfg i).n_rows (cfg i).n_cols (cfg i).scalar_size
          (cfg i).mem_layout (cfg i).verbose (cfg i).vlevel (cfg i).force_reconnection
          (cfg i).safe p.world with
      | .ok st => some (p.put i st.2 (.alive st.1), false)
      | .fatal st => some (p.put i st.2 .dead, true)
    | _ => none
  | .run i =>
    match p.get i with
    | .alive s =>
      if s.terminated then none
      else
        match Server.run (s, p.world) with
        | .ok st => some (p.put i st.2 (.alive st.1), false)
        | .fatal st => some (p.put i st.2 (.alive st.1), true)
    | _ => none
  | .stop i =>
    match p.get i with
    | .alive s => some (p.put i (Server.stop (s, p.world)).2 (.alive (Server.stop (s, p.world)).1), false)
    | _ => none
  | .close i =>
    match p.get i with
    | .alive s =>
      some (p.put i (Server.close (s, p.world)).2 (.alive (Server.close (s, p.world)).1), false)
    | _ => none

/-- Runs an interleaving; `none` when one of its operations is outside the life
cycle of its instance. -/
def exec (cfg : Inst → ServerConfig) (p : Pair α) : List Op → Option (Pair α)
  | [] => some p
  | op :: rest =>
    match step cfg p op with
    | none => none
    | some r => exec cfg r.1 rest

/-- Before any instance exists, on the given named objects. -/
def start (w : World α) : Pair α := { world := w, a := .unborn, b := .unborn }

/-- The number of instances in the running state. -/
def nRunning (p : Pair α) : Nat :=
  (if p.a.isRunning then 1 else 0) + (if p.b.isRunning then 1 else 0)

/-- What holds between the operations of two servers that were both created with
`force_reconnection == false`: the counter of server-unique plus the number of
running instances is at most 1; a running instance has not been closed; no instance has
the force flag; while the name of server-unique is unlinked and an instance is
still to be constructed, every existing instance has been closed. -/
def Inv (p : Pair α) : Prop :=
  p.world.srvr_sem.value + p.nRunning ≤ 1 ∧
  (∀ i s, p.get i = .alive s →
    s.force_reconnection = false ∧ (s.running = true → s.terminated = false)) ∧
  (p.world.srvr_sem.linked = false → ∀ j, p.get j = .unborn →
    ∀ i s, p.get i = .alive s → s.terminated = true)

end Pair

/-- Two safe-mode 2x2 servers; only the second is created with
`force_reconnection == true` when `force` is set. -/
def Pair.sampleCfg (force : Bool) : Inst → ServerConfig
  | .a => { n_rows := 2, n_cols := 2, scalar_size := 4, mem_layout := 1, verbose := false,
            vlevel := 0, force_reconnection := false, safe := true }
  | .b => { n_rows := 2, n_cols := 2, scalar_size := 4, mem_layout := 1, verbose := false,
            vlevel := 0, force_reconnection := force, safe := true }

/-! ## Metadata, wire format and teardown: what the statements below talk about -/

/-- `EigenIPC::ColMajor = Eigen::ColMajor` (`DTypes.hpp`), Eigen's storage-order
code 0. -/
def ColMajor : Nat := 0

/-- `EigenIPC::RowMajor = Eigen::RowMajor` (`DTypes.hpp`), Eigen's storage-order
code 1. -/
def RowMajor : Nat := 1

/-- `Server::getNRows`. -/
def Server.getNRows (s : Server) : Int := s.n_rows

/-- `Server::getNCols`. -/
def Server.getNCols (s : Server) : Int := s.n_cols

/-- One call of `run`, `stop`, `write` or `read` (either overload) on a server. -/
inductive ServerCall (α : Type) where
  | run
  | stop
  | write (data : Tensor α) (row col : Int)
  | writeView (data : Tensor α) (row col : Int)
  | read (output : Tensor α) (row col : Int)
  | readView (output : Tensor α) (row col : Int)

/-- The server and the named objects after a call, whether it returned or threw. -/
def ServerCall.after {α : Type} : ServerCall α → ServerState α → ServerState α
  | .run, st => (Server.run st).state
  | .stop, st => Server.stop st
  | .write d r c, st => (Server.write d r c st).state.2
  | .writeView d r c, st => (Server.writeView d r c st).state.2
  | .read o r c, st => (Server.read o r c st).state.2.2
  | .readView o r c, st => (Server.readView o r c st).state.2.2

/-- The state after a sequence of calls. -/
def ServerCall.afterAll {α : Type} (calls : List (ServerCall α)) (st : ServerState α) :
    ServerState α :=
  calls.foldl (fun s c => c.after s) st

/-- The metadata cells that describe the tensor: `n_rows`, `n_cols`, element-type
code and layout code. -/
def World.shapeCells {α : Type} (w : World α) : Int × Int × Int × Int :=
  (w.n_rows_cell, w.n_cols_cell, w.dtype_cell, w.mem_layout_cell)

/-- The events emitted between the state `w` and the later state `w1`. -/
def World.since {α : Type} (w w1 : World α) : List Event := w1.log.drop w.log.length

/-- Whether an event is a diagnostic of the journal. -/
def Event.isJournal : Event → Bool
  | .journal _ _ => true
  | _ => false

/-- The seven named segments of a server. -/
def Segment.all : List Segment :=
  [.data, .nrows, .ncols, .clients, .dtype, .isrunning, .memlayout]

/-- The segments that `MemUtils::initMem` was called on in a trace. -/
def createdSegments (es : List Event) : List Segment :=
  Segment.all.filter fun g => decide (Event.initMem g ∈ es)

/-- The segments that `MemUtils::cleanUpMem` was called on in a trace. -/
def cleanedSegments (es : List Event) : List Segment :=
  Segment.all.filter fun g =>
    decide (Event.cleanUpMem g true ∈ es) || decide (Event.cleanUpMem g false ∈ es)

/-- The 32-bit pattern of an `int`. -/
def bitPattern32 (v : Int) : Nat := (v % 2 ^ 32).toNat

/-- The value the wire format gives to row `r` of the column of `S`: the sum over
`j` in `0..3` with `4r + j < |S|` of `S[4r+j] * 2^(8j)`. -/
def wireValue (S : List Byte) (r : Nat) : Nat :=
  ((List.range 4).map fun j =>
    if 4 * r + j < S.length then (S.getD (4 * r + j) 0).val * 2 ^ (8 * j) else 0).sum

/-- The rows of the cells that the outer loop of `_encode_str` assigns, in order:
one per started chunk of `sizeof(int)` bytes; `rest` is the string from index `i`
on. -/
def encodeRows (rest : List Byte) (row : Nat) : List Nat :=
  match rest with
  | [] => []
  | _ :: tl => row :: encodeRows (tl.drop 3) (row + 1)
termination_by rest.length
decreasing_by simp only [List.length_drop, List.length_cons]; omega

/-- The four bytes of a cell, least significant first. -/
def cellBytes (tmp : Int) : List Byte := [byteAt tmp 0, byteAt tmp 1, byteAt tmp 2, byteAt tmp 3]

/-- All the `n_rows * 4` bytes of column `col`: cell by cell from row 0 and within
a cell from the least significant byte upward. -/
def columnBytes (n_rows : Nat) (buf : Tensor Int) (col : Nat) : List Byte :=
  ((List.range n_rows).map fun r => cellBytes (buf.cell r col)).flatten

/-- The bytes of a list that precede its first zero byte, all of them if there is
none. -/
def untilZero (bs : List Byte) : List Byte := bs.takeWhile fun b => decide (b ≠ 0)

/-- The named objects on which creating the segment `g` reports the code `c`. -/
def World.failing (g : Segment) (c : ReturnCode) : World Int :=
  { World.initial with memFail := fun h => if h = g then [c] else [] }

/-- A two-cell column buffer holding `c0` in row 0 and `c1` in row 1 of column 0. -/
def columnOf (c0 c1 : Int) : Tensor Int :=
  ((Tensor.const 2 1 0).set 0 0 c0).set 1 0 c1

/-! ## Element types, semaphore holds and traces of a consumer -/

/-- `enum class DType` (`DTypes.hpp`), the image of `CppTypeToDType`: the element
types a `Server<Scalar, Layout>` can be instantiated with. -/
inductive DType where
  | Float
  | Double
  | Int
  | Bool
  deriving DecidableEq, Repr

/-- `sizeof(Scalar)` for the C++ type of a `DType`, with the usual host sizes:
`bool` 1, `int` 4, `float` 4, `double` 8. -/
def DType.sizeofScalar : DType → Nat
  | .Float => 4
  | .Double => 8
  | .Int => 4
  | .Bool => 1

/-- `Server<Scalar, Layout>::Server(...)` for the element type `T`. -/
def Server.constructFor {α : Type} (T : DType) (n_rows n_cols mem_layout : Nat) (verbose : Bool)
    (vlevel : Nat) (force_reconnection safe : Bool) (w : World α) : Outcome (ServerState α) :=
  Server.construct n_rows n_cols T.sizeofScalar mem_layout verbose vlevel force_reconnection
    safe w

/-- The number of acquisitions of the semaphore `n` in a trace (a forced
re-creation counts as one, it is "treated as acquired") minus the number of its
releases: how many holds of `n` the calls of the trace have left. -/
def heldSem (n : SemName) (es : List Event) : Int :=
  (es.count (.semAcquire n) : Int) + es.count (.semRecreate n) - es.count (.semRelease n)

/-- The actions emitted between the state `sh` and the later state `sh1`. -/
def Shared.since (sh sh1 : Shared) : List CEvent := sh1.trace.drop sh.trace.length

/-- Whether an action belongs to `Consumer::wait`: a read of the trigger counter,
a wait on `TriggerCond` or a diagnostic. -/
def CEvent.isWait : CEvent → Bool
  | .readTrigger _ => true
  | .timedWait _ => true
  | .blockingWait => true
  | .journal _ _ => true
  | _ => false

/-- The actions of one `Consumer::ack()` on a running consumer, in order: the read
of the ack counter, the write of the ack counter, `notify_one` on `AckCond`, with
the diagnostic that follows a failed read or write. -/
def ackActions (readOk writeOk : Bool) : List CEvent :=
  [.readAck readOk] ++ (if readOk then [] else [.journal .EXCEP false]) ++
    [.writeAck writeOk] ++ (if writeOk then [] else [.journal .EXCEP false]) ++ [.notifyOne]

/-- The effect of one call on the running flag, the is-running cell and the server
semaphore: flag and cell stay equal; a counter that is 0 when the server runs
and 1 when it does not stays so; the trace is extended, and the holds of the
semaphore change exactly as the flag does. -/
def ServerStep {α : Type} (st st1 : ServerState α) : Prop :=
  (st.1.running = st.2.isrunning_cell → st1.1.running = st1.2.isrunning_cell) ∧
  (st.2.srvr_sem.value + (if st.1.running then 1 else 0) = 1 →
    st1.2.srvr_sem.value + (if st1.1.running then 1 else 0) = 1) ∧
  ∃ es, st1.2.log = st.2.log ++ es ∧
    heldSem .serversem es =
      (if st1.1.running then 1 else 0) - (if st.1.running then 1 else 0)

/-! ## The legacy library `SharsorIPCpp`: `StringTensor` (`SharsorIPCpp/src/StringTensor.cpp`) -/

namespace SharsorIPCpp

variable {σ : Type}

/-- `StringTensor::_encode_str(str, col_index)` of the legacy library:
`_buffer.setZero()` resets the whole buffer, not the column; the loop is the one
of `EigenIPC` and assigns `_buffer(row, col_index)` once per started chunk. -/
def _encode_str (buf : Tensor Int) (str : List Byte) (col_index : Int) : Option (Tensor Int) :=
  match str with
  | [] => some { buf with cell := fun _ _ => 0 }
  | b :: tl =>
    if 0 ≤ col_index ∧ col_index < buf.cols then
      encodeLoop (b :: tl) 0 col_index.toNat { buf with cell := fun _ _ => 0 }
    else none

/-- `StringTensor::_fits(vec, index)` of the legacy library, evaluated in
`size_t`. -/
def _fits (t : StringTensor σ) (size : Nat) (index : Int) : Bool :=
  !decide ((toSizeT index + size) % 2 ^ 64 > toSizeT t.length)

/-- The loop of the legacy `_encode_vec`: one `_encode_str` per string,
`++col_index`. -/
def encodeVecLoop (buf : Tensor Int) : List (List Byte) → Int → Option (Tensor Int)
  | [], _ => some buf
  | str :: rest, col_index =>
    match _encode_str buf str col_index with
    | none => none
    | some buf1 => encodeVecLoop buf1 rest (col_index + 1)

/-- `StringTensor::_encode_vec` of the legacy library: its result and the new
buffer. -/
def _encode_vec (t : StringTensor σ) (vec : List (List Byte)) (col_index : Int) :
    Option (Bool × Tensor Int) :=
  if !_fits t vec.length col_index then some (false, t.buffer)
  else (encodeVecLoop t.buffer vec col_index).map fun b => (true, b)

/-- `StringTensor::write(const std::vector<std::string>&, int)` of the legacy
library. Its running branch is `return _encode_vec(vec, col_index);` followed by
the call of `_sh_mem.writeTensor(...)`, which is therefore never executed: the
underlying object `t.sh_mem` is returned as it was. -/
def write (t : StringTensor σ) (vec : List (List Byte)) (col_index : Int) :
    Option (Bool × StringTensor σ) :=
  if t.isRunning then
    match _encode_vec t vec col_index with
    | none => none
    | some (b, buf) => some (b, { t with buffer := buf })
  else some (false, t)

end SharsorIPCpp

end EigenIPC

/-! # Lemmas -/

namespace EigenIPC

/-! ## The string codec -/

theorem toInt32_shift_mod (p j : Nat) (hp : p < 2 ^ 32) (hj : j < 4) :
    (((toInt32 p) >>> (j * 8)) % 256).toNat = (p / 2 ^ (j * 8)) % 256 := by
  rw [Int.shiftRight_eq_div_pow]
  unfold toInt32
  have h4 : j = 0 ∨ j = 1 ∨ j = 2 ∨ j = 3 := by omega
  rcases h4 with h | h | h | h <;> subst h <;> norm_num <;> split <;> omega

theorem byteAt_toInt32 (p j : Nat) (hp : p < 2 ^ 32) (hj : j < 4) :
    (byteAt (toInt32 p) j).val = (p / 2 ^ (j * 8)) % 256 := by
  unfold byteAt
  rw [toInt32_shift_mod p j hp hj]
  simp [Fin.ofNat]

theorem or_shift_eq_add (tmp b j : Nat) (h : tmp < 2 ^ (j * 8)) :
    tmp ||| (b <<< (j * 8)) = tmp + b * 2 ^ (j * 8) := by
  rw [Nat.shiftLeft_eq, Nat.lor_comm, Nat.mul_comm, ← Nat.mul_add_lt_is_or h, Nat.add_comm]

theorem encodeChunk_done (rest : List Byte) (tmp : Nat) : encodeChunk rest 4 tmp = tmp := by
  cases rest <;> simp [encodeChunk]

theorem encodeChunk_eq_packLE (chunk : List Byte) : encodeChunk chunk 0 0 = packLE chunk := by
  match chunk with
  | [] => simp [encodeChunk, packLE]
  | [a] => simp [encodeChunk, packLE]
  | [a, b] =>
    have ha := a.isLt
    simp only [encodeChunk, packLE]
    norm_num
    rw [or_shift_eq_add a.val b.val 1 (by omega)]
    norm_num
  | [a, b, c] =>
    have ha := a.isLt
    have hb := b.isLt
    simp only [encodeChunk, packLE]
    norm_num
    rw [or_shift_eq_add a.val b.val 1 (by omega), or_shift_eq_add _ c.val 2 (by omega)]
    norm_num
  | a :: b :: c :: d :: rest =>
    have ha := a.isLt
    have hb := b.isLt
    have hc := c.isLt
    simp only [encodeChunk, packLE]
    norm_num
    rw [or_shift_eq_add a.val b.val 1 (by omega), or_shift_eq_add _ c.val 2 (by omega),
      or_shift_eq_add _ d.val 3 (by omega), encodeChunk_done]
    norm_num

theorem packLE_lt (chunk : List Byte) : packLE chunk < 2 ^ 32 := by
  match chunk with
  | [] => simp [packLE]
  | [a] => have := a.isLt; simp only [packLE]; omega
  | [a, b] => have := a.isLt; have := b.isLt; simp only [packLE]; omega
  | [a, b, c] => have := a.isLt; have := b.isLt; have := c.isLt; simp only [packLE]; omega
  | a :: b :: c :: d :: rest =>
    have := a.isLt; have := b.isLt; have := c.isLt; have := d.isLt; simp only [packLE]; omega

theorem byteAt_packLE (chunk : List Byte) (j : Nat) (hj : j < 4) :
    byteAt (toInt32 (packLE chunk)) j = chunk.getD j 0 := by
  apply Fin.ext
  rw [byteAt_toInt32 _ _ (packLE_lt chunk) hj]
  have h4 : j = 0 ∨ j = 1 ∨ j = 2 ∨ j = 3 := by omega
  match chunk with
  | [] => rcases h4 with h | h | h | h <;> subst h <;> simp [packLE]
  | [a] =>
    have := a.isLt
    rcases h4 with h | h | h | h <;> subst h <;> simp [packLE] <;> omega
  | [a, b] =>
    have := a.isLt; have := b.isLt
    rcases h4 with h | h | h | h <;> subst h <;> simp [packLE] <;> omega
  | [a, b, c] =>
    have := a.isLt; have := b.isLt; have := c.isLt
    rcases h4 with h | h | h | h <;> subst h <;> simp [packLE] <;> omega
  | a :: b :: c :: d :: rest =>
    have := a.isLt; have := b.isLt; have := c.isLt; have := d.isLt
    rcases h4 with h | h | h | h <;> subst h <;> simp [packLE] <;> omega

theorem decodeCell_packLE (chunk acc : List Byte) (hnz : ∀ b ∈ chunk.take 4, b ≠ 0) :
    decodeCell (toInt32 (packLE chunk)) 0 4 acc = acc ++ chunk.take 4 := by
  match chunk with
  | [] => simp [decodeCell, byteAt_packLE]
  | [a] =>
    have ha : a ≠ 0 := hnz a (by simp)
    simp [decodeCell, byteAt_packLE, ha]
  | [a, b] =>
    have ha : a ≠ 0 := hnz a (by simp)
    have hb : b ≠ 0 := hnz b (by simp)
    simp [decodeCell, byteAt_packLE, ha, hb]
  | [a, b, c] =>
    have ha : a ≠ 0 := hnz a (by simp)
    have hb : b ≠ 0 := hnz b (by simp)
    have hc : c ≠ 0 := hnz c (by simp)
    simp [decodeCell, byteAt_packLE, ha, hb, hc]
  | a :: b :: c :: d :: rest =>
    have ha : a ≠ 0 := hnz a (by simp)
    have hb : b ≠ 0 := hnz b (by simp)
    have hc : c ≠ 0 := hnz c (by simp)
    have hd : d ≠ 0 := hnz d (by simp)
    simp [decodeCell, byteAt_packLE, ha, hb, hc, hd]

theorem decodeCell_zero (acc : List Byte) : decodeCell 0 0 4 acc = acc := by
  have h := decodeCell_packLE [] acc (by simp)
  simpa [packLE, toInt32] using h

theorem encodeLoop_spec (n : Nat) : ∀ (str : List Byte) (row col : Nat) (buf : Tensor Int),
    str.length ≤ n → 4 * row + str.length ≤ 4 * buf.rows →
    ∃ buf', encodeLoop str row col buf = some buf' ∧ buf'.rows = buf.rows ∧
      buf'.cols = buf.cols ∧
      ∀ r c, buf'.cell r c =
        if c = col ∧ row ≤ r ∧ 4 * (r - row) < str.length then
          toInt32 (packLE (str.drop (4 * (r - row))))
        else buf.cell r c := by
  induction n with
  | zero =>
    intro str row col buf hn _
    have : str = [] := List.length_eq_zero.mp (Nat.le_zero.mp hn)
    subst this
    exact ⟨buf, by simp [encodeLoop], rfl, rfl, by simp⟩
  | succ n ih =>
    intro str row col buf hn hfit
    match str with
    | [] => exact ⟨buf, by simp [encodeLoop], rfl, rfl, by simp⟩
    | b :: tl =>
      have hrow : row < buf.rows := by simp at hfit; omega
      have hlen : (tl.drop 3).length ≤ n := by simp at hn ⊢; omega
      obtain ⟨buf', he, hr, hc, hcell⟩ := ih (tl.drop 3) (row + 1) col
        (buf.set row col (toInt32 (encodeChunk (b :: tl) 0 0))) hlen
        (by simp [Tensor.set] at hfit ⊢; omega)
      refine ⟨buf', ?_, hr, hc, ?_⟩
      · rw [encodeLoop]; simp [hrow, he]
      · intro r c
        rw [hcell r c, encodeChunk_eq_packLE]
        by_cases hcc : c = col
        · subst hcc
          rcases Nat.lt_trichotomy r row with hlt | heq | hgt
          · have h1 : ¬ (row + 1 ≤ r) := by omega
            have h2 : ¬ (row ≤ r) := by omega
            have h3 : r ≠ row := by omega
            simp [h1, h2, h3, Tensor.set]
          · subst heq
            simp [Tensor.set]
          · have h1 : row + 1 ≤ r := by omega
            have h2 : row ≤ r := by omega
            have h4 : 4 * (r - row) = 4 * (r - (row + 1)) + 4 := by omega
            have h5 : (4 * (r - (row + 1)) < tl.length - 3) ↔
                (4 * (r - row) < tl.length + 1) := by omega
            have h6 : r ≠ row := by omega
            have h7 : List.drop (4 * (r - row)) (b :: tl) =
                List.drop (4 * (r - (row + 1))) (List.drop 3 tl) := by
              rw [h4, List.drop_drop, List.drop_succ_cons, Nat.add_comm]
            simp only [h1, h2, true_and, List.length_drop, List.length_cons, h5, h7]
            simp [Tensor.set, h6]
        · simp [hcc, Tensor.set]

theorem encode_str_spec (buf : Tensor Int) (str : List Byte) (col : Int)
    (h0 : 0 ≤ col) (h1 : col < buf.cols) (hlen : str.length ≤ 4 * buf.rows) :
    ∃ buf', _encode_str buf str col = some buf' ∧ buf'.rows = buf.rows ∧
      buf'.cols = buf.cols ∧
      ∀ r c, buf'.cell r c = if c = col.toNat then encodedCell str r else buf.cell r c := by
  obtain ⟨buf', he, hr, hc, hcell⟩ := encodeLoop_spec str.length str 0 col.toNat
    (setColZero buf col.toNat) (Nat.le_refl _) (by simpa [setColZero] using hlen)
  refine ⟨buf', ?_, by simpa [setColZero] using hr, by simpa [setColZero] using hc, ?_⟩
  · simp [_encode_str, h0, h1, he]
  · intro r c
    rw [hcell r c]
    by_cases hcc : c = col.toNat
    · subst hcc
      simp [encodedCell, setColZero]
    · simp [hcc, setColZero]

theorem decodeLoop_encoded (buf : Tensor Int) (col : Nat) (S : List Byte)
    (hnz : ∀ b ∈ S, b ≠ 0) (fuel : Nat) : ∀ row : Nat,
    (∀ r, row ≤ r → r < row + fuel → buf.cell r col = encodedCell S r) →
    (S.take (4 * row)).length % 4 = 0 →
    decodeLoop buf col row fuel (S.take (4 * row)) = S.take (4 * (row + fuel)) := by
  induction fuel with
  | zero => intro row _ _; simp [decodeLoop]
  | succ fuel ih =>
    intro row hcells hacc
    have hcell := hcells row (Nat.le_refl _) (by omega)
    have hstep : decodeCell (buf.cell row col) 0 4 (S.take (4 * row)) = S.take (4 * (row + 1)) := by
      rw [hcell]
      unfold encodedCell
      split
      · rw [decodeCell_packLE _ _ (fun b hb => hnz b (List.mem_of_mem_drop (List.mem_of_mem_take hb)))]
        rw [Nat.mul_add, Nat.mul_one, List.take_add]
      · rw [decodeCell_zero]
        rw [List.take_of_length_le (by omega), List.take_of_length_le (by omega)]
    rw [decodeLoop, hstep]
    split
    · rename_i hbreak
      have : S.length < 4 * (row + 1) := by
        by_contra hcon
        rw [List.length_take, Nat.min_eq_left (by omega)] at hbreak
        omega
      rw [List.take_of_length_le (by omega), List.take_of_length_le (by omega)]
    · rename_i hcont
      rw [ih (row + 1) (fun r hr1 hr2 => hcells r (by omega) (by omega)) (by simpa using hcont)]
      congr 1
      omega

theorem decode_encoded (buf : Tensor Int) (col n_rows : Nat) (S : List Byte)
    (hnz : ∀ b ∈ S, b ≠ 0) (hlen : S.length ≤ 4 * n_rows)
    (hcells : ∀ r, r < n_rows → buf.cell r col = encodedCell S r) :
    decodeLoop buf col 0 n_rows [] = S := by
  have h := decodeLoop_encoded buf col S hnz n_rows 0
    (fun r _ hr => hcells r (by omega)) (by simp)
  simp only [Nat.mul_zero, List.take_zero, Nat.zero_add] at h
  rw [h, List.take_of_length_le hlen]

/-! ## Tensor server: lemmas -/

theorem Server.write_not_running {α : Type} (data : Tensor α) (row col : Int) (st : ServerState α)
    (h : st.1.running = false) :
    Server.write data row col st = .ok (false, Server._checkIsRunning st) := by
  simp [Server.write, h]

theorem Server.writeView_not_running {α : Type} (data : Tensor α) (row col : Int)
    (st : ServerState α) (h : st.1.running = false) :
    Server.writeView data row col st = .ok (false, Server._checkIsRunning st) := by
  simp [Server.writeView, h]

theorem Server.read_not_running {α : Type} (output : Tensor α) (row col : Int)
    (st : ServerState α) (h : st.1.running = false) :
    Server.read output row col st = .ok (false, output, Server._checkIsRunning st) := by
  simp [Server.read, h]

theorem Server.readView_not_running {α : Type} (output : Tensor α) (row col : Int)
    (st : ServerState α) (h : st.1.running = false) :
    Server.readView output row col st = .ok (false, output, Server._checkIsRunning st) := by
  simp [Server.readView, h]

theorem Server.checkIsRunning_spec {α : Type} (st : ServerState α) :
    (Server._checkIsRunning st).1 = st.1 ∧
    (Server._checkIsRunning st).2.tensor = st.2.tensor ∧
    (Server._checkIsRunning st).2.data_sem = st.2.data_sem ∧
    (Server._checkIsRunning st).2.srvr_sem = st.2.srvr_sem ∧
    (Server._checkIsRunning st).2.log =
      st.2.log ++ (if !st.1.running && st.1.verbose then [Event.journal .EXCEP false] else []) := by
  unfold Server._checkIsRunning
  split <;> simp_all [Journal.log, World.emit]

theorem Server.write_safe_busy {α : Type} (data : Tensor α) (row col : Int) (st : ServerState α)
    (hr : st.1.running = true) (hs : st.1.safe = true) (hv : st.2.data_sem.value = 0) :
    Server.write data row col st =
      .ok (false, ({ st.1 with data_acquired := false, return_code := [.SEMACQFAIL] },
        st.2.emit (.semAcquireFail .datasem))) := by
  simp [Server.write, hr, hs, Server._acquireData, Server._acquireSemOneShot,
    MemUtils.acquireSemOneShot, World.sem, hv, Server.isin]

theorem Server.write_safe_free {α : Type} (data : Tensor α) (row col : Int) (st : ServerState α)
    (hr : st.1.running = true) (hs : st.1.safe = true) (hv : 0 < st.2.data_sem.value) :
    Server.write data row col st =
      .ok ((MemUtils.write data st.2.tensor row col).1,
        ({ st.1 with data_acquired := true, return_code := [] },
          { st.2 with
            tensor := (MemUtils.write data st.2.tensor row col).2
            log := st.2.log ++ [.semAcquire .datasem,
              .memWrite (MemUtils.write data st.2.tensor row col).1, .semRelease .datasem] })) := by
  have h1 : st.2.data_sem.value - 1 + 1 = st.2.data_sem.value := by omega
  simp [Server.write, hr, hs, Server._acquireData, Server._acquireSemOneShot,
    MemUtils.acquireSemOneShot, World.sem, hv, Server.isin, World.setSem, World.emit,
    Server._releaseData, Server._releaseSem, MemUtils.releaseSem, h1]

theorem Server.write_unsafe {α : Type} (data : Tensor α) (row col : Int) (st : ServerState α)
    (hr : st.1.running = true) (hs : st.1.safe = false) :
    Server.write data row col st =
      .ok ((MemUtils.write data st.2.tensor row col).1,
        ({ st.1 with data_acquired := true },
          { st.2 with
            tensor := (MemUtils.write data st.2.tensor row col).2
            log := st.2.log ++ [.memWrite (MemUtils.write data st.2.tensor row col).1] })) := by
  simp [Server.write, hr, hs, World.emit]

theorem Server.writeView_safe_busy {α : Type} (data : Tensor α) (row col : Int) (st : ServerState α)
    (hr : st.1.running = true) (hs : st.1.safe = true) (hv : st.2.data_sem.value = 0) :
    Server.writeView data row col st =
      .ok (false, ({ st.1 with data_acquired := false, return_code := [.SEMACQFAIL] },
        st.2.emit (.semAcquireFail .datasem))) := by
  simp [Server.writeView, hr, hs, Server._acquireData, Server._acquireSemOneShot,
    MemUtils.acquireSemOneShot, World.sem, hv, Server.isin]

theorem Server.writeView_safe_free {α : Type} (data : Tensor α) (row col : Int) (st : ServerState α)
    (hr : st.1.running = true) (hs : st.1.safe = true) (hv : 0 < st.2.data_sem.value) :
    Server.writeView data row col st =
      .ok ((MemUtils.write data st.2.tensor row col).1,
        ({ st.1 with data_acquired := true, return_code := [] },
          { st.2 with
            tensor := (MemUtils.write data st.2.tensor row col).2
            log := st.2.log ++ [.semAcquire .datasem,
              .memWrite (MemUtils.write data st.2.tensor row col).1, .semRelease .datasem] })) := by
  have h1 : st.2.data_sem.value - 1 + 1 = st.2.data_sem.value := by omega
  simp [Server.writeView, hr, hs, Server._acquireData, Server._acquireSemOneShot,
    MemUtils.acquireSemOneShot, World.sem, hv, Server.isin, World.setSem, World.emit,
    Server._releaseData, Server._releaseSem, MemUtils.releaseSem, h1]

theorem Server.writeView_unsafe {α : Type} (data : Tensor α) (row col : Int) (st : ServerState α)
    (hr : st.1.running = true) (hs : st.1.safe = false) :
    Server.writeView data row col st =
      .ok ((MemUtils.write data st.2.tensor row col).1,
        ({ st.1 with data_acquired := true },
          { st.2 with
            tensor := (MemUtils.write data st.2.tensor row col).2
            log := st.2.log ++ [.memWrite (MemUtils.write data st.2.tensor row col).1] })) := by
  simp [Server.writeView, hr, hs, World.emit]

theorem Server.read_safe_busy {α : Type} (output : Tensor α) (row col : Int) (st : ServerState α)
    (hr : st.1.running = true) (hs : st.1.safe = true) (hv : st.2.data_sem.value = 0) :
    Server.read output row col st =
      .ok (false, output, ({ st.1 with data_acquired := false, return_code := [.SEMACQFAIL] },
        st.2.emit (.semAcquireFail .datasem))) := by
  simp [Server.read, hr, hs, Server._acquireData, Server._acquireSemOneShot,
    MemUtils.acquireSemOneShot, World.sem, hv, Server.isin]

theorem Server.read_safe_free {α : Type} (output : Tensor α) (row col : Int) (st : ServerState α)
    (hr : st.1.running = true) (hs : st.1.safe = true) (hv : 0 < st.2.data_sem.value) :
    Server.read output row col st =
      .ok ((MemUtils.read row col output st.2.tensor).1, (MemUtils.read row col output st.2.tensor).2,
        ({ st.1 with data_acquired := true, return_code := [] },
          { st.2 with
            log := st.2.log ++ [.semAcquire .datasem,
              .memRead (MemUtils.read row col output st.2.tensor).1, .semRelease .datasem] })) := by
  have h1 : st.2.data_sem.value - 1 + 1 = st.2.data_sem.value := by omega
  simp [Server.read, hr, hs, Server._acquireData, Server._acquireSemOneShot,
    MemUtils.acquireSemOneShot, World.sem, hv, Server.isin, World.setSem, World.emit,
    Server._releaseData, Server._releaseSem, MemUtils.releaseSem, h1]

theorem Server.read_unsafe {α : Type} (output : Tensor α) (row col : Int) (st : ServerState α)
    (hr : st.1.running = true) (hs : st.1.safe = false) :
    Server.read output row col st =
      .ok ((MemUtils.read row col output st.2.tensor).1, (MemUtils.read row col output st.2.tensor).2,
        ({ st.1 with data_acquired := true },
          { st.2 with
            log := st.2.log ++ [.memRead (MemUtils.read row col output st.2.tensor).1] })) := by
  simp [Server.read, hr, hs, World.emit]

theorem Server.readView_safe_busy {α : Type} (output : Tensor α) (row col : Int) (st : ServerState α)
    (hr : st.1.running = true) (hs : st.1.safe = true) (hv : st.2.data_sem.value = 0) :
    Server.readView output row col st =
      .ok (false, output, ({ st.1 with data_acquired := false, return_code := [.SEMACQFAIL] },
        st.2.emit (.semAcquireFail .datasem))) := by
  simp [Server.readView, hr, hs, Server._acquireData, Server._acquireSemOneShot,
    MemUtils.acquireSemOneShot, World.sem, hv, Server.isin]

theorem Server.readView_safe_free {α : Type} (output : Tensor α) (row col : Int) (st : ServerState α)
    (hr : st.1.running = true) (hs : st.1.safe = true) (hv : 0 < st.2.data_sem.value) :
    Server.readView output row col st =
      .ok ((MemUtils.read row col output st.2.tensor).1, (MemUtils.read row col output st.2.tensor).2,
        ({ st.1 with data_acquired := true, return_code := [] },
          { st.2 with
            log := st.2.log ++ [.semAcquire .datasem,
              .memRead (MemUtils.read row col output st.2.tensor).1, .semRelease .datasem] })) := by
  have h1 : st.2.data_sem.value - 1 + 1 = st.2.data_sem.value := by omega
  simp [Server.readView, hr, hs, Server._acquireData, Server._acquireSemOneShot,
    MemUtils.acquireSemOneShot, World.sem, hv, Server.isin, World.setSem, World.emit,
    Server._releaseData, Server._releaseSem, MemUtils.releaseSem, h1]

theorem Server.readView_unsafe {α : Type} (output : Tensor α) (row col : Int) (st : ServerState α)
    (hr : st.1.running = true) (hs : st.1.safe = false) :
    Server.readView output row col st =
      .ok ((MemUtils.read row col output st.2.tensor).1, (MemUtils.read row col output st.2.tensor).2,
        ({ st.1 with data_acquired := true },
          { st.2 with
            log := st.2.log ++ [.memRead (MemUtils.read row col output st.2.tensor).1] })) := by
  simp [Server.readView, hr, hs, World.emit]

theorem Server.logVerbose_spec {α : Type} (t : LogType) (st : ServerState α) :
    Server.logVerbose t st = (st.1, { st.2 with log := st.2.log ++
      (if st.1.verbose && decide (1 < st.1.vlevel) then [Event.journal t false] else []) }) := by
  unfold Server.logVerbose
  split <;> rename_i h
  · cases t <;> simp [Journal.log, World.emit, h]
  · simp [h]

theorem Server.initSems_spec {α : Type} (st : ServerState α)
    (hs : st.2.srvr_sem.value = 1) (hd : st.2.data_sem.value = 1) :
    ∃ ss ds : NamedSem, ss.value = 1 ∧ ds.value = 1 ∧
      Server._initSems st = (st.1, { st.2 with
        srvr_sem := ss, data_sem := ds
        log := st.2.log ++ [.semInit .serversem, .semInit .datasem] }) := by
  refine ⟨if st.2.srvr_sem.linked then st.2.srvr_sem else { value := 1, linked := true },
    if st.2.data_sem.linked then st.2.data_sem else { value := 1, linked := true }, ?_, ?_, ?_⟩
  · split <;> simp [hs]
  · split <;> simp [hd]
  · simp [Server._initSems, MemUtils.semInit, World.sem, World.setSem, World.emit]

theorem Server.acquireSemTimeout_data_free {α : Type} (st : ServerState α)
    (hd : 0 < st.2.data_sem.value) :
    Server._acquireSemTimeout .datasem st = .ok ({ st.1 with return_code := [] },
      { st.2 with data_sem := { st.2.data_sem with value := st.2.data_sem.value - 1 }
                  log := st.2.log ++ [.semAcquire .datasem] }) := by
  simp [Server._acquireSemTimeout, MemUtils.acquireSemTimeout, World.sem, World.setSem,
    World.emit, hd, Server.isin]

theorem Server.acquireSemTimeout_server_free {α : Type} (st : ServerState α)
    (hd : 0 < st.2.srvr_sem.value) :
    Server._acquireSemTimeout .serversem st = .ok ({ st.1 with return_code := [] },
      { st.2 with srvr_sem := { st.2.srvr_sem with value := st.2.srvr_sem.value - 1 }
                  log := st.2.log ++ [.semAcquire .serversem] }) := by
  simp [Server._acquireSemTimeout, MemUtils.acquireSemTimeout, World.sem, World.setSem,
    World.emit, hd, Server.isin]

theorem Server.releaseSem_data {α : Type} (st : ServerState α) :
    Server._releaseSem .datasem st = .ok ({ st.1 with return_code := [] },
      { st.2 with data_sem := { st.2.data_sem with value := st.2.data_sem.value + 1 }
                  log := st.2.log ++ [.semRelease .datasem] }) := by
  simp [Server._releaseSem, MemUtils.releaseSem, World.sem, World.setSem, World.emit,
    Server.isin]

theorem Server.initDataMem_spec {α : Type} (st : ServerState α) :
    Server._initDataMem st = .ok ({ st.1 with return_code := [] },
      { st.2 with
        tensor := { rows := st.1.n_rows, cols := st.1.n_cols, cell := st.2.tensor.cell }
        log := st.2.log ++ [.initMem .data] }) := by
  simp [Server._initDataMem, Server.isin, MemUtils.initMem, World.emit]

theorem Server.initMetaMem_ok {α : Type} (st st' : ServerState α)
    (h : Server._initMetaMem st = .ok st') :
    st' = ({ st.1 with return_code := [] },
      { st.2 with
        n_rows_cell := st.1.n_rows
        n_cols_cell := st.1.n_cols
        n_clients_cell := 0
        isrunning_cell := false
        mem_layout_cell := st.1.mem_layout
        dtype_cell := st.1.scalar_size
        log := st.2.log ++ [.initMem .nrows, .initMem .ncols, .initMem .clients,
          .initMem .dtype, .initMem .isrunning, .initMem .memlayout] }) := by
  unfold Server._initMetaMem at h
  dsimp only at h
  split at h
  · injection h with h
    rw [← h]
    simp [MemUtils.initMem, World.emit]
  · cases h

theorem Server.construct_spec {α : Type} (n_rows n_cols scalar_size mem_layout : Nat)
    (verbose : Bool) (vlevel : Nat) (force_reconnection safe : Bool) (w : World α)
    (hs : w.srvr_sem.value = 1) (hd : w.data_sem.value = 1) (st : ServerState α)
    (hc : Server.construct n_rows n_cols scalar_size mem_layout verbose vlevel
      force_reconnection safe w = .ok st) :
    st.1 = Server.init n_rows n_cols scalar_size mem_layout verbose vlevel force_reconnection safe ∧
    st.2.data_sem.value = 0 ∧ st.2.srvr_sem.value = 1 ∧ st.2.isrunning_cell = false ∧
    ∃ tail, st.2.log = w.log ++ tail ∧ tail.count (.semAcquire .datasem) = 1 ∧
      tail.count (.semRelease .datasem) = 0 ∧ tail.count (.semAcquire .serversem) = 0 := by
  unfold Server.construct at hc
  dsimp only at hc
  generalize hst1 : (if (force_reconnection && verbose && decide (1 < vlevel)) = true then
      (Server.init n_rows n_cols scalar_size mem_layout verbose vlevel force_reconnection safe,
        (Journal.log LogType.WARN false w).1)
    else (Server.init n_rows n_cols scalar_size mem_layout verbose vlevel force_reconnection safe,
        w)) = st1 at hc
  have h1 : st1.1 = Server.init n_rows n_cols scalar_size mem_layout verbose vlevel
      force_reconnection safe ∧ st1.2.srvr_sem.value = 1 ∧ st1.2.data_sem.value = 1 ∧
      ∃ t1, st1.2.log = w.log ++ t1 ∧ ∀ e ∈ t1, ∃ t b, e = Event.journal t b := by
    rw [← hst1]
    split
    · exact ⟨rfl, hs, hd, [Event.journal .WARN false], by simp [Journal.log, World.emit], by simp⟩
    · exact ⟨rfl, hs, hd, [], by simp, by simp⟩
  obtain ⟨h1a, h1s, h1d, t1, h1l, h1j⟩ := h1
  rw [Server.logVerbose_spec] at hc
  obtain ⟨ss, ds, hss, hds, hinit⟩ := Server.initSems_spec
    (st1.1, { st1.2 with log := st1.2.log ++
      (if st1.1.verbose && decide (1 < st1.1.vlevel) then [Event.journal .STAT false] else []) })
    h1s h1d
  rw [hinit, Server.acquireSemTimeout_data_free _ (by simp [hds])] at hc
  dsimp only at hc
  rw [Server.initDataMem_spec] at hc
  dsimp only at hc
  split at hc
  · cases hc
  · rename_i st4 hmeta
    have h4 := Server.initMetaMem_ok _ _ hmeta
    rw [Server.logVerbose_spec] at hc
    injection hc with hc
    subst hc
    subst h4
    refine ⟨?_, ?_, ?_, ?_, ?_⟩
    · simp [h1a, Server.init]
    · simp [hds, MemUtils.checkMem, World.emit]
    · simp [hss, MemUtils.checkMem, World.emit]
    · simp
    · dsimp only [MemUtils.checkMem, World.emit]
      rw [h1l]
      simp only [List.append_assoc]
      refine ⟨_, rfl, ?_, ?_, ?_⟩ <;>
      · simp only [List.count_append]
        have hz : ∀ e : Event, (∀ t b, e ≠ Event.journal t b) → t1.count e = 0 := by
          intro e he
          apply List.count_eq_zero_of_not_mem
          intro hmem
          obtain ⟨t, b, hb⟩ := h1j e hmem
          exact he t b hb
        rw [hz _ (by intro t b h; cases h)]
        by_cases hv : (st1.1.verbose && decide (1 < st1.1.vlevel)) = true <;> simp [hv]

theorem Server.run_spec {α : Type} (st : ServerState α) (hr : st.1.running = false)
    (hs : 0 < st.2.srvr_sem.value) :
    Server.run st = .ok ({ st.1 with return_code := [], running := true },
      { st.2 with
        srvr_sem := { st.2.srvr_sem with value := st.2.srvr_sem.value - 1 }
        data_sem := { st.2.data_sem with value := st.2.data_sem.value + 1 }
        isrunning_cell := true
        log := st.2.log ++ [.semAcquire .serversem, .semRelease .datasem] ++
          (if st.1.verbose && decide (1 < st.1.vlevel) then [Event.journal .STAT false] else []) }) := by
  unfold Server.run
  simp only [Server.isRunning, hr]
  rw [Server.acquireSemTimeout_server_free _ hs]
  dsimp only
  rw [Server.releaseSem_data]
  dsimp only
  rw [Server.logVerbose_spec]
  simp

theorem Server.write_granted {α : Type} (data : Tensor α) (row col : Int) (st : ServerState α)
    (hr : st.1.running = true) (hg : st.1.safe = false ∨ 0 < st.2.data_sem.value) :
    ∃ st', Server.write data row col st = .ok ((MemUtils.write data st.2.tensor row col).1, st') ∧
      st'.2.tensor = (MemUtils.write data st.2.tensor row col).2 ∧
      st'.1.running = true ∧ st'.1.safe = st.1.safe ∧ st'.2.data_sem = st.2.data_sem := by
  by_cases hs : st.1.safe = true
  · have hv : 0 < st.2.data_sem.value := by
      rcases hg with h | h
      · rw [hs] at h; cases h
      · exact h
    exact ⟨_, Server.write_safe_free data row col st hr hs hv, rfl, hr, rfl, rfl⟩
  · have hs' : st.1.safe = false := by simpa using hs
    exact ⟨_, Server.write_unsafe data row col st hr hs', rfl, hr, rfl, rfl⟩

theorem Server.writeView_granted {α : Type} (data : Tensor α) (row col : Int) (st : ServerState α)
    (hr : st.1.running = true) (hg : st.1.safe = false ∨ 0 < st.2.data_sem.value) :
    ∃ st', Server.writeView data row col st =
        .ok ((MemUtils.write data st.2.tensor row col).1, st') ∧
      st'.2.tensor = (MemUtils.write data st.2.tensor row col).2 ∧
      st'.1.running = true ∧ st'.1.safe = st.1.safe ∧ st'.2.data_sem = st.2.data_sem := by
  by_cases hs : st.1.safe = true
  · have hv : 0 < st.2.data_sem.value := by
      rcases hg with h | h
      · rw [hs] at h; cases h
      · exact h
    exact ⟨_, Server.writeView_safe_free data row col st hr hs hv, rfl, hr, rfl, rfl⟩
  · have hs' : st.1.safe = false := by simpa using hs
    exact ⟨_, Server.writeView_unsafe data row col st hr hs', rfl, hr, rfl, rfl⟩

theorem Server.read_granted {α : Type} (output : Tensor α) (row col : Int) (st : ServerState α)
    (hr : st.1.running = true) (hg : st.1.safe = false ∨ 0 < st.2.data_sem.value) :
    ∃ st', Server.read output row col st =
        .ok ((MemUtils.read row col output st.2.tensor).1,
          (MemUtils.read row col output st.2.tensor).2, st') ∧
      st'.2.tensor = st.2.tensor ∧
      st'.1.running = true ∧ st'.1.safe = st.1.safe ∧ st'.2.data_sem = st.2.data_sem := by
  by_cases hs : st.1.safe = true
  · have hv : 0 < st.2.data_sem.value := by
      rcases hg with h | h
      · rw [hs] at h; cases h
      · exact h
    exact ⟨_, Server.read_safe_free output row col st hr hs hv, rfl, hr, rfl, rfl⟩
  · have hs' : st.1.safe = false := by simpa using hs
    exact ⟨_, Server.read_unsafe output row col st hr hs', rfl, hr, rfl, rfl⟩

theorem MemUtils.write_fits {α : Type} (src dst : Tensor α) (row col : Int)
    (h0 : 0 ≤ row) (h1 : 0 ≤ col) (h2 : row + src.rows ≤ dst.rows) (h3 : col + src.cols ≤ dst.cols) :
    MemUtils.write src dst row col = (true, dst.setBlock row.toNat col.toNat src) := by
  simp [MemUtils.write, MemUtils.blockFits, h0, h1, h2, h3]

theorem MemUtils.read_fits {α : Type} (dst src : Tensor α) (row col : Int)
    (h0 : 0 ≤ row) (h1 : 0 ≤ col) (h2 : row + dst.rows ≤ src.rows) (h3 : col + dst.cols ≤ src.cols) :
    MemUtils.read row col dst src =
      (true, dst.setBlock 0 0 (src.block row.toNat col.toNat dst.rows dst.cols)) := by
  simp [MemUtils.read, MemUtils.blockFits, h0, h1, h2, h3]

/-- What a reader of the whole tensor sees after a block write. -/
theorem Server.write_then_read {α : Type} (wr : Tensor α → Int → Int → ServerState α →
      Outcome (Bool × ServerState α))
    (hwr : ∀ data row col st, st.1.running = true →
      (st.1.safe = false ∨ 0 < st.2.data_sem.value) →
      ∃ st', wr data row col st = .ok ((MemUtils.write data st.2.tensor row col).1, st') ∧
        st'.2.tensor = (MemUtils.write data st.2.tensor row col).2 ∧
        st'.1.running = true ∧ st'.1.safe = st.1.safe ∧ st'.2.data_sem = st.2.data_sem)
    (n_rows n_cols : Nat) (st : ServerState α)
    (hrows : st.2.tensor.rows = n_rows) (hcols : st.2.tensor.cols = n_cols)
    (hr : st.1.running = true) (hg : st.1.safe = false ∨ 0 < st.2.data_sem.value)
    (B : Tensor α) (r c : Int) (hr0 : 0 ≤ r) (hc0 : 0 ≤ c)
    (hrf : r + B.rows ≤ n_rows) (hcf : c + B.cols ≤ n_cols)
    (R : Tensor α) (hRr : R.rows = n_rows) (hRc : R.cols = n_cols) :
    ∃ st1 R' st2, wr B r c st = .ok (true, st1) ∧
      Server.read R 0 0 st1 = .ok (true, R', st2) ∧ R'.rows = n_rows ∧ R'.cols = n_cols ∧
      ∀ i j : Nat, i < n_rows → j < n_cols →
        R'.cell i j =
          if r ≤ i ∧ i < r + B.rows ∧ c ≤ j ∧ j < c + B.cols then
            B.cell (i - r.toNat) (j - c.toNat)
          else st.2.tensor.cell i j := by
  obtain ⟨st1, hw, ht1, hr1, hs1, hd1⟩ := hwr B r c st hr hg
  rw [MemUtils.write_fits B st.2.tensor r c hr0 hc0 (by omega) (by omega)] at hw ht1
  have hg1 : st1.1.safe = false ∨ 0 < st1.2.data_sem.value := by rw [hs1, hd1]; exact hg
  obtain ⟨st2, hrd, _, _, _, _⟩ := Server.read_granted R 0 0 st1 hr1 hg1
  have hshape1 : st1.2.tensor.rows = n_rows ∧ st1.2.tensor.cols = n_cols := by
    rw [ht1]; exact ⟨hrows, hcols⟩
  rw [MemUtils.read_fits R st1.2.tensor 0 0 (le_refl _) (le_refl _)
    (by omega) (by omega)] at hrd
  refine ⟨st1, _, st2, hw, hrd, hRr, hRc, ?_⟩
  intro i j hi hj
  simp only [Tensor.setBlock, Tensor.block, ht1, hRr, hRc, Int.toNat_zero, Nat.zero_le,
    Nat.zero_add, hi, hj, true_and, and_self, if_true, Nat.sub_zero]
  have e1 : (r.toNat ≤ i ∧ i < r.toNat + B.rows ∧ c.toNat ≤ j ∧ j < c.toNat + B.cols) ↔
      (r ≤ (i : Int) ∧ (i : Int) < r + B.rows ∧ c ≤ (j : Int) ∧ (j : Int) < c + B.cols) := by
    omega
  by_cases hin : r.toNat ≤ i ∧ i < r.toNat + B.rows ∧ c.toNat ≤ j ∧ j < c.toNat + B.cols
  · rw [if_pos hin, if_pos (e1.mp hin)]
  · rw [if_neg hin, if_neg (fun h => hin (e1.mpr h))]

/-! ## String tensor wrapper -/

theorem StringTensor.fits_of_le {σ : Type} (t : StringTensor σ) (size : Nat) (index : Int)
    (h0 : 0 ≤ index) (h1 : index + size ≤ t.length) (hint : t.length < 2 ^ 31) :
    StringTensor._fits t size index = true := by
  unfold StringTensor._fits toSizeT
  have e1 : (index % 2 ^ 64).toNat = index.toNat := by
    congr 1
    exact Int.emod_eq_of_lt h0 (by omega)
  have e2 : (((t.length : Nat) : Int) % 2 ^ 64).toNat = t.length := by
    rw [Int.emod_eq_of_lt (by omega) (by omega)]
    simp
  rw [e1, e2]
  have : (index.toNat + size) % 2 ^ 64 = index.toNat + size := Nat.mod_eq_of_lt (by omega)
  rw [this]
  simp
  omega

theorem StringTensor.encodeVecLoop_spec (vec : List (List Byte)) :
    ∀ (buf : Tensor Int) (col : Int), 0 ≤ col → col + vec.length ≤ buf.cols →
    (∀ s ∈ vec, s.length ≤ 4 * buf.rows) →
    ∃ buf', StringTensor.encodeVecLoop buf vec col = some buf' ∧ buf'.rows = buf.rows ∧
      buf'.cols = buf.cols ∧
      ∀ r c, buf'.cell r c =
        if col.toNat ≤ c ∧ c < col.toNat + vec.length then
          encodedCell (vec.getD (c - col.toNat) []) r
        else buf.cell r c := by
  induction vec with
  | nil =>
    intro buf col _ _ _
    refine ⟨buf, rfl, rfl, rfl, fun r c => ?_⟩
    have : ¬ (col.toNat ≤ c ∧ c < col.toNat + ([] : List (List Byte)).length) := by
      simp only [List.length_nil]; omega
    rw [if_neg this]
  | cons s rest ih =>
    intro buf col h0 h1 hlen
    simp only [List.length_cons, Nat.cast_add, Nat.cast_one] at h1
    obtain ⟨buf1, he1, hr1, hc1, hcell1⟩ := encode_str_spec buf s col h0 (by omega)
      (hlen s (List.mem_cons_self _ _))
    obtain ⟨buf2, he2, hr2, hc2, hcell2⟩ := ih buf1 (col + 1) (by omega) (by omega)
      (fun x hx => by rw [hr1]; exact hlen x (List.mem_cons_of_mem _ hx))
    refine ⟨buf2, ?_, by omega, by omega, ?_⟩
    · simp [StringTensor.encodeVecLoop, he1, he2]
    · intro r c
      rw [hcell2 r c, hcell1 r c]
      have ek : (col + 1).toNat = col.toNat + 1 := by omega
      rw [ek]
      by_cases hc : c = col.toNat
      · subst hc
        simp
      · by_cases hin : col.toNat + 1 ≤ c ∧ c < col.toNat + 1 + rest.length
        · have hin' : col.toNat ≤ c ∧ c < col.toNat + (rest.length + 1) := by omega
          have e3 : c - col.toNat = (c - (col.toNat + 1)) + 1 := by omega
          rw [if_pos hin, List.length_cons, if_pos hin', e3, List.getD_cons_succ]
        · have hin' : ¬ (col.toNat ≤ c ∧ c < col.toNat + (rest.length + 1)) := by omega
          rw [if_neg hin, List.length_cons, if_neg hin', if_neg hc]

theorem wrapInt32_of_range (x : Int) (h1 : -2 ^ 31 ≤ x) (h2 : x < 2 ^ 31) : wrapInt32 x = x := by
  unfold wrapInt32
  omega

theorem Consumer.check_trigger_fatal_iff (o : Obs) (st : ConsumerState) :
    (Consumer._check_trigger_received o st).isFatal = true ↔
      ¬ (Consumer.delta o st.1 = 0 ∨ Consumer.delta o st.1 = 1) := by
  unfold Consumer._check_trigger_received Consumer.delta
  dsimp only
  generalize (if o.readOk = true then o.value else st.1.trigger_counter) = tc
  generalize wrapInt32 (tc - st.1.internal_trigger_counter) = d
  by_cases h1 : d > 1 ∨ d < 0
  · rw [if_pos h1]
    simp only [Outcome.isFatal, true_iff]
    omega
  · rw [if_neg h1]
    by_cases h2 : d = 1
    · rw [if_pos h2]
      simp only [Outcome.isFatal, Bool.false_eq_true, false_iff, not_not]
      omega
    · rw [if_neg h2]
      simp only [Outcome.isFatal, Bool.false_eq_true, false_iff, not_not]
      omega

theorem Consumer.check_trigger_delta_one (o : Obs) (st : ConsumerState)
    (h : Consumer.delta o st.1 = 1) :
    Consumer._check_trigger_received o st = .ok (true,
      ({ st.1 with
          trigger_counter := if o.readOk then o.value else st.1.trigger_counter
          trigger_counter_increment := 1
          internal_trigger_counter := if o.readOk then o.value else st.1.trigger_counter },
        st.2.emit (.readTrigger o.readOk))) := by
  unfold Consumer.delta at h
  unfold Consumer._check_trigger_received
  dsimp only
  rw [h]
  simp

theorem Consumer.check_trigger_delta_zero (o : Obs) (st : ConsumerState)
    (h : Consumer.delta o st.1 = 0) :
    Consumer._check_trigger_received o st = .ok (false,
      ({ st.1 with
          trigger_counter := if o.readOk then o.value else st.1.trigger_counter
          trigger_counter_increment := 0 },
        st.2.emit (.readTrigger o.readOk))) := by
  unfold Consumer.delta at h
  unfold Consumer._check_trigger_received
  dsimp only
  rw [h]
  simp

theorem Consumer.check_trigger_true (o : Obs) (st : ConsumerState) (r : ConsumerState)
    (h : Consumer._check_trigger_received o st = .ok (true, r)) :
    Consumer.delta o st.1 = 1 ∧ r.1.trigger_counter_increment = 1 ∧
      r.1.internal_trigger_counter = r.1.trigger_counter := by
  have hd : Consumer.delta o st.1 = 1 := by
    by_contra hne
    by_cases h0 : Consumer.delta o st.1 = 0
    · rw [Consumer.check_trigger_delta_zero o st h0] at h
      injection h with h
      injection h with h _
      cases h
    · have hf := (Consumer.check_trigger_fatal_iff o st).mpr (by omega)
      rw [h] at hf
      cases hf
  rw [Consumer.check_trigger_delta_one o st hd] at h
  injection h with h
  injection h with _ h
  subst h
  exact ⟨hd, rfl, rfl⟩

theorem Consumer.waitLoop_true (ms : Int) (obs : List Obs) : ∀ (st r : ConsumerState),
    Consumer.waitLoop ms obs st = some (.ok (true, r)) →
    r.1.trigger_counter_increment = 1 ∧
      r.1.internal_trigger_counter = r.1.trigger_counter ∧
      ∃ o ∈ obs, ∃ st0 : ConsumerState, Consumer.delta o st0.1 = 1 ∧
        r.1.trigger_counter = (if o.readOk then o.value else st0.1.trigger_counter) := by
  induction obs with
  | nil => intro st r h; cases h
  | cons o rest ih =>
    intro st r h
    unfold Consumer.waitLoop at h
    split at h
    · cases h
    · rename_i st1 hck
      injection h with h
      injection h with h
      injection h with _ h
      obtain ⟨hd, h1, h2⟩ := Consumer.check_trigger_true o st st1 hck
      subst h
      refine ⟨h1, h2, o, List.mem_cons_self _ _, st, hd, ?_⟩
      rw [Consumer.check_trigger_delta_one o st hd] at hck
      injection hck with hck
      injection hck with _ hck
      rw [← hck]
    · rename_i st1 hck
      dsimp only at h
      split at h
      · injection h with h
        injection h with h
        injection h with h _
        cases h
      · obtain ⟨h1, h2, o', ho', hrest⟩ := ih _ r h
        exact ⟨h1, h2, o', List.mem_cons_of_mem _ ho', hrest⟩

theorem Consumer.wait_true (ms : Int) (obs : List Obs) (st r : ConsumerState)
    (h : Consumer.wait ms obs st = some (.ok (true, r))) :
    r.1.trigger_counter_increment = 1 ∧
      r.1.internal_trigger_counter = r.1.trigger_counter ∧
      ∃ o ∈ obs, ∃ st0 : ConsumerState, Consumer.delta o st0.1 = 1 ∧
        r.1.trigger_counter = (if o.readOk then o.value else st0.1.trigger_counter) := by
  unfold Consumer.wait at h
  split at h
  · injection h with h
    cases h
  · exact Consumer.waitLoop_true ms obs _ r h

/-! ## Trigger/ack barrier -/

theorem wrapInt32_succ_sub (t : Int) : wrapInt32 (wrapInt32 (t + 1) - t) = 1 := by
  unfold wrapInt32
  omega

theorem wrapInt32_wrap_add (a b : Int) : wrapInt32 (wrapInt32 a + b) = wrapInt32 (a + b) := by
  unfold wrapInt32
  omega

theorem Consumer.wait_step (c : Consumer) (sh : Shared) (v : Int) (hr : c.is_running = true)
    (hd : wrapInt32 (v - c.internal_trigger_counter) = 1) :
    Consumer.wait (-1) [{ readOk := true, value := v, notified := false }] (c, sh) =
      some (.ok (true,
        ({ c with trigger_received := true, trigger_counter := v,
                  trigger_counter_increment := 1, internal_trigger_counter := v },
          sh.emit (.readTrigger true)))) := by
  obtain ⟨ir, cl, tr, tmo, itc, tci, fc, tc, ac⟩ := c
  simp only at hr hd
  subst hr
  have hdel : Consumer.delta { readOk := true, value := v, notified := false }
      (({ is_running := true, closed := cl, trigger_received := false, timeout := tmo,
          internal_trigger_counter := itc, trigger_counter_increment := tci, fail_count := fc,
          trigger_counter := tc, ack_counter := ac } : Consumer), sh).1 = 1 := by
    simpa [Consumer.delta] using hd
  simp only [Consumer.wait, Consumer._check_running, Bool.not_true, Bool.false_eq_true,
    if_false, Consumer.waitLoop]
  rw [Consumer.check_trigger_delta_one _ _ hdel]
  simp

theorem Consumer.ack_step (c : Consumer) (sh : Shared) (hr : c.is_running = true) :
    Consumer.ack true true (c, sh) =
      .ok (true,
        ({ c with fail_count := 0, ack_counter := wrapInt32 (sh.ack + 1) },
          { ack := wrapInt32 (sh.ack + 1),
            trace := sh.trace ++ [.readAck true, .writeAck true, .notifyOne] })) := by
  simp [Consumer.ack, Consumer._check_running, hr, Consumer._acknowledge, Shared.emit]

theorem Barrier.step_wait (b : Barrier) (i : Nat) (c : Consumer)
    (hc : b.consumers.get? i = some c) (hr : c.is_running = true)
    (hd : wrapInt32 (b.trigger - c.internal_trigger_counter) = 1) :
    Barrier.step b (.wait i) =
      ({ b with
          sh := b.sh.emit (.readTrigger true)
          consumers := b.consumers.set i
            { c with trigger_received := true, trigger_counter := b.trigger,
                     trigger_counter_increment := 1, internal_trigger_counter := b.trigger } },
        .returned true) := by
  simp only [Barrier.step, hc, Consumer.wait_step c b.sh b.trigger hr hd]

theorem Barrier.step_ack (b : Barrier) (i : Nat) (c : Consumer)
    (hc : b.consumers.get? i = some c) (hr : c.is_running = true) :
    Barrier.step b (.ack i) =
      ({ b with
          sh := { ack := wrapInt32 (b.sh.ack + 1),
                  trace := b.sh.trace ++ [.readAck true, .writeAck true, .notifyOne] }
          consumers := b.consumers.set i
            { c with fail_count := 0, ack_counter := wrapInt32 (b.sh.ack + 1) } },
        .returned true) := by
  simp only [Barrier.step, hc, Consumer.ack_step c b.sh hr]

theorem Barrier.get?_of_lt (b : Barrier) (i : Nat) (h : i < b.consumers.length) :
    ∃ c, b.consumers.get? i = some c := by
  cases hg : b.consumers.get? i with
  | some c => exact ⟨c, rfl⟩
  | none =>
    rw [List.get?_eq_none] at hg
    omega

theorem wrapInt32_idem (a : Int) : wrapInt32 (wrapInt32 a) = wrapInt32 a := by
  unfold wrapInt32
  omega

theorem Barrier.exec_round (n : Nat) (t t' : Int) (hd : wrapInt32 (t' - t) = 1)
    (rest : List Call) : ∀ b : Barrier, Barrier.InRound n t t' rest b →
    wrapInt32 b.sh.ack = b.sh.ack →
    (∀ x ∈ (Barrier.exec b rest).2, x = CallResult.returned true) ∧
      Barrier.InRound n t t' [] (Barrier.exec b rest).1 ∧
      (Barrier.exec b rest).1.sh.ack = wrapInt32 (b.sh.ack + rest.countP Barrier.isAck) := by
  induction rest with
  | nil =>
    intro b hb hrg
    refine ⟨by simp [Barrier.exec], hb, ?_⟩
    simp only [Barrier.exec, List.countP_nil, Nat.cast_zero, add_zero, hrg]
  | cons call rest ih =>
    intro b hb hrg
    obtain ⟨htr, hlen, hcs, hnd, hnt, hw, ha⟩ := hb
    have hnd' := List.nodup_cons.mp hnd
    cases call with
    | trigger => exact absurd (List.mem_cons_self _ _) hnt
    | wait i =>
      have hi : i < n := hw i (List.mem_cons_self _ _)
      obtain ⟨c, hc⟩ := Barrier.get?_of_lt b i (by omega)
      have hci := hcs i c hc
      rw [if_pos (List.mem_cons_self _ _)] at hci
      have hstep := Barrier.step_wait b i c hc hci.1 (by rw [htr, hci.2]; exact hd)
      have hinv : Barrier.InRound n t t' rest (Barrier.step b (.wait i)).1 := by
        rw [hstep]
        refine ⟨htr, by simpa using hlen, ?_, hnd'.2, fun h => hnt (List.mem_cons_of_mem _ h),
          fun j hj => hw j (List.mem_cons_of_mem _ hj),
          fun j hj => ha j (List.mem_cons_of_mem _ hj)⟩
        intro j cj hj
        simp only [List.get?_eq_getElem?] at hj hc
        by_cases hji : j = i
        · subst hji
          rw [List.getElem?_set_self (by omega)] at hj
          injection hj with hj
          subst hj
          exact ⟨hci.1, by rw [if_neg hnd'.1]; exact htr⟩
        · rw [List.getElem?_set_ne (fun h => hji h.symm)] at hj
          have := hcs j cj (by simpa using hj)
          refine ⟨this.1, ?_⟩
          rw [this.2]
          have hmem : Call.wait j ∈ Call.wait i :: rest ↔ Call.wait j ∈ rest := by
            simp [hji]
          simp only [hmem]
      have hack : (Barrier.step b (.wait i)).1.sh.ack = b.sh.ack := by rw [hstep]; rfl
      obtain ⟨h1, h2, h3⟩ := ih _ hinv (by rw [hack]; exact hrg)
      refine ⟨?_, h2, ?_⟩
      · intro x hx
        simp only [Barrier.exec, List.mem_cons] at hx
        rcases hx with hx | hx
        · rw [hx, hstep]
        · exact h1 x hx
      · simp only [Barrier.exec]
        rw [h3, hack]
        simp [List.countP_cons, Barrier.isAck]
    | ack i =>
      have hi : i < n := ha i (List.mem_cons_self _ _)
      obtain ⟨c, hc⟩ := Barrier.get?_of_lt b i (by omega)
      have hci := hcs i c hc
      have hstep := Barrier.step_ack b i c hc hci.1
      have hinv : Barrier.InRound n t t' rest (Barrier.step b (.ack i)).1 := by
        rw [hstep]
        refine ⟨htr, by simpa using hlen, ?_, hnd'.2, fun h => hnt (List.mem_cons_of_mem _ h),
          fun j hj => hw j (List.mem_cons_of_mem _ hj),
          fun j hj => ha j (List.mem_cons_of_mem _ hj)⟩
        intro j cj hj
        have hmem : Call.wait j ∈ Call.ack i :: rest ↔ Call.wait j ∈ rest := by simp
        simp only [List.get?_eq_getElem?] at hj hc
        by_cases hji : j = i
        · subst hji
          rw [List.getElem?_set_self (by omega)] at hj
          injection hj with hj
          subst hj
          refine ⟨hci.1, ?_⟩
          have := hci.2
          simp only [hmem] at this
          exact this
        · rw [List.getElem?_set_ne (fun h => hji h.symm)] at hj
          have := hcs j cj (by simpa using hj)
          refine ⟨this.1, ?_⟩
          rw [this.2]
          simp only [hmem]
      have hack : (Barrier.step b (.ack i)).1.sh.ack = wrapInt32 (b.sh.ack + 1) := by
        rw [hstep]
      obtain ⟨h1, h2, h3⟩ := ih _ hinv (by rw [hack]; exact wrapInt32_idem _)
      refine ⟨?_, h2, ?_⟩
      · intro x hx
        simp only [Barrier.exec, List.mem_cons] at hx
        rcases hx with hx | hx
        · rw [hx, hstep]
        · exact h1 x hx
      · simp only [Barrier.exec]
        rw [h3, hack, wrapInt32_wrap_add]
        simp only [List.countP_cons, Barrier.isAck, if_true, Nat.cast_add, Nat.cast_one]
        congr 1
        omega

theorem Barrier.exec_append (l1 l2 : List Call) : ∀ b : Barrier,
    Barrier.exec b (l1 ++ l2) =
      ((Barrier.exec (Barrier.exec b l1).1 l2).1,
        (Barrier.exec b l1).2 ++ (Barrier.exec (Barrier.exec b l1).1 l2).2) := by
  induction l1 with
  | nil => intro b; simp [Barrier.exec]
  | cons c l1 ih => intro b; simp [Barrier.exec, ih]

theorem Barrier.roundCalls_nodup (n : Nat) : (Barrier.roundCalls n).Nodup := by
  unfold Barrier.roundCalls
  rw [List.nodup_append]
  refine ⟨?_, ?_, ?_⟩
  · exact (List.nodup_range n).map (fun a b h => by injection h)
  · exact (List.nodup_range n).map (fun a b h => by injection h)
  · intro a ha hb
    simp only [List.mem_map] at ha hb
    obtain ⟨i, _, hi⟩ := ha
    obtain ⟨j, _, hj⟩ := hb
    rw [← hi] at hj
    cases hj

theorem Barrier.mem_roundCalls_wait (n i : Nat) : Call.wait i ∈ Barrier.roundCalls n ↔ i < n := by
  simp [Barrier.roundCalls]

theorem Barrier.mem_roundCalls_ack (n i : Nat) : Call.ack i ∈ Barrier.roundCalls n ↔ i < n := by
  simp [Barrier.roundCalls]

theorem Barrier.trigger_not_mem_roundCalls (n : Nat) : Call.trigger ∉ Barrier.roundCalls n := by
  simp [Barrier.roundCalls]

theorem Barrier.countP_isAck_roundCalls (n : Nat) :
    (Barrier.roundCalls n).countP Barrier.isAck = n := by
  unfold Barrier.roundCalls
  rw [List.countP_append, List.countP_map, List.countP_map]
  have h1 : (List.range n).countP (Barrier.isAck ∘ Call.wait) = 0 := by
    rw [List.countP_eq_zero]; intro a _; simp [Barrier.isAck]
  have h2 : (List.range n).countP (Barrier.isAck ∘ Call.ack) = (List.range n).length := by
    rw [List.countP_eq_length]; intro a _; simp [Barrier.isAck]
  rw [h1, h2, List.length_range, Nat.zero_add]

theorem Barrier.exec_one_round (n : Nat) (s t : Int) (b : Barrier) (ρ : List Call)
    (hperm : ρ.Perm (Barrier.roundCalls n)) (hb : Barrier.InRound n s t [] b)
    (hrg : wrapInt32 b.sh.ack = b.sh.ack) :
    (∀ x ∈ (Barrier.exec b (Call.trigger :: ρ)).2, x = CallResult.returned true) ∧
      Barrier.InRound n t (wrapInt32 (t + 1)) [] (Barrier.exec b (Call.trigger :: ρ)).1 ∧
      (Barrier.exec b (Call.trigger :: ρ)).1.sh.ack = wrapInt32 (b.sh.ack + n) := by
  obtain ⟨htr, hlen, hcs, _, _, _, _⟩ := hb
  have hin : Barrier.InRound n t (wrapInt32 (t + 1)) ρ (Barrier.step b .trigger).1 := by
    refine ⟨by simp [Barrier.step, Producer.trigger, htr], hlen, ?_,
      (hperm.nodup_iff).mpr (Barrier.roundCalls_nodup n),
      fun h => Barrier.trigger_not_mem_roundCalls n (hperm.mem_iff.mp h),
      fun i hi => (Barrier.mem_roundCalls_wait n i).mp (hperm.mem_iff.mp hi),
      fun i hi => (Barrier.mem_roundCalls_ack n i).mp (hperm.mem_iff.mp hi)⟩
    intro i c hc
    have hc' : b.consumers.get? i = some c := hc
    have h := hcs i c hc'
    have hi : i < n := by
      rw [List.get?_eq_some] at hc'
      obtain ⟨h, _⟩ := hc'
      omega
    have hmem : Call.wait i ∈ ρ := hperm.mem_iff.mpr ((Barrier.mem_roundCalls_wait n i).mpr hi)
    rw [if_pos hmem]
    refine ⟨h.1, ?_⟩
    rw [h.2]
    simp
  have hack : (Barrier.step b .trigger).1.sh.ack = b.sh.ack := rfl
  obtain ⟨h1, h2, h3⟩ := Barrier.exec_round n t (wrapInt32 (t + 1)) (wrapInt32_succ_sub t) ρ _
    hin (by rw [hack]; exact hrg)
  refine ⟨?_, h2, ?_⟩
  · intro x hx
    simp only [Barrier.exec, List.mem_cons] at hx
    rcases hx with hx | hx
    · rw [hx]; rfl
    · exact h1 x hx
  · simp only [Barrier.exec]
    rw [h3, hack, hperm.countP_eq, Barrier.countP_isAck_roundCalls]

theorem Barrier.exec_schedule (n : Nat) (rounds : List (List Call)) :
    ∀ (b : Barrier) (s t : Int), (∀ ρ ∈ rounds, ρ.Perm (Barrier.roundCalls n)) →
    Barrier.InRound n s t [] b → wrapInt32 b.sh.ack = b.sh.ack →
    (∀ x ∈ (Barrier.exec b (Barrier.schedule rounds)).2, x = CallResult.returned true) ∧
      (Barrier.exec b (Barrier.schedule rounds)).1.sh.ack =
        wrapInt32 (b.sh.ack + rounds.length * n) := by
  induction rounds with
  | nil =>
    intro b s t _ _ hrg
    simp [Barrier.schedule, Barrier.exec, hrg]
  | cons ρ rounds ih =>
    intro b s t hperm hb hrg
    obtain ⟨h1, h2, h3⟩ := Barrier.exec_one_round n s t b ρ
      (hperm ρ (List.mem_cons_self _ _)) hb hrg
    obtain ⟨h4, h5⟩ := ih _ t (wrapInt32 (t + 1))
      (fun r hr => hperm r (List.mem_cons_of_mem _ hr)) h2 (by rw [h3]; exact wrapInt32_idem _)
    have hs : Barrier.schedule (ρ :: rounds) = (Call.trigger :: ρ) ++ Barrier.schedule rounds := by
      simp [Barrier.schedule]
    rw [hs, Barrier.exec_append]
    refine ⟨?_, ?_⟩
    · intro x hx
      simp only [List.mem_append] at hx
      rcases hx with hx | hx
      · exact h1 x hx
      · exact h4 x hx
    · simp only
      rw [h5, h3, wrapInt32_wrap_add]
      congr 1
      simp only [List.length_cons, Nat.cast_add, Nat.cast_one]
      ring

theorem Barrier.init_inRound (locals : List (Int × Int)) :
    Barrier.InRound locals.length 0 0 [] (Barrier.init locals) := by
  refine ⟨rfl, by simp [Barrier.init], ?_, List.nodup_nil, by simp, by simp, by simp⟩
  intro i c hc
  simp only [Barrier.init, List.get?_eq_getElem?, List.getElem?_map, Option.map_eq_some'] at hc
  obtain ⟨g, _, hg⟩ := hc
  subst hg
  simp [Consumer.run, Consumer.fresh]

/-! ## Two servers on one name -/

/-- The members and the server-unique semaphore that decide uniqueness. -/
theorem Server.acquireSemTimeout_data_frame {α : Type} (st : ServerState α) :
    (Server._acquireSemTimeout .datasem st).state.2.srvr_sem = st.2.srvr_sem ∧
    (Server._acquireSemTimeout .datasem st).state.1.running = st.1.running ∧
    (Server._acquireSemTimeout .datasem st).state.1.terminated = st.1.terminated ∧
    (Server._acquireSemTimeout .datasem st).state.1.force_reconnection =
      st.1.force_reconnection := by
  unfold Server._acquireSemTimeout MemUtils.acquireSemTimeout
  dsimp only
  split <;> [skip; split] <;>
    simp [Server.isin, Outcome.state, World.setSem, World.emit, World.sem]

theorem Server.initMetaMem_frame {α : Type} (st : ServerState α) :
    (Server._initMetaMem st).state.2.srvr_sem = st.2.srvr_sem ∧
    (Server._initMetaMem st).state.1.running = st.1.running ∧
    (Server._initMetaMem st).state.1.terminated = st.1.terminated ∧
    (Server._initMetaMem st).state.1.force_reconnection = st.1.force_reconnection := by
  unfold Server._initMetaMem
  dsimp only
  split <;> simp [Outcome.state, MemUtils.initMem, World.emit]

theorem Server.construct_frame {α : Type} (n_rows n_cols scalar_size mem_layout : Nat)
    (verbose : Bool) (vlevel : Nat) (force_reconnection safe : Bool) (w : World α) :
    (Server.construct n_rows n_cols scalar_size mem_layout verbose vlevel force_reconnection
        safe w).state.2.srvr_sem =
      (if w.srvr_sem.linked then w.srvr_sem else { value := 1, linked := true }) ∧
    (Server.construct n_rows n_cols scalar_size mem_layout verbose vlevel force_reconnection
        safe w).state.1.running = false ∧
    (Server.construct n_rows n_cols scalar_size mem_layout verbose vlevel force_reconnection
        safe w).state.1.terminated = false ∧
    (Server.construct n_rows n_cols scalar_size mem_layout verbose vlevel force_reconnection
        safe w).state.1.force_reconnection = force_reconnection := by
  unfold Server.construct
  dsimp only
  generalize hst1 : (if (force_reconnection && verbose && decide (1 < vlevel)) = true then
      (Server.init n_rows n_cols scalar_size mem_layout verbose vlevel force_reconnection safe,
        (Journal.log LogType.WARN false w).1)
    else (Server.init n_rows n_cols scalar_size mem_layout verbose vlevel force_reconnection safe,
        w)) = st1
  have h1 : st1.1 = Server.init n_rows n_cols scalar_size mem_layout verbose vlevel
      force_reconnection safe ∧ st1.2.srvr_sem = w.srvr_sem := by
    rw [← hst1]
    split <;> simp [Journal.log, World.emit]
  rw [Server.logVerbose_spec]
  generalize hst2 : Server._initSems (st1.1, { st1.2 with log := st1.2.log ++
      (if st1.1.verbose && decide (1 < st1.1.vlevel) then [Event.journal .STAT false] else []) })
    = st2
  have h2 : st2.1 = st1.1 ∧ st2.2.srvr_sem =
      (if w.srvr_sem.linked then w.srvr_sem else { value := 1, linked := true }) := by
    rw [← hst2]
    simp [Server._initSems, MemUtils.semInit, World.sem, World.setSem, World.emit, h1.2]
  have h3 := Server.acquireSemTimeout_data_frame st2
  cases hacq : Server._acquireSemTimeout .datasem st2 with
  | fatal st3 =>
    rw [hacq] at h3
    simp only [Outcome.state] at h3 ⊢
    rw [h3.1, h3.2.1, h3.2.2.1, h3.2.2.2, h2.1, h2.2, h1.1]
    simp [Server.init]
  | ok st3 =>
    rw [hacq] at h3
    simp only [Outcome.state] at h3
    simp only
    rw [Server.initDataMem_spec]
    simp only
    have h4 := Server.initMetaMem_frame (α := α)
      ({ st3.1 with return_code := [] },
        { (MemUtils.checkMem Segment.data st3.2) with
          tensor := { rows := st3.1.n_rows, cols := st3.1.n_cols,
                      cell := (MemUtils.checkMem Segment.data st3.2).tensor.cell }
          log := (MemUtils.checkMem Segment.data st3.2).log ++ [.initMem .data] })
    cases hmeta : Server._initMetaMem
      ({ st3.1 with return_code := [] },
        { (MemUtils.checkMem Segment.data st3.2) with
          tensor := { rows := st3.1.n_rows, cols := st3.1.n_cols,
                      cell := (MemUtils.checkMem Segment.data st3.2).tensor.cell }
          log := (MemUtils.checkMem Segment.data st3.2).log ++ [.initMem .data] }) with
    | fatal st4 =>
      rw [hmeta] at h4
      simp only [Outcome.state, MemUtils.checkMem, World.emit] at h4 ⊢
      rw [h4.1, h4.2.1, h4.2.2.1, h4.2.2.2, h3.1, h3.2.1, h3.2.2.1, h3.2.2.2, h2.1, h2.2, h1.1]
      simp [Server.init]
    | ok st4 =>
      rw [hmeta] at h4
      simp only [Outcome.state, MemUtils.checkMem, World.emit] at h4 ⊢
      rw [Server.logVerbose_spec]
      simp only
      rw [h4.1, h4.2.1, h4.2.2.2, h3.1, h3.2.1, h3.2.2.2, h2.1, h2.2, h1.1]
      simp [Server.init]

theorem Server.run_refused {α : Type} (st : ServerState α) (hr : st.1.running = false)
    (hf : st.1.force_reconnection = false) (hv : st.2.srvr_sem.value = 0) :
    Server.run st = .fatal ({ st.1 with return_code := [.SEMACQFAIL] },
      st.2.emit (.semAcquireFail .serversem)) := by
  simp [Server.run, Server.isRunning, hr, Server._acquireSemTimeout, MemUtils.acquireSemTimeout,
    World.sem, hv, hf, Server.isin]

theorem Server.run_running {α : Type} (st : ServerState α) (hr : st.1.running = true) :
    Server.run st = .ok st := by
  simp [Server.run, Server.isRunning, hr]

theorem Server.stop_running {α : Type} (st : ServerState α) (hr : st.1.running = true) :
    Server.stop st = ({ st.1 with running := false },
      { st.2 with
        isrunning_cell := false
        srvr_sem := { st.2.srvr_sem with value := st.2.srvr_sem.value + 1 }
        log := st.2.log ++ [.semRelease .serversem] }) := by
  simp [Server.stop, Server.isRunning, hr, MemUtils.releaseSem, World.sem, World.setSem,
    World.emit]

theorem Server.stop_not_running {α : Type} (st : ServerState α) (hr : st.1.running = false) :
    Server.stop st = st := by
  simp [Server.stop, Server.isRunning, hr]

theorem Server.stop_frame {α : Type} (st : ServerState α) :
    (Server.stop st).1.running = false ∧
    (Server.stop st).1.terminated = st.1.terminated ∧
    (Server.stop st).1.force_reconnection = st.1.force_reconnection ∧
    (Server.stop st).2.srvr_sem.linked = st.2.srvr_sem.linked ∧
    (Server.stop st).2.srvr_sem.value =
      st.2.srvr_sem.value + (if st.1.running then 1 else 0) := by
  cases hr : st.1.running
  · rw [Server.stop_not_running st hr]
    simp [hr]
  · rw [Server.stop_running st hr]
    simp

theorem Server.cleanMems_frame {α : Type} (st : ServerState α) :
    (Server._cleanMems st).1.running = st.1.running ∧
    (Server._cleanMems st).1.terminated = true ∧
    (Server._cleanMems st).1.force_reconnection = st.1.force_reconnection ∧
    (Server._cleanMems st).2.srvr_sem.value = st.2.srvr_sem.value ∧
    (Server._cleanMems st).2.srvr_sem.linked =
      (if st.1.terminated then st.2.srvr_sem.linked else false) := by
  unfold Server._cleanMems
  cases ht : st.1.terminated
  · simp only [Bool.not_false, if_true]
    rw [Server.logVerbose_spec]
    simp [Server._closeSems, Server._cleanMetaMem, MemUtils.semClose, MemUtils.cleanUpMem,
      World.sem, World.setSem, World.emit]
  · simp [ht]

theorem Server.close_frame {α : Type} (st : ServerState α) :
    (Server.close st).1.running = false ∧
    (Server.close st).1.terminated = true ∧
    (Server.close st).1.force_reconnection = st.1.force_reconnection ∧
    (Server.close st).2.srvr_sem.value =
      st.2.srvr_sem.value + (if st.1.running then 1 else 0) ∧
    (Server.close st).2.srvr_sem.linked =
      (if st.1.terminated then st.2.srvr_sem.linked else false) := by
  unfold Server.close
  rw [Server.logVerbose_spec]
  have h1 := Server.stop_frame st
  have h2 := Server.cleanMems_frame (Server.stop st)
  simp only
  rw [h2.1, h2.2.1, h2.2.2.1, h2.2.2.2.1, h2.2.2.2.2, h1.1, h1.2.1, h1.2.2.1, h1.2.2.2.1,
    h1.2.2.2.2]
  simp

theorem Pair.get_put {α : Type} (p : Pair α) (i j : Inst) (w : World α) (l : Life) :
    (p.put i w l).get j = if j = i then l else p.get j := by
  cases i <;> cases j <;> simp [Pair.put, Pair.get]

theorem Pair.world_put {α : Type} (p : Pair α) (i : Inst) (w : World α) (l : Life) :
    (p.put i w l).world = w := by
  cases i <;> rfl

theorem Pair.nRunning_put {α : Type} (p : Pair α) (i : Inst) (w : World α) (l : Life) :
    (p.put i w l).nRunning + (if (p.get i).isRunning then 1 else 0) =
      p.nRunning + (if l.isRunning then 1 else 0) := by
  cases i <;> simp only [Pair.put, Pair.get, Pair.nRunning] <;> omega

theorem Pair.inv_put_le {α : Type} (p : Pair α) (i : Inst) (w : World α) (l : Life)
    (hinv : p.Inv) (hsum : w.srvr_sem.value + (p.put i w l).nRunning ≤ 1)
    (hl : ∀ s, l = .alive s →
      s.force_reconnection = false ∧ (s.running = true → s.terminated = false))
    (h3 : w.srvr_sem.linked = false → ∀ j, (p.put i w l).get j = .unborn →
      ∀ k s, (p.put i w l).get k = .alive s → s.terminated = true) :
    (p.put i w l).Inv := by
  obtain ⟨_, h2, _⟩ := hinv
  refine ⟨?_, ?_, ?_⟩
  · rw [Pair.world_put]
    exact hsum
  · intro k s hk
    rw [Pair.get_put] at hk
    split at hk
    · exact hl s hk
    · exact h2 k s hk
  · rw [Pair.world_put]
    exact h3

theorem Pair.inv_put {α : Type} (p : Pair α) (i : Inst) (w : World α) (l : Life)
    (hinv : p.Inv)
    (hsum : w.srvr_sem.value + (if l.isRunning then 1 else 0) =
      p.world.srvr_sem.value + (if (p.get i).isRunning then 1 else 0))
    (hl : ∀ s, l = .alive s →
      s.force_reconnection = false ∧ (s.running = true → s.terminated = false))
    (h3 : w.srvr_sem.linked = false → ∀ j, (p.put i w l).get j = .unborn →
      ∀ k s, (p.put i w l).get k = .alive s → s.terminated = true) :
    (p.put i w l).Inv := by
  apply Pair.inv_put_le p i w l hinv _ hl h3
  have := Pair.nRunning_put p i w l
  have := hinv.1
  omega

theorem Pair.inv_start {α : Type} (w : World α) (h : w.srvr_sem.value ≤ 1) :
    (Pair.start w).Inv := by
  refine ⟨by simp [Pair.start, Pair.nRunning, Life.isRunning, h], ?_, ?_⟩
  · intro i s hi
    cases i <;> simp [Pair.start, Pair.get] at hi
  · intro _ j _ i s hi
    cases i <;> simp [Pair.start, Pair.get] at hi

theorem Pair.nRunning_zero_of_terminated {α : Type} (p : Pair α) (hinv : p.Inv)
    (h : ∀ k s, p.get k = .alive s → s.terminated = true) : p.nRunning = 0 := by
  obtain ⟨_, h2, _⟩ := hinv
  have ha : p.a.isRunning = false := by
    cases hl : p.a with
    | alive s =>
      have t := h .a s hl
      have r := (h2 .a s hl).2
      cases hr : s.running
      · simp [Life.isRunning, hr]
      · rw [r hr] at t; cases t
    | _ => rfl
  have hb : p.b.isRunning = false := by
    cases hl : p.b with
    | alive s =>
      have t := h .b s hl
      have r := (h2 .b s hl).2
      cases hr : s.running
      · simp [Life.isRunning, hr]
      · rw [r hr] at t; cases t
    | _ => rfl
  simp [Pair.nRunning, ha, hb]

theorem Pair.h3_preserved {α : Type} (p : Pair α) (i : Inst) (w : World α) (s s' : Server)
    (hinv : p.Inv) (hl : p.get i = .alive s) (ht : s.terminated = true → s'.terminated = true)
    (hlk : w.srvr_sem.linked = false → p.world.srvr_sem.linked = false) :
    w.srvr_sem.linked = false → ∀ j, (p.put i w (.alive s')).get j = .unborn →
      ∀ k sk, (p.put i w (.alive s')).get k = .alive sk → sk.terminated = true := by
  intro hw j hj k sk hk
  rw [Pair.get_put] at hj hk
  have hji : ¬ j = i := by
    intro h
    rw [if_pos h] at hj
    cases hj
  rw [if_neg hji] at hj
  by_cases hki : k = i
  · rw [if_pos hki] at hk
    injection hk with hk
    subst hk
    exact ht (hinv.2.2 (hlk hw) j hj i s hl)
  · rw [if_neg hki] at hk
    exact hinv.2.2 (hlk hw) j hj k sk hk

theorem Pair.h3_closed {α : Type} (p : Pair α) (i : Inst) (w : World α) (s' : Server)
    (ht : s'.terminated = true) :
    w.srvr_sem.linked = false → ∀ j, (p.put i w (.alive s')).get j = .unborn →
      ∀ k sk, (p.put i w (.alive s')).get k = .alive sk → sk.terminated = true := by
  intro _ j hj k sk hk
  rw [Pair.get_put] at hj hk
  have hji : ¬ j = i := by
    intro h
    rw [if_pos h] at hj
    cases hj
  rw [if_neg hji] at hj
  by_cases hki : k = i
  · rw [if_pos hki] at hk
    injection hk with hk
    subst hk
    exact ht
  · rw [if_neg hki] at hk
    have hkj : k = j := by
      cases i <;> cases j <;> cases k <;> simp_all
    rw [hkj, hj] at hk
    cases hk

theorem Pair.step_inv {α : Type} (cfg : Inst → ServerConfig)
    (hcfg : ∀ i, (cfg i).force_reconnection = false) (p : Pair α) (hinv : p.Inv) (op : Op)
    (r : Pair α × Bool) (hstep : Pair.step cfg p op = some r) : r.1.Inv := by
  obtain ⟨h1, h2, h3⟩ := hinv
  cases op with
  | construct i =>
    simp only [Pair.step] at hstep
    cases hl : p.get i with
    | unborn =>
      rw [hl] at hstep
      simp only at hstep
      have hf := Server.construct_frame (cfg i).n_rows (cfg i).n_cols (cfg i).scalar_size
          (cfg i).mem_layout (cfg i).verbose (cfg i).vlevel (cfg i).force_reconnection
          (cfg i).safe p.world
      have hsumw : ∀ l : Life, l.isRunning = false →
          (Server.construct (cfg i).n_rows (cfg i).n_cols (cfg i).scalar_size
          (cfg i).mem_layout (cfg i).verbose (cfg i).vlevel (cfg i).force_reconnection
          (cfg i).safe p.world).state.2.srvr_sem.value +
            (p.put i (Server.construct (cfg i).n_rows (cfg i).n_cols (cfg i).scalar_size
          (cfg i).mem_layout (cfg i).verbose (cfg i).vlevel (cfg i).force_reconnection
          (cfg i).safe p.world).state.2 l).nRunning ≤ 1 := by
        intro l hlr
        have hn := Pair.nRunning_put p i (Server.construct (cfg i).n_rows (cfg i).n_cols
          (cfg i).scalar_size (cfg i).mem_layout (cfg i).verbose (cfg i).vlevel
          (cfg i).force_reconnection (cfg i).safe p.world).state.2 l
        rw [hl, hlr] at hn
        simp only [Life.isRunning, Bool.false_eq_true, if_false, Nat.add_zero] at hn
        rw [hf.1, hn]
        cases hlk : p.world.srvr_sem.linked
        · have hz := Pair.nRunning_zero_of_terminated p ⟨h1, h2, h3⟩ (h3 hlk i hl)
          simp [hz]
        · simpa using h1
      have hlinked : (Server.construct (cfg i).n_rows (cfg i).n_cols (cfg i).scalar_size
          (cfg i).mem_layout (cfg i).verbose (cfg i).vlevel (cfg i).force_reconnection
          (cfg i).safe p.world).state.2.srvr_sem.linked = true := by
        rw [hf.1]
        cases hlk : p.world.srvr_sem.linked <;> simp [hlk]
      cases hc : Server.construct (cfg i).n_rows (cfg i).n_cols (cfg i).scalar_size
          (cfg i).mem_layout (cfg i).verbose (cfg i).vlevel (cfg i).force_reconnection
          (cfg i).safe p.world with
      | ok st =>
        rw [hc] at hstep hf hsumw hlinked
        simp only [Outcome.state] at hf hsumw hlinked
        injection hstep with hstep
        subst hstep
        apply Pair.inv_put_le p i st.2 (.alive st.1) ⟨h1, h2, h3⟩
        · exact hsumw _ (by simp [Life.isRunning, hf.2.1])
        · intro s hs
          injection hs with hs
          subst hs
          exact ⟨by rw [hf.2.2.2]; exact hcfg i, fun h => by rw [hf.2.1] at h; cases h⟩
        · intro h
          rw [hlinked] at h
          cases h
      | fatal st =>
        rw [hc] at hstep hf hsumw hlinked
        simp only [Outcome.state] at hf hsumw hlinked
        injection hstep with hstep
        subst hstep
        apply Pair.inv_put_le p i st.2 .dead ⟨h1, h2, h3⟩
        · exact hsumw _ rfl
        · intro s hs
          cases hs
        · intro h
          rw [hlinked] at h
          cases h
    | dead => rw [hl] at hstep; cases hstep
    | alive s => rw [hl] at hstep; cases hstep
  | run i =>
    simp only [Pair.step] at hstep
    cases hl : p.get i with
    | unborn => rw [hl] at hstep; cases hstep
    | dead => rw [hl] at hstep; cases hstep
    | alive s =>
      rw [hl] at hstep
      simp only at hstep
      cases hterm : s.terminated
      · rw [hterm] at hstep
        simp only [Bool.false_eq_true, if_false] at hstep
        have hs2 := h2 i s hl
        cases hrun : s.running
        · rcases Nat.eq_zero_or_pos p.world.srvr_sem.value with hv | hv
          · rw [Server.run_refused (s, p.world) hrun hs2.1 hv] at hstep
            injection hstep with hstep
            subst hstep
            apply Pair.inv_put p i _ _ ⟨h1, h2, h3⟩
            · simp [Life.isRunning, hl, hrun, World.emit]
            · intro s' hs'
              injection hs' with hs'
              subst hs'
              exact ⟨hs2.1, fun h => by simp [hrun] at h⟩
            · exact Pair.h3_preserved p i _ s _ ⟨h1, h2, h3⟩ hl (fun h => h)
                (fun h => by simpa [World.emit] using h)
          · rw [Server.run_spec (s, p.world) hrun hv] at hstep
            injection hstep with hstep
            subst hstep
            apply Pair.inv_put p i _ _ ⟨h1, h2, h3⟩
            · simp [Life.isRunning, hl, hrun]
              omega
            · intro s' hs'
              injection hs' with hs'
              subst hs'
              exact ⟨hs2.1, fun _ => hterm⟩
            · exact Pair.h3_preserved p i _ s _ ⟨h1, h2, h3⟩ hl (fun h => h)
                (fun h => by simpa using h)
        · rw [Server.run_running (s, p.world) hrun] at hstep
          injection hstep with hstep
          subst hstep
          apply Pair.inv_put p i _ _ ⟨h1, h2, h3⟩
          · simp [hl]
          · intro s' hs'
            injection hs' with hs'
            subst hs'
            exact hs2
          · exact Pair.h3_preserved p i _ s _ ⟨h1, h2, h3⟩ hl (fun h => h) (fun h => h)
      · rw [hterm] at hstep
        simp at hstep
  | stop i =>
    simp only [Pair.step] at hstep
    cases hl : p.get i with
    | unborn => rw [hl] at hstep; cases hstep
    | dead => rw [hl] at hstep; cases hstep
    | alive s =>
      rw [hl] at hstep
      injection hstep with hstep
      subst hstep
      have hs2 := h2 i s hl
      obtain ⟨f1, f2, f3, f4, f5⟩ := Server.stop_frame (s, p.world)
      apply Pair.inv_put p i _ _ ⟨h1, h2, h3⟩
      · simp only [Life.isRunning, hl, f1, f5]
        simp
      · intro s' hs'
        injection hs' with hs'
        subst hs'
        exact ⟨by rw [f3]; exact hs2.1, fun h => by rw [f1] at h; cases h⟩
      · exact Pair.h3_preserved p i _ s _ ⟨h1, h2, h3⟩ hl (fun h => by rw [f2]; exact h)
          (fun h => by rw [f4] at h; exact h)
  | close i =>
    simp only [Pair.step] at hstep
    cases hl : p.get i with
    | unborn => rw [hl] at hstep; cases hstep
    | dead => rw [hl] at hstep; cases hstep
    | alive s =>
      rw [hl] at hstep
      injection hstep with hstep
      subst hstep
      have hs2 := h2 i s hl
      obtain ⟨f1, f2, f3, f4, f5⟩ := Server.close_frame (s, p.world)
      apply Pair.inv_put p i _ _ ⟨h1, h2, h3⟩
      · simp only [Life.isRunning, hl, f1, f4]
        simp
      · intro s' hs'
        injection hs' with hs'
        subst hs'
        exact ⟨by rw [f3]; exact hs2.1, fun h => by rw [f1] at h; cases h⟩
      · exact Pair.h3_closed p i _ _ f2

theorem Pair.exec_inv {α : Type} (cfg : Inst → ServerConfig)
    (hcfg : ∀ i, (cfg i).force_reconnection = false) (ops : List Op) :
    ∀ (p q : Pair α), p.Inv → Pair.exec cfg p ops = some q → q.Inv := by
  induction ops with
  | nil =>
    intro p q hp h
    injection h with h
    rw [← h]
    exact hp
  | cons op rest ih =>
    intro p q hp h
    simp only [Pair.exec] at h
    cases hs : Pair.step cfg p op with
    | none => rw [hs] at h; cases h
    | some r =>
      rw [hs] at h
      exact ih r.1 q (Pair.step_inv cfg hcfg p hp op r hs) h

theorem Pair.run_other_refused {α : Type} (cfg : Inst → ServerConfig) (p : Pair α)
    (hinv : p.Inv) (i : Inst) (s s' : Server) (hi : p.get i = .alive s)
    (hr : s.running = true) (hj : p.get i.other = .alive s') (ht : s'.terminated = false) :
    ∃ p', Pair.step cfg p (.run i.other) = some (p', true) ∧
      (p'.get i.other).isRunning = false ∧ (p'.get i).isRunning = true := by
  obtain ⟨h1, h2, _⟩ := hinv
  have hcnt : p.world.srvr_sem.value = 0 ∧ s'.running = false := by
    cases i <;> simp only [Pair.get, Inst.other] at hi hj <;>
      simp only [Pair.nRunning, hi, hj, Life.isRunning, hr, if_true] at h1 <;>
      cases hr' : s'.running <;> simp [hr'] at h1 ⊢ <;> omega
  have hf := (h2 i.other s' hj).1
  refine ⟨p.put i.other (p.world.emit (.semAcquireFail .serversem))
    (.alive { s' with return_code := [.SEMACQFAIL] }), ?_, ?_, ?_⟩
  · simp only [Pair.step, hj]
    rw [if_neg (by simp [ht]), Server.run_refused (s', p.world) hcnt.2 hf hcnt.1]
  · rw [Pair.get_put]
    simp [Life.isRunning, hcnt.2]
  · rw [Pair.get_put]
    have : ¬ i = i.other := by cases i <;> simp [Inst.other]
    rw [if_neg this, hi]
    simp [Life.isRunning, hr]

theorem bitPattern32_toInt32 (p : Nat) (hp : p < 2 ^ 32) : bitPattern32 (toInt32 p) = p := by
  unfold bitPattern32 toInt32
  split <;> omega

theorem packLE_eq_sum (chunk : List Byte) :
    packLE chunk = ((List.range 4).map fun j =>
      if j < chunk.length then (chunk.getD j 0).val * 2 ^ (8 * j) else 0).sum := by
  have hr : List.range 4 = [0, 1, 2, 3] := by decide
  rw [hr]
  match chunk with
  | [] => simp [packLE]
  | [a] => simp [packLE]
  | [a, b] => simp [packLE]
  | [a, b, c] => simp [packLE]; omega
  | a :: b :: c :: d :: tl => simp [packLE]; omega

theorem getD_drop_byte (S : List Byte) (k j : Nat) :
    (S.drop k).getD j 0 = S.getD (k + j) 0 := by
  simp [List.getD_eq_getElem?_getD, List.getElem?_drop]

theorem wireValue_eq_packLE (S : List Byte) (r : Nat) :
    wireValue S r = packLE (S.drop (4 * r)) := by
  rw [packLE_eq_sum]
  unfold wireValue
  congr 1
  apply List.map_congr_left
  intro j _
  rw [getD_drop_byte, List.length_drop]
  by_cases h : 4 * r + j < S.length
  · rw [if_pos h, if_pos (by omega)]
  · rw [if_neg h, if_neg (by omega)]

theorem wireValue_lt (S : List Byte) (r : Nat) : wireValue S r < 2 ^ 32 := by
  rw [wireValue_eq_packLE]
  exact packLE_lt _

theorem wireValue_zero (S : List Byte) (r : Nat) (h : S.length ≤ 4 * r) : wireValue S r = 0 := by
  rw [wireValue_eq_packLE, List.drop_of_length_le h]
  rfl

theorem bitPattern32_encodedCell (S : List Byte) (r : Nat) :
    bitPattern32 (encodedCell S r) = wireValue S r := by
  unfold encodedCell
  split
  · rw [bitPattern32_toInt32 _ (packLE_lt _), wireValue_eq_packLE]
  · rw [wireValue_zero S r (by omega)]
    rfl

theorem byteAt_encodedCell (S : List Byte) (r j : Nat) (hj : j < 4) :
    byteAt (encodedCell S r) j = S.getD (4 * r + j) 0 := by
  unfold encodedCell
  split
  · rw [byteAt_packLE _ _ hj, getD_drop_byte]
  · rename_i h
    rw [List.getD_eq_default _ _ (by omega)]
    have := byteAt_packLE [] j hj
    simpa [packLE, toInt32] using this

theorem encodeLoop_overflow (n : Nat) : ∀ (str : List Byte) (row col : Nat) (buf : Tensor Int),
    str.length ≤ n → row ≤ buf.rows → 4 * buf.rows < 4 * row + str.length →
    encodeLoop str row col buf = none := by
  induction n with
  | zero =>
    intro str row col buf hn hr hov
    have : str = [] := List.length_eq_zero.mp (Nat.le_zero.mp hn)
    subst this
    simp at hov
    omega
  | succ n ih =>
    intro str row col buf hn hr hov
    match str with
    | [] => simp at hov; omega
    | b :: tl =>
      rw [encodeLoop]
      by_cases hrow : row < buf.rows
      · rw [if_pos hrow]
        apply ih
        · simp at hn ⊢; omega
        · simp [Tensor.set]; omega
        · simp [Tensor.set] at hov ⊢; omega
      · rw [if_neg hrow]

theorem encode_str_overflow (buf : Tensor Int) (str : List Byte) (col : Int)
    (h : 4 * buf.rows < str.length) : _encode_str buf str col = none := by
  unfold _encode_str
  split
  · exact encodeLoop_overflow str.length str 0 _ _ (Nat.le_refl _) (Nat.zero_le _)
      (by simpa [setColZero] using h)
  · rfl

theorem encode_str_bad_col (buf : Tensor Int) (str : List Byte) (col : Int)
    (h : col < 0 ∨ (buf.cols : Int) ≤ col) : _encode_str buf str col = none := by
  unfold _encode_str
  rw [if_neg]
  omega

theorem encodeRows_spec (n : Nat) : ∀ (str : List Byte) (row : Nat), str.length ≤ n →
    encodeRows str row = List.range' row ((str.length + 3) / 4) := by
  induction n with
  | zero =>
    intro str row hn
    have : str = [] := List.length_eq_zero.mp (Nat.le_zero.mp hn)
    subst this
    simp [encodeRows]
  | succ n ih =>
    intro str row hn
    match str with
    | [] => simp [encodeRows]
    | b :: tl =>
      rw [encodeRows, ih (tl.drop 3) (row + 1) (by simp at hn ⊢; omega)]
      have : (List.length (b :: tl) + 3) / 4 = (List.length (List.drop 3 tl) + 3) / 4 + 1 := by
        simp only [List.length_cons, List.length_drop]
        omega
      rw [this, List.range'_succ]

/-- The encoding of a string on a column inside the buffer stays inside the
buffer exactly when the string has at most `4 * rows` bytes; a longer string makes
the loop assign a cell whose row is not a row of the buffer. -/
theorem encode_str_none_iff (buf : Tensor Int) (str : List Byte) (col : Int)
    (h0 : 0 ≤ col) (h1 : col < buf.cols) :
    _encode_str buf str col = none ↔ ∃ r ∈ encodeRows str 0, buf.rows ≤ r := by
  rw [encodeRows_spec str.length str 0 (Nat.le_refl _)]
  constructor
  · intro hn
    by_cases hle : str.length ≤ 4 * buf.rows
    · obtain ⟨b, hb, _⟩ := encode_str_spec buf str col h0 h1 hle
      rw [hb] at hn
      cases hn
    · exact ⟨buf.rows, by simp [List.mem_range']; omega, Nat.le_refl _⟩
  · rintro ⟨r, hr, hle⟩
    apply encode_str_overflow
    simp [List.mem_range'] at hr
    omega

theorem StringTensor.fits_false_of_gt {σ : Type} (t : StringTensor σ) (size : Nat) (index : Int)
    (hint : t.length < 2 ^ 31) (hlo : -2 ^ 31 ≤ index) (hhi : index < 2 ^ 31)
    (hsz : size < 2 ^ 63) (h : (t.length : Int) < index + size) :
    StringTensor._fits t size index = false := by
  unfold StringTensor._fits toSizeT
  have e2 : (((t.length : Nat) : Int) % 2 ^ 64).toNat = t.length := by
    rw [Int.emod_eq_of_lt (by omega) (by omega)]
    simp
  rw [e2]
  simp only [Bool.not_eq_false', decide_eq_true_eq]
  omega

theorem StringTensor.vec_write_not_running {σ : Type} (M : ShMem σ) (t : StringTensor σ)
    (vec : List (List Byte)) (col : Int) (hr : t.running = false) :
    StringTensor.write M t vec col = some (false, t) := by
  simp [StringTensor.write, StringTensor.isRunning, hr]

theorem StringTensor.vec_write_not_fits {σ : Type} (M : ShMem σ) (t : StringTensor σ)
    (vec : List (List Byte)) (col : Int)
    (hf : StringTensor._fits t vec.length col = false) :
    StringTensor.write M t vec col = some (false, t) := by
  unfold StringTensor.write
  split
  · rfl
  · simp [StringTensor._encode_vec, hf]

theorem StringTensor.vec_write_forwarded {σ : Type} (M : ShMem σ) (t : StringTensor σ)
    (vec : List (List Byte)) (col : Int)
    (hbr : t.buffer.rows = t.n_rows) (hbc : t.buffer.cols = t.length)
    (hint : t.length < 2 ^ 31) (hr : t.running = true) (h0 : 0 ≤ col)
    (h1 : col + vec.length ≤ t.length) (hcap : ∀ s ∈ vec, s.length ≤ t.n_rows * 4) :
    ∃ buf1, StringTensor.encodeVecLoop t.buffer vec col = some buf1 ∧
      StringTensor.write M t vec col =
        some ((M.write (buf1.block 0 col.toNat t.n_rows vec.length) 0 col t.sh_mem).1,
          { t with
            buffer := buf1
            sh_mem := (M.write (buf1.block 0 col.toNat t.n_rows vec.length) 0 col t.sh_mem).2 }) := by
  obtain ⟨buf1, he, hr1, hc1, _⟩ := StringTensor.encodeVecLoop_spec vec t.buffer col h0
    (by rw [hbc]; exact h1) (fun s hs => by rw [hbr]; have := hcap s hs; omega)
  refine ⟨buf1, he, ?_⟩
  have hf := StringTensor.fits_of_le t vec.length col h0 h1 hint
  unfold StringTensor.write
  rw [if_neg (by simp [StringTensor.isRunning, hr])]
  have hv : StringTensor._encode_vec t vec col = some (true, buf1) := by
    simp [StringTensor._encode_vec, hf, he]
  rw [hv]
  have hb : StringTensor.bufferBlock t buf1 col vec.length =
      some (buf1.block 0 col.toNat t.n_rows vec.length) := by
    unfold StringTensor.bufferBlock
    rw [if_pos]
    refine ⟨h0, ?_, ?_⟩
    · rw [hc1, hbc]; exact h1
    · omega
  simp only [hb]

theorem StringTensor.writeStr_refused {σ : Type} (M : ShMem σ) (t : StringTensor σ)
    (s : List Byte) (col : Int) (h : t.running = false ∨ col < 0 ∨ (t.length : Int) ≤ col) :
    StringTensor.writeStr M t s col = some (false, t) := by
  unfold StringTensor.writeStr
  rw [if_pos]
  rcases h with h | h | h <;> simp [StringTensor.isRunning, h]

theorem StringTensor.readStr_refused {σ : Type} (M : ShMem σ) (t : StringTensor σ)
    (out : List Byte) (col : Int) (h : t.running = false ∨ col < 0 ∨ (t.length : Int) ≤ col) :
    StringTensor.readStr M t out col = some (false, out, t) := by
  unfold StringTensor.readStr
  rw [if_pos]
  rcases h with h | h | h <;> simp [StringTensor.isRunning, h]

theorem StringTensor.writeStr_forwarded {σ : Type} (M : ShMem σ) (t : StringTensor σ)
    (s : List Byte) (col : Int)
    (hbr : t.buffer.rows = t.n_rows) (hbc : t.buffer.cols = t.length)
    (hr : t.running = true) (h0 : 0 ≤ col) (h1 : col < t.length)
    (hcap : s.length ≤ t.n_rows * 4) :
    ∃ buf1, _encode_str t.buffer s col = some buf1 ∧
      StringTensor.writeStr M t s col =
        some ((M.write (buf1.block 0 col.toNat t.n_rows 1) 0 col t.sh_mem).1,
          { t with
            buffer := buf1
            sh_mem := (M.write (buf1.block 0 col.toNat t.n_rows 1) 0 col t.sh_mem).2 }) := by
  obtain ⟨buf1, he, hr1, hc1, _⟩ := encode_str_spec t.buffer s col h0 (by rw [hbc]; exact h1)
    (by rw [hbr]; omega)
  refine ⟨buf1, he, ?_⟩
  unfold StringTensor.writeStr
  rw [if_neg (by simp [StringTensor.isRunning, hr]; omega), he]
  have hb : StringTensor.bufferBlock t buf1 col 1 =
      some (buf1.block 0 col.toNat t.n_rows 1) := by
    unfold StringTensor.bufferBlock
    rw [if_pos]
    refine ⟨h0, ?_, ?_⟩
    · rw [hc1, hbc]; push_cast; omega
    · omega
  simp only [hb]

/-- Return value of the vector string write where the encoder stays inside the
buffer. For a wrapper whose
buffer is `n_rows_fixed x length`, `col_offset` an `int` and `|vec| < 2^63`:
when `col_offset + |vec| > length`, `write(vec, col_offset)` returns false, the
underlying write is not invoked and the wrapper (owned buffer included) is
unchanged; and when `col_offset >= 0` and every string of `vec` has at most
`n_rows_fixed * 4` bytes, the call returns, and it returns true if and only if
the wrapper is running, `col_offset + |vec| <= length`, and the forwarded block
write of width `|vec|` at `(0, col_offset)` of the encoded buffer returns true. -/
theorem StringTensor.vec_write_in_bounds {σ : Type} (M : ShMem σ) (t : StringTensor σ)
    (vec : List (List Byte)) (col_offset : Int)
    (hbr : t.buffer.rows = t.n_rows) (hbc : t.buffer.cols = t.length)
    (hint : t.length < 2 ^ 31) (hlo : -2 ^ 31 ≤ col_offset) (hhi : col_offset < 2 ^ 31)
    (hsz : vec.length < 2 ^ 63) :
    ((t.length : Int) < col_offset + vec.length →
      StringTensor.write M t vec col_offset = some (false, t)) ∧
    (0 ≤ col_offset → (∀ s ∈ vec, s.length ≤ t.n_rows * 4) →
      ∃ b t1, StringTensor.write M t vec col_offset = some (b, t1) ∧
        (b = true ↔ t.running = true ∧ col_offset + vec.length ≤ t.length ∧
          ∃ buf1, StringTensor.encodeVecLoop t.buffer vec col_offset = some buf1 ∧
            (M.write (buf1.block 0 col_offset.toNat t.n_rows vec.length) 0 col_offset
              t.sh_mem).1 = true)) := by
  constructor
  · intro hgt
    exact StringTensor.vec_write_not_fits M t vec col_offset
      (StringTensor.fits_false_of_gt t vec.length col_offset hint hlo hhi hsz hgt)
  · intro h0 hcap
    cases hr : t.running with
    | false =>
      exact ⟨false, t, StringTensor.vec_write_not_running M t vec col_offset hr, by simp⟩
    | true =>
      by_cases h1 : col_offset + vec.length ≤ t.length
      · obtain ⟨buf1, he, hw⟩ := StringTensor.vec_write_forwarded M t vec col_offset hbr hbc hint hr
          h0 h1 hcap
        refine ⟨_, _, hw, ?_⟩
        constructor
        · intro hb
          exact ⟨rfl, h1, buf1, he, hb⟩
        · rintro ⟨_, _, buf2, he2, hb⟩
          rw [he] at he2
          injection he2 with he2
          subst he2
          exact hb
      · refine ⟨false, t, StringTensor.vec_write_not_fits M t vec col_offset
          (StringTensor.fits_false_of_gt t vec.length col_offset hint hlo hhi hsz (by omega)), ?_⟩
        simp [h1]

/-- Single-string column bounds where the encoder stays inside the buffer:
`write(s, col_offset)` and `read(s, col_offset)` return false whenever the wrapper is not running or
`col_offset` is outside `[0, length)`, and then the wrapper (owned buffer and
underlying object) and, for read, the output string are as before, the underlying
tensor not being accessed; when the wrapper is running, `col_offset` is in
`[0, length)` and `s` has at most `n_rows_fixed * 4` bytes, write returns exactly
the result of the forwarded width-1 block write at `(0, col_offset)`. -/
theorem StringTensor.single_write_in_bounds {σ : Type} (M : ShMem σ) (t : StringTensor σ)
    (s out : List Byte) (col_offset : Int)
    (hbr : t.buffer.rows = t.n_rows) (hbc : t.buffer.cols = t.length) :
    ((t.running = false ∨ col_offset < 0 ∨ (t.length : Int) ≤ col_offset) →
      StringTensor.writeStr M t s col_offset = some (false, t) ∧
      StringTensor.readStr M t out col_offset = some (false, out, t)) ∧
    (t.running = true → 0 ≤ col_offset → col_offset < t.length →
      s.length ≤ t.n_rows * 4 →
      ∃ buf1, _encode_str t.buffer s col_offset = some buf1 ∧
        StringTensor.writeStr M t s col_offset =
          some ((M.write (buf1.block 0 col_offset.toNat t.n_rows 1) 0 col_offset t.sh_mem).1,
            { t with
              buffer := buf1
              sh_mem :=
                (M.write (buf1.block 0 col_offset.toNat t.n_rows 1) 0 col_offset t.sh_mem).2 })) :=
  ⟨fun h => ⟨StringTensor.writeStr_refused M t s col_offset h,
      StringTensor.readStr_refused M t out col_offset h⟩,
    fun hr h0 h1 hcap => StringTensor.writeStr_forwarded M t s col_offset hbr hbc hr h0 h1 hcap⟩

/-- On a wrapper whose buffer is `n_rows x length`, the single-string write has no
defined result exactly when it is not refused and the string is longer than a
column. -/
theorem StringTensor.writeStr_none_iff {σ : Type} (M : ShMem σ) (t : StringTensor σ)
    (s : List Byte) (col : Int)
    (hbr : t.buffer.rows = t.n_rows) (hbc : t.buffer.cols = t.length) :
    StringTensor.writeStr M t s col = none ↔
      t.running = true ∧ 0 ≤ col ∧ col < t.length ∧ t.n_rows * 4 < s.length := by
  constructor
  · intro hn
    by_cases href : t.running = false ∨ col < 0 ∨ (t.length : Int) ≤ col
    · rw [StringTensor.writeStr_refused M t s col href] at hn
      cases hn
    · have hr : t.running = true := by
        cases h : t.running
        · exact absurd (Or.inl h) href
        · rfl
      have h0 : 0 ≤ col := by
        by_contra h
        exact href (Or.inr (Or.inl (by omega)))
      have h1 : col < t.length := by
        by_contra h
        exact href (Or.inr (Or.inr (by omega)))
      refine ⟨hr, h0, h1, ?_⟩
      by_contra hcap
      obtain ⟨_, _, hw⟩ := StringTensor.writeStr_forwarded M t s col hbr hbc hr h0 h1 (by omega)
      rw [hw] at hn
      cases hn
  · rintro ⟨hr, h0, h1, hcap⟩
    unfold StringTensor.writeStr
    rw [if_neg (by simp [StringTensor.isRunning, hr]; omega),
      encode_str_overflow _ _ _ (by rw [hbr]; omega)]

/-- `_fits` compares in `size_t`: for an `int` index it accepts exactly the
indices with `0 <= index + size <= length`, negative ones included. -/
theorem StringTensor.fits_iff {σ : Type} (t : StringTensor σ) (size : Nat) (index : Int)
    (hint : t.length < 2 ^ 31) (hlo : -2 ^ 31 ≤ index) (hhi : index < 2 ^ 31)
    (hsz : size < 2 ^ 63) :
    StringTensor._fits t size index = true ↔
      0 ≤ index + size ∧ index + size ≤ (t.length : Int) := by
  unfold StringTensor._fits toSizeT
  have e2 : (((t.length : Nat) : Int) % 2 ^ 64).toNat = t.length := by
    rw [Int.emod_eq_of_lt (by omega) (by omega)]
    simp
  rw [e2]
  simp only [Bool.not_eq_true', decide_eq_false_iff_not]
  omega

theorem StringTensor.encodeVecLoop_none_iff (vec : List (List Byte)) :
    ∀ (buf : Tensor Int) (col : Int), 0 ≤ col → col + vec.length ≤ buf.cols →
    (StringTensor.encodeVecLoop buf vec col = none ↔ ∃ s ∈ vec, 4 * buf.rows < s.length) := by
  induction vec with
  | nil =>
    intro buf col _ _
    simp [StringTensor.encodeVecLoop]
  | cons s rest ih =>
    intro buf col h0 h1
    simp only [List.length_cons, Nat.cast_add, Nat.cast_one] at h1
    by_cases hs : 4 * buf.rows < s.length
    · simp [StringTensor.encodeVecLoop, encode_str_overflow buf s col hs, hs]
    · obtain ⟨buf1, he1, hr1, hc1, _⟩ := encode_str_spec buf s col h0 (by omega) (by omega)
      have := ih buf1 (col + 1) (by omega) (by omega)
      simp only [StringTensor.encodeVecLoop, he1, this, hr1, List.mem_cons, exists_eq_or_imp, hs,
        false_or]

theorem StringTensor.encodeVecLoop_neg (buf : Tensor Int) (vec : List (List Byte)) (col : Int)
    (hc : col < 0) (hv : vec ≠ []) : StringTensor.encodeVecLoop buf vec col = none := by
  match vec with
  | [] => exact absurd rfl hv
  | s :: rest =>
    simp [StringTensor.encodeVecLoop, encode_str_bad_col buf s col (Or.inl hc)]

/-- On a wrapper whose buffer is `n_rows x length`, the vector write has no
defined result exactly when the wrapper is running, `_fits` accepts, and either
the column offset is negative or one of the strings is longer than a column. -/
theorem StringTensor.write_none_iff {σ : Type} (M : ShMem σ) (t : StringTensor σ)
    (vec : List (List Byte)) (col : Int)
    (hbr : t.buffer.rows = t.n_rows) (hbc : t.buffer.cols = t.length)
    (hint : t.length < 2 ^ 31) (hlo : -2 ^ 31 ≤ col) (hhi : col < 2 ^ 31)
    (hsz : vec.length < 2 ^ 63) :
    StringTensor.write M t vec col = none ↔
      t.running = true ∧ 0 ≤ col + vec.length ∧ col + vec.length ≤ (t.length : Int) ∧
        (col < 0 ∨ ∃ s ∈ vec, t.n_rows * 4 < s.length) := by
  have hfi := StringTensor.fits_iff t vec.length col hint hlo hhi hsz
  cases hr : t.running with
  | false =>
    rw [StringTensor.vec_write_not_running M t vec col hr]
    simp
  | true =>
    cases hf : StringTensor._fits t vec.length col with
    | false =>
      rw [StringTensor.vec_write_not_fits M t vec col hf]
      have : ¬ (0 ≤ col + vec.length ∧ col + vec.length ≤ (t.length : Int)) := by
        rw [← hfi, hf]
        simp
      constructor
      · intro h
        cases h
      · rintro ⟨_, h1, h2, _⟩
        exact absurd ⟨h1, h2⟩ this
    | true =>
      obtain ⟨hf0, hf1⟩ := hfi.mp hf
      by_cases hc : col < 0
      · have hv : vec ≠ [] := by
          intro h
          subst h
          simp at hf0
          omega
        have hn : StringTensor.write M t vec col = none := by
          unfold StringTensor.write
          rw [if_neg (by simp [StringTensor.isRunning, hr])]
          have : StringTensor._encode_vec t vec col = none := by
            simp [StringTensor._encode_vec, hf, StringTensor.encodeVecLoop_neg _ _ _ hc hv]
          rw [this]
        simp [hn, hf0, hf1, hc]
      · have h0 : 0 ≤ col := by omega
        have hiff := StringTensor.encodeVecLoop_none_iff vec t.buffer col h0 (by rw [hbc]; exact hf1)
        by_cases hcap : ∃ s ∈ vec, t.n_rows * 4 < s.length
        · have hn : StringTensor.write M t vec col = none := by
            unfold StringTensor.write
            rw [if_neg (by simp [StringTensor.isRunning, hr])]
            have : StringTensor._encode_vec t vec col = none := by
              have he : StringTensor.encodeVecLoop t.buffer vec col = none := by
                rw [hiff]
                obtain ⟨s, hs, hl⟩ := hcap
                exact ⟨s, hs, by rw [hbr]; omega⟩
              simp [StringTensor._encode_vec, hf, he]
            rw [this]
          simp [hn, hf0, hf1, hcap]
        · have hcap2 : ∀ s ∈ vec, s.length ≤ t.n_rows * 4 := by
            intro s hs
            by_contra h
            exact hcap ⟨s, hs, by omega⟩
          obtain ⟨_, _, hw⟩ := StringTensor.vec_write_forwarded M t vec col hbr hbc hint hr h0
            hf1 hcap2
          rw [hw]
          simp [hc, hcap]

theorem World.shapeCells_setSem {α : Type} (w : World α) (n : SemName) (s : NamedSem) :
    (w.setSem n s).shapeCells = w.shapeCells := by
  cases n <;> rfl

theorem World.shapeCells_emit {α : Type} (w : World α) (e : Event) :
    (w.emit e).shapeCells = w.shapeCells := rfl

theorem Server.acquireSemTimeout_cells {α : Type} (n : SemName) (st : ServerState α) :
    (Server._acquireSemTimeout n st).state.2.shapeCells = st.2.shapeCells := by
  unfold Server._acquireSemTimeout MemUtils.acquireSemTimeout
  dsimp only
  split <;> [skip; split] <;>
    simp [Server.isin, Outcome.state, World.shapeCells_emit, World.shapeCells_setSem]

theorem Server.acquireSemTimeout_ok_members {α : Type} (n : SemName) (st st1 : ServerState α)
    (h : Server._acquireSemTimeout n st = .ok st1) :
    st1.1 = { st.1 with return_code := [] } := by
  unfold Server._acquireSemTimeout at h
  dsimp only at h
  split at h
  · cases h
  · injection h with h
    rw [← h]

theorem Server.releaseSem_cells {α : Type} (n : SemName) (st : ServerState α) :
    (Server._releaseSem n st).state.2.shapeCells = st.2.shapeCells := by
  simp [Server._releaseSem, MemUtils.releaseSem, Server.isin, Outcome.state,
    World.shapeCells_emit, World.shapeCells_setSem]

theorem Server.acquireData_cells {α : Type} (st : ServerState α) :
    (Server._acquireData st).2.2.shapeCells = st.2.shapeCells := by
  unfold Server._acquireData Server._acquireSemOneShot MemUtils.acquireSemOneShot
  dsimp only
  split <;> simp [Server.isin, World.shapeCells_emit, World.shapeCells_setSem]

theorem Server.logVerbose_cells {α : Type} (t : LogType) (st : ServerState α) :
    (Server.logVerbose t st).2.shapeCells = st.2.shapeCells := by
  rw [Server.logVerbose_spec]
  rfl

theorem Server.checkIsRunning_cells {α : Type} (st : ServerState α) :
    (Server._checkIsRunning st).2.shapeCells = st.2.shapeCells := by
  unfold Server._checkIsRunning
  split <;> simp [Journal.log, World.shapeCells_emit]

theorem Server.run_cells {α : Type} (st : ServerState α) :
    (Server.run st).state.2.shapeCells = st.2.shapeCells := by
  unfold Server.run
  split
  · have h1 := Server.acquireSemTimeout_cells .serversem st
    cases hacq : Server._acquireSemTimeout .serversem st with
    | fatal st1 =>
      rw [hacq] at h1
      exact h1
    | ok st1 =>
      rw [hacq] at h1
      have h2 := Server.releaseSem_cells .datasem st1
      simp only
      cases hrel : Server._releaseSem .datasem st1 with
      | fatal st2 =>
        rw [hrel] at h2
        simp only [Outcome.state] at h1 h2 ⊢
        rw [h2, h1]
      | ok st2 =>
        rw [hrel] at h2
        simp only [Outcome.state] at h1 h2 ⊢
        rw [Server.logVerbose_cells, ← h1, ← h2]
        rfl
  · rfl

theorem Server.stop_cells {α : Type} (st : ServerState α) :
    (Server.stop st).2.shapeCells = st.2.shapeCells := by
  unfold Server.stop
  split
  · simp only [MemUtils.releaseSem, World.shapeCells_emit, World.shapeCells_setSem]
    rfl
  · rfl

theorem Server.write_cells {α : Type} (data : Tensor α) (row col : Int) (st : ServerState α) :
    (Server.write data row col st).state.2.2.shapeCells = st.2.shapeCells := by
  cases hr : st.1.running
  · rw [Server.write_not_running _ _ _ _ hr]
    exact Server.checkIsRunning_cells st
  · cases hs : st.1.safe
    · rw [Server.write_unsafe _ _ _ _ hr hs]
      rfl
    · rcases Nat.eq_zero_or_pos st.2.data_sem.value with hv | hv
      · rw [Server.write_safe_busy _ _ _ _ hr hs hv]
        rfl
      · rw [Server.write_safe_free _ _ _ _ hr hs hv]
        rfl

theorem Server.writeView_cells {α : Type} (data : Tensor α) (row col : Int) (st : ServerState α) :
    (Server.writeView data row col st).state.2.2.shapeCells = st.2.shapeCells := by
  cases hr : st.1.running
  · rw [Server.writeView_not_running _ _ _ _ hr]
    exact Server.checkIsRunning_cells st
  · cases hs : st.1.safe
    · rw [Server.writeView_unsafe _ _ _ _ hr hs]
      rfl
    · rcases Nat.eq_zero_or_pos st.2.data_sem.value with hv | hv
      · rw [Server.writeView_safe_busy _ _ _ _ hr hs hv]
        rfl
      · rw [Server.writeView_safe_free _ _ _ _ hr hs hv]
        rfl

theorem Server.read_cells {α : Type} (output : Tensor α) (row col : Int) (st : ServerState α) :
    (Server.read output row col st).state.2.2.2.shapeCells = st.2.shapeCells := by
  cases hr : st.1.running
  · rw [Server.read_not_running _ _ _ _ hr]
    exact Server.checkIsRunning_cells st
  · cases hs : st.1.safe
    · rw [Server.read_unsafe _ _ _ _ hr hs]
      rfl
    · rcases Nat.eq_zero_or_pos st.2.data_sem.value with hv | hv
      · rw [Server.read_safe_busy _ _ _ _ hr hs hv]
        rfl
      · rw [Server.read_safe_free _ _ _ _ hr hs hv]
        rfl

theorem Server.readView_cells {α : Type} (output : Tensor α) (row col : Int) (st : ServerState α) :
    (Server.readView output row col st).state.2.2.2.shapeCells = st.2.shapeCells := by
  cases hr : st.1.running
  · rw [Server.readView_not_running _ _ _ _ hr]
    exact Server.checkIsRunning_cells st
  · cases hs : st.1.safe
    · rw [Server.readView_unsafe _ _ _ _ hr hs]
      rfl
    · rcases Nat.eq_zero_or_pos st.2.data_sem.value with hv | hv
      · rw [Server.readView_safe_busy _ _ _ _ hr hs hv]
        rfl
      · rw [Server.readView_safe_free _ _ _ _ hr hs hv]
        rfl

theorem ServerCall.after_cells {α : Type} (c : ServerCall α) (st : ServerState α) :
    (c.after st).2.shapeCells = st.2.shapeCells := by
  cases c with
  | run => exact Server.run_cells st
  | stop => exact Server.stop_cells st
  | write d r c => exact Server.write_cells d r c st
  | writeView d r c => exact Server.writeView_cells d r c st
  | read o r c => exact Server.read_cells o r c st
  | readView o r c => exact Server.readView_cells o r c st

theorem ServerCall.afterAll_cells {α : Type} (calls : List (ServerCall α)) :
    ∀ st : ServerState α, (ServerCall.afterAll calls st).2.shapeCells = st.2.shapeCells := by
  induction calls with
  | nil => intro st; rfl
  | cons c rest ih =>
    intro st
    show (ServerCall.afterAll rest (c.after st)).2.shapeCells = _
    rw [ih, ServerCall.after_cells]

theorem Server.construct_cells {α : Type} (n_rows n_cols scalar_size mem_layout : Nat)
    (verbose : Bool) (vlevel : Nat) (force_reconnection safe : Bool) (w : World α)
    (st : ServerState α)
    (hc : Server.construct n_rows n_cols scalar_size mem_layout verbose vlevel
      force_reconnection safe w = .ok st) :
    st.1.n_rows = n_rows ∧ st.1.n_cols = n_cols ∧
    st.2.n_rows_cell = n_rows ∧ st.2.n_cols_cell = n_cols ∧ st.2.n_clients_cell = 0 ∧
    st.2.isrunning_cell = false ∧ st.2.dtype_cell = scalar_size ∧
    st.2.mem_layout_cell = mem_layout := by
  unfold Server.construct at hc
  dsimp only at hc
  generalize hst1 : (if (force_reconnection && verbose && decide (1 < vlevel)) = true then
      (Server.init n_rows n_cols scalar_size mem_layout verbose vlevel force_reconnection safe,
        (Journal.log LogType.WARN false w).1)
    else (Server.init n_rows n_cols scalar_size mem_layout verbose vlevel force_reconnection safe,
        w)) = st1 at hc
  have h1 : st1.1 = Server.init n_rows n_cols scalar_size mem_layout verbose vlevel
      force_reconnection safe := by
    rw [← hst1]
    split <;> rfl
  rw [Server.logVerbose_spec] at hc
  generalize hst2 : Server._initSems (st1.1, { st1.2 with log := st1.2.log ++
      (if st1.1.verbose && decide (1 < st1.1.vlevel) then [Event.journal .STAT false] else []) })
    = st2 at hc
  have h2 : st2.1 = st1.1 := by
    rw [← hst2]
    rfl
  cases hacq : Server._acquireSemTimeout .datasem st2 with
  | fatal st3 =>
    rw [hacq] at hc
    cases hc
  | ok st3 =>
    have h3 := Server.acquireSemTimeout_ok_members _ _ _ hacq
    rw [hacq] at hc
    simp only at hc
    rw [Server.initDataMem_spec] at hc
    simp only at hc
    split at hc
    · cases hc
    · rename_i st4 hmeta
      have h4 := Server.initMetaMem_ok _ _ hmeta
      injection hc with hc
      rw [Server.logVerbose_spec] at hc
      rw [← hc, h4]
      simp only [h3, h2, h1]
      simp [Server.init]

theorem Server.run_ok_running {α : Type} (st st1 : ServerState α)
    (h : Server.run st = .ok st1) : st1.1.running = true := by
  cases hr : st.1.running
  · unfold Server.run at h
    simp only [Server.isRunning, hr, Bool.not_false, if_true] at h
    split at h
    · cases h
    · split at h
      · cases h
      · injection h with h
        rw [← h, Server.logVerbose_spec]
  · rw [Server.run_running st hr] at h
    injection h with h
    rw [← h]
    exact hr

theorem Server.stop_idle {α : Type} (st : ServerState α) (hr : st.1.running = false) :
    Server.stop st = st := by
  simp [Server.stop, Server.isRunning, hr]

theorem Server.cleanMems_terminated {α : Type} (st : ServerState α)
    (ht : st.1.terminated = true) : Server._cleanMems st = st := by
  simp [Server._cleanMems, ht]

theorem World.since_append {α : Type} (w w1 : World α) (es : List Event)
    (h : w1.log = w.log ++ es) : World.since w w1 = es := by
  simp [World.since, h]

/-- What `close()` does to a server that is not terminated: the trace of the call
and the state it leaves. -/
theorem Server.close_spec {α : Type} (st : ServerState α) (ht : st.1.terminated = false) :
    Server.close st =
      ({ st.1 with running := false, terminated := true, return_code := [] },
        { st.2 with
          isrunning_cell := if st.1.running then false else st.2.isrunning_cell
          srvr_sem :=
            { value := st.2.srvr_sem.value + (if st.1.running then 1 else 0), linked := false }
          data_sem := { st.2.data_sem with linked := false }
          log := st.2.log ++ (if st.1.running then [Event.semRelease .serversem] else []) ++
            [.cleanUpMem .data true, .cleanUpMem .nrows st.1.unlink_data,
              .cleanUpMem .ncols st.1.unlink_data, .cleanUpMem .clients st.1.unlink_data,
              .cleanUpMem .dtype st.1.unlink_data, .cleanUpMem .memlayout st.1.unlink_data,
              .semClose .serversem true, .semClose .datasem true] ++
            (if st.1.verbose && decide (1 < st.1.vlevel) then
              [Event.journal .STAT false, Event.journal .STAT false] else []) }) := by
  unfold Server.close Server._cleanMems
  cases hr : st.1.running
  · rw [Server.stop_idle st hr]
    simp only [ht, Bool.not_false, if_true]
    rw [Server.logVerbose_spec, Server.logVerbose_spec]
    obtain ⟨s, w⟩ := st
    simp only at hr ht
    cases hv : (s.verbose && decide (1 < s.vlevel)) <;>
      simp [Server._closeSems, Server._cleanMetaMem, MemUtils.semClose, MemUtils.cleanUpMem,
        World.sem, World.setSem, World.emit, hr, hv]
  · rw [Server.stop_running st hr]
    simp only [ht, Bool.not_false, if_true]
    rw [Server.logVerbose_spec, Server.logVerbose_spec]
    obtain ⟨s, w⟩ := st
    simp only at hr ht
    cases hv : (s.verbose && decide (1 < s.vlevel)) <;>
      simp [Server._closeSems, Server._cleanMetaMem, MemUtils.semClose, MemUtils.cleanUpMem,
        World.sem, World.setSem, World.emit, hv]

/-- A second `close()`: nothing but the closing diagnostic. -/
theorem Server.close_closed {α : Type} (st : ServerState α) (hr : st.1.running = false)
    (ht : st.1.terminated = true) :
    Server.close st = (st.1, { st.2 with log := st.2.log ++
      (if st.1.verbose && decide (1 < st.1.vlevel) then [Event.journal .STAT false] else []) }) := by
  unfold Server.close
  rw [Server.stop_idle st hr, Server.cleanMems_terminated st ht, Server.logVerbose_spec]

theorem Server.close_trace_running {α : Type} (st : ServerState α) (hr : st.1.running = true) :
    ∃ es, World.since st.2 (Server.close st).2 = Event.semRelease .serversem :: es ∧
      es.count (.semRelease .serversem) = 0 := by
  cases ht : st.1.terminated
  · rw [Server.close_spec st ht]
    simp only [hr, if_true]
    refine ⟨_, World.since_append _ _ _ (by simp only [List.append_assoc]; rfl), ?_⟩
    cases st.1.verbose && decide (1 < st.1.vlevel) <;> simp
  · unfold Server.close
    rw [Server.cleanMems_terminated _ (by rw [(Server.stop_frame st).2.1]; exact ht),
      Server.logVerbose_spec, Server.stop_running st hr]
    refine ⟨_, World.since_append _ _ _ (by simp only [List.append_assoc]; rfl), ?_⟩
    cases st.1.verbose && decide (1 < st.1.vlevel) <;> simp

/-- `close()` never hands the is-running segment to `MemUtils::cleanUpMem`,
whatever the state of the server. -/
theorem Server.close_skips_isrunning {α : Type} (st : ServerState α) (u : Bool) :
    Event.cleanUpMem .isrunning u ∉ World.since st.2 (Server.close st).2 := by
  cases ht : st.1.terminated
  · rw [World.since_append _ _ _ (by rw [Server.close_spec st ht]; simp only [List.append_assoc]; rfl)]
    cases st.1.running <;> cases st.1.verbose && decide (1 < st.1.vlevel) <;> simp
  · unfold Server.close
    rw [Server.cleanMems_terminated _ (by rw [(Server.stop_frame st).2.1]; exact ht),
      Server.logVerbose_spec]
    cases hr : st.1.running
    · rw [Server.stop_idle st hr, World.since_append _ _ _ rfl]
      cases st.1.verbose && decide (1 < st.1.vlevel) <;> simp
    · rw [Server.stop_running st hr,
        World.since_append _ _ _ (by simp only [List.append_assoc]; rfl)]
      cases st.1.verbose && decide (1 < st.1.vlevel) <;> simp

/-- Construction fails, and populates no metadata cell, when one of the six
metadata segments reports one of the three memory failures. -/
theorem Server.initMetaMem_failure {α : Type} (st : ServerState α) (g : Segment) (c : ReturnCode)
    (hg : g ≠ .data) (hc : c = .MEMCREATFAIL ∨ c = .MEMSETFAIL ∨ c = .MEMMAPFAIL)
    (hf : c ∈ st.2.memFail g) :
    (Server._initMetaMem st).isFatal = true ∧
    (Server._initMetaMem st).state.2.shapeCells = st.2.shapeCells ∧
    (Server._initMetaMem st).state.2.n_clients_cell = st.2.n_clients_cell ∧
    (Server._initMetaMem st).state.2.isrunning_cell = st.2.isrunning_cell := by
  have hmem : c ∈ st.2.memFail .nrows ++ st.2.memFail .ncols ++ st.2.memFail .clients ++
      st.2.memFail .dtype ++ st.2.memFail .isrunning ++ st.2.memFail .memlayout := by
    simp only [List.mem_append]
    cases g <;> first | exact absurd rfl hg | tauto
  unfold Server._initMetaMem
  dsimp only
  split
  · rename_i h
    exfalso
    simp only [MemUtils.initMem, World.emit] at h
    simp only [List.mem_append] at hmem
    rcases hc with hc | hc | hc <;> subst hc <;> simp [Server.isin] at h <;> tauto
  · simp [Outcome.isFatal, Outcome.state, World.shapeCells, MemUtils.initMem, World.emit]

theorem World.memFail_setSem {α : Type} (w : World α) (n : SemName) (s : NamedSem) :
    (w.setSem n s).memFail = w.memFail := by
  cases n <;> rfl

theorem Server.acquireSemTimeout_memFail {α : Type} (n : SemName) (st : ServerState α) :
    (Server._acquireSemTimeout n st).state.2.memFail = st.2.memFail := by
  unfold Server._acquireSemTimeout MemUtils.acquireSemTimeout
  dsimp only
  split <;> [skip; split] <;>
    simp [Server.isin, Outcome.state, World.emit, World.memFail_setSem]

/-- A failure of a metadata segment is fatal for the constructor, and the cells
that describe the tensor stay as they were. -/
theorem Server.construct_meta_failure {α : Type} (n_rows n_cols scalar_size mem_layout : Nat)
    (verbose : Bool) (vlevel : Nat) (force_reconnection safe : Bool) (w : World α)
    (g : Segment) (c : ReturnCode) (hg : g ≠ .data)
    (hc : c = .MEMCREATFAIL ∨ c = .MEMSETFAIL ∨ c = .MEMMAPFAIL) (hf : c ∈ w.memFail g) :
    (Server.construct n_rows n_cols scalar_size mem_layout verbose vlevel force_reconnection
      safe w).isFatal = true ∧
    (Server.construct n_rows n_cols scalar_size mem_layout verbose vlevel force_reconnection
      safe w).state.2.shapeCells = w.shapeCells := by
  unfold Server.construct
  dsimp only
  generalize hst1 : (if (force_reconnection && verbose && decide (1 < vlevel)) = true then
      (Server.init n_rows n_cols scalar_size mem_layout verbose vlevel force_reconnection safe,
        (Journal.log LogType.WARN false w).1)
    else (Server.init n_rows n_cols scalar_size mem_layout verbose vlevel force_reconnection safe,
        w)) = st1
  have h1 : st1.2.memFail = w.memFail ∧ st1.2.shapeCells = w.shapeCells := by
    rw [← hst1]
    split <;> exact ⟨rfl, rfl⟩
  rw [Server.logVerbose_spec]
  generalize hst2 : Server._initSems (st1.1, { st1.2 with log := st1.2.log ++
      (if st1.1.verbose && decide (1 < st1.1.vlevel) then [Event.journal .STAT false] else []) })
    = st2
  have h2 : st2.2.memFail = w.memFail ∧ st2.2.shapeCells = w.shapeCells := by
    rw [← hst2, ← h1.1, ← h1.2]
    exact ⟨rfl, rfl⟩
  have h3 := Server.acquireSemTimeout_memFail .datasem st2
  have h3c := Server.acquireSemTimeout_cells .datasem st2
  cases hacq : Server._acquireSemTimeout .datasem st2 with
  | fatal st3 =>
    rw [hacq] at h3c
    exact ⟨rfl, h3c.trans h2.2⟩
  | ok st3 =>
    rw [hacq] at h3 h3c
    simp only [Outcome.state] at h3 h3c
    simp only
    rw [Server.initDataMem_spec]
    simp only
    have h4 := Server.initMetaMem_failure (α := α)
      ({ st3.1 with return_code := [] },
        { (MemUtils.checkMem Segment.data st3.2) with
          tensor := { rows := st3.1.n_rows, cols := st3.1.n_cols,
                      cell := (MemUtils.checkMem Segment.data st3.2).tensor.cell }
          log := (MemUtils.checkMem Segment.data st3.2).log ++ [.initMem .data] }) g c hg hc
      (by
        show c ∈ st3.2.memFail g
        rw [h3, h2.1]
        exact hf)
    cases hmeta : Server._initMetaMem
      ({ st3.1 with return_code := [] },
        { (MemUtils.checkMem Segment.data st3.2) with
          tensor := { rows := st3.1.n_rows, cols := st3.1.n_cols,
                      cell := (MemUtils.checkMem Segment.data st3.2).tensor.cell }
          log := (MemUtils.checkMem Segment.data st3.2).log ++ [.initMem .data] }) with
    | ok st4 =>
      rw [hmeta] at h4
      exact absurd h4.1 (by simp [Outcome.isFatal])
    | fatal st4 =>
      rw [hmeta] at h4
      refine ⟨rfl, ?_⟩
      simp only [Outcome.state] at h4 ⊢
      rw [h4.2.1, ← h2.2, ← h3c]
      rfl

theorem Consumer.wait_blocking_of_nonpos (ms : Int) (notified : Bool) (st : ConsumerState)
    (h : ms ≤ 0) :
    Consumer._wait ms notified st = (true, (st.1, st.2.emit .blockingWait)) := by
  unfold Consumer._wait
  rw [if_neg (by omega)]

theorem Consumer.wait_timed_of_pos (ms : Int) (notified : Bool) (st : ConsumerState)
    (h : 0 < ms) :
    Consumer._wait ms notified st =
      (notified, ({ st.1 with timeout := !notified }, st.2.emit (.timedWait ms))) := by
  unfold Consumer._wait
  rw [if_pos (by omega)]

/-- `wait(ms_timeout)` with a positive timeout on a running consumer that sees no
new trigger and whose timed wait expires: it returns false. -/
theorem Consumer.wait_expired (ms : Int) (o : Obs) (rest : List Obs) (st : ConsumerState)
    (hms : 0 < ms) (hr : st.1.is_running = true)
    (hd : Consumer.delta o ({ st.1 with trigger_received := false }) = 0)
    (hn : o.notified = false) :
    ∃ r, Consumer.wait ms (o :: rest) st = some (.ok (false, r)) ∧
      r.1.timeout = true ∧
      r.2.trace = st.2.trace ++ [.readTrigger o.readOk, .timedWait ms] := by
  obtain ⟨c, sh⟩ := st
  obtain ⟨ir, cl, tr, tmo, itc, tci, fc, tc, ac⟩ := c
  simp only at hr hd hn ⊢
  subst hr
  unfold Consumer.wait Consumer._check_running
  simp only [Bool.not_true, Bool.false_eq_true, if_false]
  unfold Consumer.waitLoop
  rw [Consumer.check_trigger_delta_zero o _ hd]
  simp only
  rw [Consumer.wait_timed_of_pos ms _ _ hms, hn]
  simp [Shared.emit]

theorem Shared.trace_since_append (sh sh1 : Shared) (es : List CEvent)
    (h : sh1.trace = sh.trace ++ es) : Shared.since sh sh1 = es := by
  simp [Shared.since, h]

/-- What `Consumer::ack()` does on a running consumer: the value it returns, the
members and the shared ack cell it leaves, and its actions. -/
theorem Consumer.ack_spec (readOk writeOk : Bool) (st : ConsumerState)
    (hr : st.1.is_running = true) :
    Consumer.ack readOk writeOk st =
      .ok (readOk && writeOk,
        ({ st.1 with
            fail_count := (if readOk then 0 else 1) + (if writeOk then 0 else 1)
            ack_counter := wrapInt32 ((if readOk then st.2.ack else st.1.ack_counter) + 1) },
          { ack := if writeOk then
              wrapInt32 ((if readOk then st.2.ack else st.1.ack_counter) + 1) else st.2.ack
            trace := st.2.trace ++ ackActions readOk writeOk })) := by
  obtain ⟨c, sh⟩ := st
  simp only at hr
  cases readOk <;> cases writeOk <;>
    simp [Consumer.ack, Consumer._check_running, hr, Consumer._acknowledge, Shared.emit,
      ackActions]

/-- After a call of `_check_trigger_received` whose read succeeded and that did
not throw, the cached trigger value equals `_internal_trigger_counter` (both
being `int` values). -/
theorem Consumer.check_trigger_cache_after_read (o : Obs) (st : ConsumerState) (b : Bool)
    (r : ConsumerState) (hok : o.readOk = true)
    (hv : -2 ^ 31 ≤ o.value ∧ o.value < 2 ^ 31)
    (hi : -2 ^ 31 ≤ st.1.internal_trigger_counter ∧ st.1.internal_trigger_counter < 2 ^ 31)
    (h : Consumer._check_trigger_received o st = .ok (b, r)) :
    r.1.trigger_counter = r.1.internal_trigger_counter := by
  by_cases h1 : Consumer.delta o st.1 = 1
  · rw [Consumer.check_trigger_delta_one o st h1] at h
    injection h with h
    injection h with _ h
    rw [← h]
  · by_cases h0 : Consumer.delta o st.1 = 0
    · rw [Consumer.check_trigger_delta_zero o st h0] at h
      injection h with h
      injection h with _ h
      rw [← h]
      simp only [hok, if_true]
      unfold Consumer.delta wrapInt32 at h0
      simp only [hok, if_true] at h0
      omega
    · have hf := (Consumer.check_trigger_fatal_iff o st).mpr (by omega)
      rw [h] at hf
      cases hf

/-- Once the cached trigger value equals `_internal_trigger_counter`, a call whose
read fails computes `delta == 0`, returns false without throwing and leaves both
values as they were. -/
theorem Consumer.check_trigger_failed_read (o : Obs) (st : ConsumerState)
    (hfail : o.readOk = false)
    (hc : st.1.trigger_counter = st.1.internal_trigger_counter) :
    Consumer.delta o st.1 = 0 ∧
    ∃ r, Consumer._check_trigger_received o st = .ok (false, r) ∧
      r.1.trigger_counter = st.1.trigger_counter ∧
      r.1.internal_trigger_counter = st.1.internal_trigger_counter := by
  have hd : Consumer.delta o st.1 = 0 := by
    unfold Consumer.delta wrapInt32
    simp only [hfail, Bool.false_eq_true, if_false, hc]
    omega
  refine ⟨hd, _, Consumer.check_trigger_delta_zero o st hd, ?_, rfl⟩
  simp [hfail]

theorem Consumer.check_trigger_frame (o : Obs) (st : ConsumerState) :
    (Consumer._check_trigger_received o st).state.2.1.is_running = st.1.is_running ∧
    (Consumer._check_trigger_received o st).state.2.1.fail_count = st.1.fail_count ∧
    (Consumer._check_trigger_received o st).state.2.2.ack = st.2.ack ∧
    ∃ es, (Consumer._check_trigger_received o st).state.2.2.trace = st.2.trace ++ es ∧
      ∀ e ∈ es, CEvent.isWait e = true := by
  unfold Consumer._check_trigger_received
  dsimp only
  generalize (if o.readOk = true then o.value else st.1.trigger_counter) = tc
  generalize wrapInt32 (tc - st.1.internal_trigger_counter) = d
  by_cases h1 : d > 1 ∨ d < 0
  · rw [if_pos h1]
    exact ⟨rfl, rfl, rfl, [.readTrigger o.readOk, .journal .EXCEP true],
      by simp [Outcome.state, Shared.emit], by simp [CEvent.isWait]⟩
  · rw [if_neg h1]
    by_cases h2 : d = 1
    · rw [if_pos h2]
      exact ⟨rfl, rfl, rfl, [.readTrigger o.readOk], by simp [Outcome.state, Shared.emit],
        by simp [CEvent.isWait]⟩
    · rw [if_neg h2]
      exact ⟨rfl, rfl, rfl, [.readTrigger o.readOk], by simp [Outcome.state, Shared.emit],
        by simp [CEvent.isWait]⟩

theorem Consumer.wait_frame_step (ms : Int) (notified : Bool) (st : ConsumerState) :
    (Consumer._wait ms notified st).2.1.is_running = st.1.is_running ∧
    (Consumer._wait ms notified st).2.1.fail_count = st.1.fail_count ∧
    (Consumer._wait ms notified st).2.2.ack = st.2.ack ∧
    ∃ es, (Consumer._wait ms notified st).2.2.trace = st.2.trace ++ es ∧
      ∀ e ∈ es, CEvent.isWait e = true := by
  unfold Consumer._wait
  split
  · exact ⟨rfl, rfl, rfl, [.timedWait ms], by simp [Shared.emit], by simp [CEvent.isWait]⟩
  · exact ⟨rfl, rfl, rfl, [.blockingWait], by simp [Shared.emit], by simp [CEvent.isWait]⟩

theorem Consumer.waitLoop_frame (ms : Int) (obs : List Obs) : ∀ (st : ConsumerState)
    (out : Outcome (Bool × ConsumerState)), Consumer.waitLoop ms obs st = some out →
    out.state.2.1.is_running = st.1.is_running ∧
    out.state.2.1.fail_count = st.1.fail_count ∧
    out.state.2.2.ack = st.2.ack ∧
    ∃ es, out.state.2.2.trace = st.2.trace ++ es ∧ ∀ e ∈ es, CEvent.isWait e = true := by
  induction obs with
  | nil => intro st out h; cases h
  | cons o rest ih =>
    intro st out h
    obtain ⟨c1, c2, c3, es1, c4, c5⟩ := Consumer.check_trigger_frame o st
    unfold Consumer.waitLoop at h
    split at h
    · rename_i r hr
      rw [hr] at c1 c2 c3 c4
      injection h with h
      rw [← h]
      exact ⟨c1, c2, c3, es1, c4, c5⟩
    · rename_i st1 hr
      rw [hr] at c1 c2 c3 c4
      injection h with h
      rw [← h]
      exact ⟨c1, c2, c3, es1, c4, c5⟩
    · rename_i st1 hr
      rw [hr] at c1 c2 c3 c4
      simp only [Outcome.state] at c1 c2 c3 c4
      obtain ⟨w1, w2, w3, es2, w4, w5⟩ := Consumer.wait_frame_step ms o.notified
        ({ st1.1 with trigger_received := false }, st1.2)
      dsimp only at h w1 w2 w3 w4
      generalize Consumer._wait ms o.notified
        ({ is_running := st1.1.is_running, closed := st1.1.closed, trigger_received := false,
           timeout := st1.1.timeout, internal_trigger_counter := st1.1.internal_trigger_counter,
           trigger_counter_increment := st1.1.trigger_counter_increment,
           fail_count := st1.1.fail_count, trigger_counter := st1.1.trigger_counter,
           ack_counter := st1.1.ack_counter }, st1.2) = wr at h w1 w2 w3 w4
      split at h
      · injection h with h
        rw [← h]
        simp only [Outcome.state]
        refine ⟨w1.trans c1, w2.trans c2, w3.trans c3, es1 ++ es2, ?_, ?_⟩
        · rw [w4, c4, List.append_assoc]
        · intro e he
          rcases List.mem_append.mp he with he | he
          · exact c5 e he
          · exact w5 e he
      · obtain ⟨i1, i2, i3, es3, i4, i5⟩ := ih _ out h
        refine ⟨i1.trans (w1.trans c1), i2.trans (w2.trans c2), i3.trans (w3.trans c3),
          es1 ++ (es2 ++ es3), ?_, ?_⟩
        · rw [i4, w4, c4, List.append_assoc, List.append_assoc]
        · intro e he
          rcases List.mem_append.mp he with he | he
          · exact c5 e he
          · rcases List.mem_append.mp he with he | he
            · exact w5 e he
            · exact i5 e he

/-- `wait()` that returns leaves the consumer running, does not touch
`_fail_count` or the shared ack counter, and emits actions of `wait` only. -/
theorem Consumer.wait_frame (ms : Int) (obs : List Obs) (st : ConsumerState) (b : Bool)
    (r : ConsumerState) (h : Consumer.wait ms obs st = some (.ok (b, r))) :
    r.1.is_running = true ∧ r.1.fail_count = st.1.fail_count ∧ r.2.ack = st.2.ack ∧
    ∃ es, r.2.trace = st.2.trace ++ es ∧ ∀ e ∈ es, CEvent.isWait e = true := by
  unfold Consumer.wait Consumer._check_running at h
  cases hr : st.1.is_running
  · simp [hr] at h
  · simp only [hr, Bool.not_true, Bool.false_eq_true, if_false] at h
    obtain ⟨i1, i2, i3, es, i4, i5⟩ := Consumer.waitLoop_frame ms obs _ _ h
    simp only [Outcome.state] at i1 i2 i3 i4
    exact ⟨i1, i2, i3, es, i4, i5⟩

theorem heldSem_append (n : SemName) (a b : List Event) :
    heldSem n (a ++ b) = heldSem n a + heldSem n b := by
  simp only [heldSem, List.count_append, Nat.cast_add]
  omega

theorem heldSem_nil (n : SemName) : heldSem n [] = 0 := by
  simp [heldSem]

theorem ServerStep.refl {α : Type} (st : ServerState α) : ServerStep st st :=
  ⟨id, id, [], by simp, by simp [heldSem]⟩

theorem Server.run_step {α : Type} (st : ServerState α) : ServerStep st (Server.run st).state := by
  cases hr : st.1.running
  · unfold Server.run Server._acquireSemTimeout MemUtils.acquireSemTimeout
    simp only [Server.isRunning, hr, Bool.not_false, if_true]
    by_cases hv : 0 < (st.2.sem .serversem).value
    · simp only [hv, if_true]
      refine ⟨fun _ => ?_, fun h => ?_, ?_⟩
      · simp [Server.isin, Server._releaseSem, MemUtils.releaseSem, Outcome.state,
          Server.logVerbose_spec]
      · simp only [hr, Bool.false_eq_true, if_false, Nat.add_zero] at h
        simp [Server.isin, Server._releaseSem, MemUtils.releaseSem, Outcome.state,
          Server.logVerbose_spec, World.sem, World.setSem, World.emit, h]
      · refine ⟨[.semAcquire .serversem, .semRelease .datasem] ++
          (if st.1.verbose && decide (1 < st.1.vlevel) then [Event.journal .STAT false] else []),
          ?_, ?_⟩
        · simp [Server.isin, Server._releaseSem, MemUtils.releaseSem, Outcome.state,
            Server.logVerbose_spec, World.sem, World.setSem, World.emit]
        · simp only [Server.isin, Server._releaseSem, MemUtils.releaseSem, Outcome.state,
            Server.logVerbose_spec, hr]
          cases st.1.verbose && decide (1 < st.1.vlevel) <;> simp [heldSem]
    · simp only [hv, if_false]
      cases hf : st.1.force_reconnection
      · simp only [Bool.false_eq_true, if_false]
        refine ⟨fun h => ?_, fun h => ?_, [.semAcquireFail .serversem], ?_, ?_⟩
        · rw [hr] at h
          simpa [Server.isin, Outcome.state, World.emit] using h.symm
        · simp only [World.sem] at hv
          simp only [hr, Bool.false_eq_true, if_false, Nat.add_zero] at h
          omega
        · simp [Server.isin, Outcome.state, World.emit]
        · simp [Server.isin, Outcome.state, hr, heldSem]
      · simp only [if_true]
        refine ⟨fun _ => ?_, fun h => ?_, ?_⟩
        · simp [Server.isin, Server._releaseSem, MemUtils.releaseSem, Outcome.state,
            Server.logVerbose_spec]
        · simp only [World.sem] at hv
          simp only [hr, Bool.false_eq_true, if_false, Nat.add_zero] at h
          omega
        · refine ⟨[.semRecreate .serversem, .semRelease .datasem] ++
            (if st.1.verbose && decide (1 < st.1.vlevel) then [Event.journal .STAT false]
              else []), ?_, ?_⟩
          · simp [Server.isin, Server._releaseSem, MemUtils.releaseSem, Outcome.state,
              Server.logVerbose_spec, World.sem, World.setSem, World.emit]
          · simp only [Server.isin, Server._releaseSem, MemUtils.releaseSem, Outcome.state,
              Server.logVerbose_spec, hr]
            cases st.1.verbose && decide (1 < st.1.vlevel) <;> simp [heldSem]
  · rw [Server.run_running st hr]
    exact ServerStep.refl st

theorem Server.stop_step {α : Type} (st : ServerState α) : ServerStep st (Server.stop st) := by
  cases hr : st.1.running
  · rw [Server.stop_not_running st hr]
    exact ServerStep.refl st
  · rw [Server.stop_running st hr]
    exact ⟨fun _ => rfl, fun h => by simp [hr] at h ⊢; omega, [.semRelease .serversem], rfl,
      by simp [heldSem, hr]⟩

theorem ServerStep.trans {α : Type} (a b c : ServerState α) (h1 : ServerStep a b)
    (h2 : ServerStep b c) : ServerStep a c := by
  obtain ⟨p1, q1, es1, l1, d1⟩ := h1
  obtain ⟨p2, q2, es2, l2, d2⟩ := h2
  refine ⟨fun h => p2 (p1 h), fun h => q2 (q1 h), es1 ++ es2,
    by rw [l2, l1, List.append_assoc], ?_⟩
  rw [heldSem_append, d1, d2]
  omega

theorem Server.checkIsRunning_step {α : Type} (st : ServerState α) :
    ServerStep st (Server._checkIsRunning st) := by
  unfold Server._checkIsRunning
  split
  · exact ⟨id, id, [.journal .EXCEP false], by simp [Journal.log, World.emit],
      by simp [heldSem]⟩
  · exact ServerStep.refl st

theorem Server.write_step {α : Type} (data : Tensor α) (row col : Int) (st : ServerState α) :
    ServerStep st (Server.write data row col st).state.2 := by
  cases hr : st.1.running
  · rw [Server.write_not_running _ _ _ _ hr]
    exact Server.checkIsRunning_step st
  · cases hs : st.1.safe
    · rw [Server.write_unsafe _ _ _ _ hr hs]
      exact ⟨id, id, [.memWrite (MemUtils.write data st.2.tensor row col).1], rfl, by simp [heldSem, hr, Outcome.state]⟩
    · rcases Nat.eq_zero_or_pos st.2.data_sem.value with hv | hv
      · rw [Server.write_safe_busy _ _ _ _ hr hs hv]
        exact ⟨id, id, [.semAcquireFail .datasem], rfl, by simp [heldSem, hr, Outcome.state]⟩
      · rw [Server.write_safe_free _ _ _ _ hr hs hv]
        exact ⟨id, id, [.semAcquire .datasem, .memWrite (MemUtils.write data st.2.tensor row col).1, .semRelease .datasem], rfl,
          by simp [heldSem, hr, Outcome.state]⟩

theorem Server.writeView_step {α : Type} (data : Tensor α) (row col : Int) (st : ServerState α) :
    ServerStep st (Server.writeView data row col st).state.2 := by
  cases hr : st.1.running
  · rw [Server.writeView_not_running _ _ _ _ hr]
    exact Server.checkIsRunning_step st
  · cases hs : st.1.safe
    · rw [Server.writeView_unsafe _ _ _ _ hr hs]
      exact ⟨id, id, [.memWrite (MemUtils.write data st.2.tensor row col).1], rfl, by simp [heldSem, hr, Outcome.state]⟩
    · rcases Nat.eq_zero_or_pos st.2.data_sem.value with hv | hv
      · rw [Server.writeView_safe_busy _ _ _ _ hr hs hv]
        exact ⟨id, id, [.semAcquireFail .datasem], rfl, by simp [heldSem, hr, Outcome.state]⟩
      · rw [Server.writeView_safe_free _ _ _ _ hr hs hv]
        exact ⟨id, id, [.semAcquire .datasem, .memWrite (MemUtils.write data st.2.tensor row col).1, .semRelease .datasem], rfl,
          by simp [heldSem, hr, Outcome.state]⟩

theorem Server.read_step {α : Type} (output : Tensor α) (row col : Int) (st : ServerState α) :
    ServerStep st (Server.read output row col st).state.2.2 := by
  cases hr : st.1.running
  · rw [Server.read_not_running _ _ _ _ hr]
    exact Server.checkIsRunning_step st
  · cases hs : st.1.safe
    · rw [Server.read_unsafe _ _ _ _ hr hs]
      exact ⟨id, id, [.memRead (MemUtils.read row col output st.2.tensor).1], rfl, by simp [heldSem, hr, Outcome.state]⟩
    · rcases Nat.eq_zero_or_pos st.2.data_sem.value with hv | hv
      · rw [Server.read_safe_busy _ _ _ _ hr hs hv]
        exact ⟨id, id, [.semAcquireFail .datasem], rfl, by simp [heldSem, hr, Outcome.state]⟩
      · rw [Server.read_safe_free _ _ _ _ hr hs hv]
        exact ⟨id, id, [.semAcquire .datasem, .memRead (MemUtils.read row col output st.2.tensor).1, .semRelease .datasem], rfl,
          by simp [heldSem, hr, Outcome.state]⟩

theorem Server.readView_step {α : Type} (output : Tensor α) (row col : Int) (st : ServerState α) :
    ServerStep st (Server.readView output row col st).state.2.2 := by
  cases hr : st.1.running
  · rw [Server.readView_not_running _ _ _ _ hr]
    exact Server.checkIsRunning_step st
  · cases hs : st.1.safe
    · rw [Server.readView_unsafe _ _ _ _ hr hs]
      exact ⟨id, id, [.memRead (MemUtils.read row col output st.2.tensor).1], rfl, by simp [heldSem, hr, Outcome.state]⟩
    · rcases Nat.eq_zero_or_pos st.2.data_sem.value with hv | hv
      · rw [Server.readView_safe_busy _ _ _ _ hr hs hv]
        exact ⟨id, id, [.semAcquireFail .datasem], rfl, by simp [heldSem, hr, Outcome.state]⟩
      · rw [Server.readView_safe_free _ _ _ _ hr hs hv]
        exact ⟨id, id, [.semAcquire .datasem, .memRead (MemUtils.read row col output st.2.tensor).1, .semRelease .datasem], rfl,
          by simp [heldSem, hr, Outcome.state]⟩

theorem ServerCall.after_step {α : Type} (c : ServerCall α) (st : ServerState α) :
    ServerStep st (c.after st) := by
  cases c with
  | run => exact Server.run_step st
  | stop => exact Server.stop_step st
  | write d r c => exact Server.write_step d r c st
  | writeView d r c => exact Server.writeView_step d r c st
  | read o r c => exact Server.read_step o r c st
  | readView o r c => exact Server.readView_step o r c st

theorem ServerCall.afterAll_step {α : Type} (calls : List (ServerCall α)) :
    ∀ st : ServerState α, ServerStep st (ServerCall.afterAll calls st) := by
  induction calls with
  | nil => intro st; exact ServerStep.refl st
  | cons c rest ih =>
    intro st
    exact ServerStep.trans _ _ _ (ServerCall.after_step c st) (ih (c.after st))

theorem Server.acquireSemTimeout_ok_log {α : Type} (n : SemName) (st st1 : ServerState α)
    (h : Server._acquireSemTimeout n st = .ok st1) :
    ∃ a, (a = Event.semAcquire n ∨ a = Event.semRecreate n) ∧ st1.2.log = st.2.log ++ [a] := by
  unfold Server._acquireSemTimeout MemUtils.acquireSemTimeout at h
  dsimp only at h
  by_cases hv : 0 < (st.2.sem n).value
  · simp only [hv, if_true, Server.isin] at h
    simp at h
    exact ⟨_, Or.inl rfl, by rw [← h]; cases n <;> rfl⟩
  · simp only [hv, if_false] at h
    cases hf : st.1.force_reconnection
    · simp [hf, Server.isin] at h
    · simp only [hf, if_true, Server.isin] at h
      simp at h
      exact ⟨_, Or.inr rfl, by rw [← h]; cases n <;> rfl⟩

theorem heldSem_journal (n : SemName) (t : LogType) (j : List Event)
    (h : j = [] ∨ j = [Event.journal t false]) :
    heldSem n j = 0 ∧ ∀ m, j.count (.semRelease m) = 0 := by
  rcases h with h | h <;> subst h <;> simp [heldSem]

theorem heldSem_acquired (a : Event)
    (h : a = Event.semAcquire .datasem ∨ a = Event.semRecreate .datasem) :
    heldSem .serversem [a] = 0 ∧ heldSem .datasem [a] = 1 ∧
      [a].count (.semRelease .datasem) = 0 := by
  rcases h with h | h <;> subst h <;> decide

/-- The calls of a constructor that returns: no acquisition or release of the
server semaphore, one acquisition (possibly forced) and no release of the data
semaphore; the server is left not running with the is-running cell at 0. -/
theorem Server.construct_trace {α : Type} (n_rows n_cols scalar_size mem_layout : Nat)
    (verbose : Bool) (vlevel : Nat) (force_reconnection safe : Bool) (w : World α)
    (st : ServerState α)
    (hc : Server.construct n_rows n_cols scalar_size mem_layout verbose vlevel
      force_reconnection safe w = .ok st) :
    st.1.running = false ∧ st.1.terminated = false ∧ st.2.isrunning_cell = false ∧
    ∃ tail, st.2.log = w.log ++ tail ∧ heldSem .serversem tail = 0 ∧
      heldSem .datasem tail = 1 ∧ tail.count (.semRelease .datasem) = 0 := by
  have hf := Server.construct_frame n_rows n_cols scalar_size mem_layout verbose vlevel
    force_reconnection safe w
  rw [hc] at hf
  have hcell := Server.construct_cells n_rows n_cols scalar_size mem_layout verbose vlevel
    force_reconnection safe w st hc
  refine ⟨hf.2.1, hf.2.2.1, hcell.2.2.2.2.2.1, ?_⟩
  unfold Server.construct at hc
  dsimp only at hc
  generalize hst1 : (if (force_reconnection && verbose && decide (1 < vlevel)) = true then
      (Server.init n_rows n_cols scalar_size mem_layout verbose vlevel force_reconnection safe,
        (Journal.log LogType.WARN false w).1)
    else (Server.init n_rows n_cols scalar_size mem_layout verbose vlevel force_reconnection safe,
        w)) = st1 at hc
  have h1 : ∃ j1, (j1 = [] ∨ j1 = [Event.journal .WARN false]) ∧ st1.2.log = w.log ++ j1 := by
    rw [← hst1]
    split
    · exact ⟨_, Or.inr rfl, by simp [Journal.log, World.emit]⟩
    · exact ⟨_, Or.inl rfl, by simp⟩
  obtain ⟨j1, hj1, hl1⟩ := h1
  rw [Server.logVerbose_spec] at hc
  generalize hj2 : (if (st1.1.verbose && decide (1 < st1.1.vlevel)) = true then
      [Event.journal .STAT false] else []) = j2 at hc
  have hj2' : j2 = [] ∨ j2 = [Event.journal .STAT false] := by
    rw [← hj2]
    split
    · exact Or.inr rfl
    · exact Or.inl rfl
  generalize hst2 : Server._initSems (st1.1, { st1.2 with log := st1.2.log ++ j2 }) = st2 at hc
  have h2 : st2.2.log = st1.2.log ++ j2 ++ [.semInit .serversem, .semInit .datasem] := by
    rw [← hst2]
    simp [Server._initSems, MemUtils.semInit, World.sem, World.setSem, World.emit]
  cases hacq : Server._acquireSemTimeout .datasem st2 with
  | fatal st3 =>
    rw [hacq] at hc
    cases hc
  | ok st3 =>
    obtain ⟨a, ha, hl3⟩ := Server.acquireSemTimeout_ok_log _ _ _ hacq
    rw [hacq] at hc
    simp only at hc
    rw [Server.initDataMem_spec] at hc
    simp only at hc
    split at hc
    · cases hc
    · rename_i st4 hmeta
      have h4 := Server.initMetaMem_ok _ _ hmeta
      injection hc with hc
      rw [Server.logVerbose_spec] at hc
      generalize hj3 : (if (({ st4.1 with terminated := false } : Server).verbose &&
          decide (1 < ({ st4.1 with terminated := false } : Server).vlevel)) = true then
          [Event.journal .STAT false] else []) = j3 at hc
      have hj3' : j3 = [] ∨ j3 = [Event.journal .STAT false] := by
        rw [← hj3]
        split
        · exact Or.inr rfl
        · exact Or.inl rfl
      refine ⟨j1 ++ j2 ++ [.semInit .serversem, .semInit .datasem] ++ [a] ++
        [.checkMem .data, .initMem .data] ++ [.initMem .nrows, .initMem .ncols,
          .initMem .clients, .initMem .dtype, .initMem .isrunning, .initMem .memlayout] ++ j3,
        ?_, ?_, ?_, ?_⟩
      · rw [← hc, h4]
        simp only [MemUtils.checkMem, World.emit, hl3, h2, hl1]
        simp
      · simp only [heldSem_append, (heldSem_journal _ _ j1 hj1).1, (heldSem_journal _ _ j2 hj2').1,
          (heldSem_journal _ _ j3 hj3').1, (heldSem_acquired a ha).1]
        decide
      · simp only [heldSem_append, (heldSem_journal _ _ j1 hj1).1, (heldSem_journal _ _ j2 hj2').1,
          (heldSem_journal _ _ j3 hj3').1, (heldSem_acquired a ha).2.1]
        decide
      · simp only [List.count_append, (heldSem_journal .datasem _ j1 hj1).2,
          (heldSem_journal .datasem _ j2 hj2').2, (heldSem_journal .datasem _ j3 hj3').2,
          (heldSem_acquired a ha).2.2]
        decide

/-- The legacy `write(vec, col_index)` never reaches `_sh_mem.writeTensor`: whatever
it returns, the underlying object is the one it started with. -/
theorem SharsorIPCpp.write_keeps_sh_mem {σ : Type} (t : StringTensor σ)
    (vec : List (List Byte)) (col : Int) (b : Bool) (t1 : StringTensor σ)
    (h : SharsorIPCpp.write t vec col = some (b, t1)) : t1.sh_mem = t.sh_mem := by
  unfold SharsorIPCpp.write at h
  split at h
  · split at h
    · cases h
    · injection h with h
      injection h with _ h
      rw [← h]
  · injection h with h
    injection h with _ h
    rw [← h]

/-! # Main theorems -/

/-- C1 (amended): for every column index `col` in `[0, length)` and every string `S`
without a zero byte whose byte length is at most `n_rows_fixed * 4 - 1`,
`_encode_str(S, col)` succeeds and `_decode_str(out, col)` on the resulting buffer
yields `out == S`, byte for byte (bytes `>= 0x80` included). -/
theorem string_codec_round_trip (n_rows_fixed length : Nat) (buf : Tensor Int)
    (hrows : buf.rows = n_rows_fixed) (hcols : buf.cols = length)
    (col : Int) (hcol0 : 0 ≤ col) (hcol1 : col < length) (S : List Byte)
    (hlen : S.length ≤ n_rows_fixed * 4 - 1) (hnz : ∀ b ∈ S, b ≠ 0) :
    ∃ buf', _encode_str buf S col = some buf' ∧
      _decode_str n_rows_fixed buf' col = some S := by
  obtain ⟨buf', he, hr, hc, hcell⟩ := encode_str_spec buf S col hcol0 (by omega) (by omega)
  refine ⟨buf', he, ?_⟩
  have hd := decode_encoded buf' col.toNat n_rows_fixed S hnz (by omega)
    (fun r _ => by rw [hcell r col.toNat]; simp)
  simp only [_decode_str, hcol0, hc, hcols, hcol1, hr, hrows, le_refl, and_self, if_true, hd]

/-- C1, witness: a five-byte string with bytes `>= 0x80` in column 1 of a 2x3 buffer. -/
theorem string_codec_round_trip_witness :
    ∃ buf', _encode_str (Tensor.const 2 3 5) [97, 200, 98, 255, 128] 1 = some buf' ∧
      _decode_str 2 buf' 1 = some [97, 200, 98, 255, 128] :=
  string_codec_round_trip 2 3 (Tensor.const 2 3 5) rfl rfl 1 (by decide) (by decide)
    [97, 200, 98, 255, 128] (by decide) (by simp)

/-- C1, counterexample: the three-byte string `a\0b` fits a column of two cells, is
encoded, and decodes to the one-byte string `a`. -/
theorem string_codec_zero_byte_counterexample :
    ([97, 0, 98] : List Byte).length ≤ 2 * 4 - 1 ∧
    (∃ buf', _encode_str (Tensor.const 2 1 0) [97, 0, 98] 0 = some buf' ∧
      _decode_str 2 buf' 0 = some [97]) ∧
    ¬ ∃ buf', _encode_str (Tensor.const 2 1 0) [97, 0, 98] 0 = some buf' ∧
      _decode_str 2 buf' 0 = some [97, 0, 98] := by
  obtain ⟨buf', he, hr, hc, hcell⟩ := encode_str_spec (Tensor.const 2 1 0) [97, 0, 98] 0
    (by decide) (by decide) (by decide)
  have hd : _decode_str 2 buf' 0 = some [97] := by
    have h0 : buf'.cell 0 0 = 6422625 := by
      rw [hcell 0 0]; decide
    have hb0 : byteAt 6422625 0 = 97 := by decide
    have hb1 : byteAt 6422625 1 = 0 := by decide
    simp [_decode_str, hr, hc, Tensor.const, decodeLoop, decodeCell, h0, hb0, hb1]
  refine ⟨by decide, ⟨buf', he, hd⟩, ?_⟩
  rintro ⟨b2, he2, hd2⟩
  rw [he] at he2
  cases he2
  rw [hd] at hd2
  exact absurd hd2 (by decide)

/-- C3 (amended): for a running server of shape `(n_rows, n_cols)` that is not in
safe mode or whose data-access semaphore is free, every block `B` and offset
`(r, c)` with `r, c >= 0`, `r + rows(B) <= n_rows`, `c + cols(B) <= n_cols`: both
`write` overloads return true, a following `read` of the whole tensor returns true
and a tensor equal to `B` on the block at `(r, c)` and to the previous content
elsewhere; for a full-size `B` at `(0, 0)` the tensor read is `B`. -/
theorem server_write_read_round_trip {α : Type} (n_rows n_cols : Nat) (st : ServerState α)
    (hrows : st.2.tensor.rows = n_rows) (hcols : st.2.tensor.cols = n_cols)
    (hr : st.1.running = true) (hg : st.1.safe = false ∨ 0 < st.2.data_sem.value)
    (B : Tensor α) (r c : Int) (hr0 : 0 ≤ r) (hc0 : 0 ≤ c)
    (hrf : r + B.rows ≤ n_rows) (hcf : c + B.cols ≤ n_cols)
    (R : Tensor α) (hRr : R.rows = n_rows) (hRc : R.cols = n_cols) :
    (∃ st1 R' st2, Server.write B r c st = .ok (true, st1) ∧
      Server.read R 0 0 st1 = .ok (true, R', st2) ∧ R'.rows = n_rows ∧ R'.cols = n_cols ∧
      (∀ i j : Nat, i < n_rows → j < n_cols →
        R'.cell i j =
          if r ≤ i ∧ i < r + B.rows ∧ c ≤ j ∧ j < c + B.cols then
            B.cell (i - r.toNat) (j - c.toNat)
          else st.2.tensor.cell i j) ∧
      (r = 0 → c = 0 → B.rows = n_rows → B.cols = n_cols →
        ∀ i j : Nat, i < n_rows → j < n_cols → R'.cell i j = B.cell i j)) ∧
    (∃ st1 R' st2, Server.writeView B r c st = .ok (true, st1) ∧
      Server.read R 0 0 st1 = .ok (true, R', st2) ∧ R'.rows = n_rows ∧ R'.cols = n_cols ∧
      (∀ i j : Nat, i < n_rows → j < n_cols →
        R'.cell i j =
          if r ≤ i ∧ i < r + B.rows ∧ c ≤ j ∧ j < c + B.cols then
            B.cell (i - r.toNat) (j - c.toNat)
          else st.2.tensor.cell i j) ∧
      (r = 0 → c = 0 → B.rows = n_rows → B.cols = n_cols →
        ∀ i j : Nat, i < n_rows → j < n_cols → R'.cell i j = B.cell i j)) := by
  constructor
  · obtain ⟨st1, R', st2, hw, hrd, h1, h2, hcell⟩ := Server.write_then_read Server.write
      Server.write_granted n_rows n_cols st hrows hcols hr hg B r c hr0 hc0 hrf hcf R hRr hRc
    refine ⟨st1, R', st2, hw, hrd, h1, h2, hcell, ?_⟩
    intro e1 e2 e3 e4 i j hi hj
    have hin : r ≤ (i : Int) ∧ (i : Int) < r + B.rows ∧ c ≤ (j : Int) ∧
        (j : Int) < c + B.cols := by omega
    rw [hcell i j hi hj, if_pos hin, e1, e2]
    simp
  · obtain ⟨st1, R', st2, hw, hrd, h1, h2, hcell⟩ := Server.write_then_read Server.writeView
      Server.writeView_granted n_rows n_cols st hrows hcols hr hg B r c hr0 hc0 hrf hcf R hRr hRc
    refine ⟨st1, R', st2, hw, hrd, h1, h2, hcell, ?_⟩
    intro e1 e2 e3 e4 i j hi hj
    have hin : r ≤ (i : Int) ∧ (i : Int) < r + B.rows ∧ c ≤ (j : Int) ∧
        (j : Int) < c + B.cols := by omega
    rw [hcell i j hi hj, if_pos hin, e1, e2]
    simp

/-- C3, witness: a 1x1 block written at `(1, 1)` of the running safe-mode 2x2 server. -/
theorem server_write_read_round_trip_witness :
    ((Server.sampleRunning false true).2.tensor.rows = 2 ∧
      (Server.sampleRunning false true).1.running = true ∧
      0 < (Server.sampleRunning false true).2.data_sem.value) ∧
    ∃ st1 R' st2, Server.write (Tensor.const 1 1 9) 1 1 (Server.sampleRunning false true) =
        .ok (true, st1) ∧
      Server.read (Tensor.const 2 2 0) 0 0 st1 = .ok (true, R', st2) ∧
      R'.rows = 2 ∧ R'.cols = 2 :=
  ⟨⟨by decide, by decide, by decide⟩,
    let h := (server_write_read_round_trip 2 2 (Server.sampleRunning false true)
      (by decide) (by decide) (by decide) (Or.inr (by decide)) (Tensor.const 1 1 9) 1 1
      (by decide) (by decide) (by decide) (by decide) (Tensor.const 2 2 0) rfl rfl).1
    let ⟨st1, R', st2, hw, hrd, h1, h2, _⟩ := h
    ⟨st1, R', st2, hw, hrd, h1, h2⟩⟩

/-- C3, counterexample: a safe-mode server that is running and has taken the
data semaphore through `dataSemAcquire()` returns false from `write`, for a block
that fits, without throwing. -/
theorem server_write_refused_while_data_sem_held :
    (Server.dataSemAcquire (Server.sampleRunning false true)).map
      (fun st => (st.1.running, st.2.tensor.rows, st.2.tensor.cols,
        (Server.write (Tensor.const 2 2 9) 0 0 st).state.1,
        (Server.write (Tensor.const 2 2 9) 0 0 st).isFatal)) =
      some (true, 2, 2, false, false) := by
  decide

/-- C4: `wait_and_ack` on a running consumer whose `wait()` sees the trigger
(delta 1), whose callback `pre_ack()` returns false and whose `ack()` reads and
writes the ack counter successfully: the call returns true without throwing,
although `pre_ack()` failed, because `_acknowledge` resets the `_fail_count` that
`wait_and_ack` had incremented. The trace shows the callback returning false. -/
theorem wait_and_ack_ignores_pre_ack_failure :
    (Consumer.wait_and_ack false (-1) [{ readOk := true, value := 1, notified := false }]
        true true (Consumer.run (Consumer.fresh 0 0), { ack := 0, trace := [] })).map
      (fun o => (o.isFatal, o.state.1, o.state.2.1.fail_count, o.state.2.2.ack,
        o.state.2.2.trace)) =
    some (false, true, 0, 1,
      [.readTrigger true, .preAck false, .readAck true, .writeAck true, .notifyOne]) := by
  decide

/-- C5: in `Consumer::_check_trigger_received`, with `delta` the difference between
the trigger counter value just read and `_internal_trigger_counter` (computed in
`int`, equal to the mathematical difference whenever that is representable), a
fatal error is raised if and only if `delta` is not in `{0, 1}`; if `delta == 1` the
function returns true and sets `_internal_trigger_counter` to the value read; if
`delta == 0` it returns false and leaves `_internal_trigger_counter` unchanged.
Whenever `Consumer::wait` returns true, one of its reads observed `delta == 1`, and
that delta is the last one computed. -/
theorem consumer_trigger_delta_rule (o : Obs) (st : ConsumerState) :
    ((Consumer._check_trigger_received o st).isFatal = true ↔
      ¬ (Consumer.delta o st.1 = 0 ∨ Consumer.delta o st.1 = 1)) ∧
    ((-2 ^ 31 ≤ (if o.readOk then o.value else st.1.trigger_counter) -
          st.1.internal_trigger_counter ∧
        (if o.readOk then o.value else st.1.trigger_counter) -
          st.1.internal_trigger_counter < 2 ^ 31) →
      Consumer.delta o st.1 =
        (if o.readOk then o.value else st.1.trigger_counter) - st.1.internal_trigger_counter) ∧
    (Consumer.delta o st.1 = 1 →
      ∃ r, Consumer._check_trigger_received o st = .ok (true, r) ∧
        r.1.trigger_counter = (if o.readOk then o.value else st.1.trigger_counter) ∧
        r.1.internal_trigger_counter = r.1.trigger_counter) ∧
    (Consumer.delta o st.1 = 0 →
      ∃ r, Consumer._check_trigger_received o st = .ok (false, r) ∧
        r.1.internal_trigger_counter = st.1.internal_trigger_counter) ∧
    (∀ (ms : Int) (obs : List Obs) (r : ConsumerState),
      Consumer.wait ms obs st = some (.ok (true, r)) →
      r.1.trigger_counter_increment = 1 ∧
        ∃ o' ∈ obs, ∃ st0 : ConsumerState, Consumer.delta o' st0.1 = 1) := by
  refine ⟨Consumer.check_trigger_fatal_iff o st, ?_, ?_, ?_, ?_⟩
  · intro h
    exact wrapInt32_of_range _ h.1 h.2
  · intro h
    exact ⟨_, Consumer.check_trigger_delta_one o st h, rfl, rfl⟩
  · intro h
    exact ⟨_, Consumer.check_trigger_delta_zero o st h, rfl⟩
  · intro ms obs r h
    obtain ⟨h1, _, o', ho', st0, hd, _⟩ := Consumer.wait_true ms obs st r h
    exact ⟨h1, o', ho', st0, hd⟩

/-- C5, instance: a running consumer whose internal counter is 0 and that reads 1
from the trigger cell returns true from `wait()`. -/
theorem consumer_wait_returns_true_on_delta_one :
    (Consumer.wait (-1) [{ readOk := true, value := 1, notified := false }]
        (Consumer.run (Consumer.fresh 7 7), { ack := 0, trace := [] })).map
      (fun o => (o.isFatal, o.state.1, o.state.2.1.internal_trigger_counter)) =
    some (false, true, 1) := by
  decide

/-- C6 (amended): starting from trigger counter = ack counter = 0 with `N`
consumers that have called `run()`, for every number `P` of rounds with
`P * N <= INT_MAX` and every schedule in which each producer trigger is followed by
`wait()` and `ack()` of all `N` consumers, in any order, before the next trigger
(all counter reads and writes succeeding): every call returns true, so every
`wait()` returns true and no consumer throws on a delta outside `{0, 1}`, and
after the last round the ack counter equals `P * N`. -/
theorem trigger_ack_barrier (locals : List (Int × Int)) (rounds : List (List Call))
    (hperm : ∀ ρ ∈ rounds, ρ.Perm (Barrier.roundCalls locals.length))
    (hbound : rounds.length * locals.length < 2 ^ 31) :
    (∀ x ∈ (Barrier.exec (Barrier.init locals) (Barrier.schedule rounds)).2,
      x = CallResult.returned true) ∧
    (Barrier.exec (Barrier.init locals) (Barrier.schedule rounds)).1.sh.ack =
      ((rounds.length * locals.length : Nat) : Int) := by
  obtain ⟨h1, h2⟩ := Barrier.exec_schedule locals.length rounds (Barrier.init locals) 0 0 hperm
    (Barrier.init_inRound locals) rfl
  refine ⟨h1, ?_⟩
  rw [h2]
  have h0 : (Barrier.init locals).sh.ack = 0 := rfl
  rw [h0, Int.zero_add]
  have hb : ((rounds.length * locals.length : Nat) : Int) < 2 ^ 31 := by exact_mod_cast hbound
  rw [Nat.cast_mul] at hb ⊢
  have hn : (0 : Int) ≤ (rounds.length : Int) * (locals.length : Int) :=
    Int.mul_nonneg (Int.ofNat_nonneg _) (Int.ofNat_nonneg _)
  exact wrapInt32_of_range _ (le_trans (by decide) hn) hb

/-- C6, witness: two consumers and two rounds with different orders of the calls. -/
theorem trigger_ack_barrier_witness :
    (∀ x ∈ (Barrier.exec (Barrier.init [(5, 7), (0, 0)])
        (Barrier.schedule [[.wait 1, .ack 1, .wait 0, .ack 0],
          [.wait 0, .wait 1, .ack 0, .ack 1]])).2, x = CallResult.returned true) ∧
    (Barrier.exec (Barrier.init [(5, 7), (0, 0)])
        (Barrier.schedule [[.wait 1, .ack 1, .wait 0, .ack 0],
          [.wait 0, .wait 1, .ack 0, .ack 1]])).1.sh.ack = ((2 * 2 : Nat) : Int) :=
  trigger_ack_barrier [(5, 7), (0, 0)]
    [[.wait 1, .ack 1, .wait 0, .ack 0], [.wait 0, .wait 1, .ack 0, .ack 1]]
    (by decide) (by decide)

/-- C6, counterexample: one consumer and `2^31` rounds, each a trigger followed by
`wait()` and `ack()`. Every call returns true, but the `int` ack counter ends at
`-2^31`, which is not `P * N = 2^31`. -/
theorem barrier_ack_counter_overflow_counterexample :
    (∀ ρ ∈ List.replicate (2 ^ 31) (Barrier.roundCalls 1), ρ.Perm (Barrier.roundCalls 1)) ∧
    (∀ x ∈ (Barrier.exec (Barrier.init [(0, 0)])
        (Barrier.schedule (List.replicate (2 ^ 31) (Barrier.roundCalls 1)))).2,
      x = CallResult.returned true) ∧
    (Barrier.exec (Barrier.init [(0, 0)])
        (Barrier.schedule (List.replicate (2 ^ 31) (Barrier.roundCalls 1)))).1.sh.ack =
      -2 ^ 31 ∧
    (Barrier.exec (Barrier.init [(0, 0)])
        (Barrier.schedule (List.replicate (2 ^ 31) (Barrier.roundCalls 1)))).1.sh.ack ≠
      (((List.replicate (2 ^ 31) (Barrier.roundCalls 1)).length * [((0 : Int), (0 : Int))].length :
        Nat) : Int) := by
  have hperm : ∀ ρ ∈ List.replicate (2 ^ 31) (Barrier.roundCalls 1),
      ρ.Perm (Barrier.roundCalls 1) := by
    intro ρ hρ
    rw [List.eq_of_mem_replicate hρ]
  obtain ⟨h1, h2⟩ := Barrier.exec_schedule 1 (List.replicate (2 ^ 31) (Barrier.roundCalls 1))
    (Barrier.init [(0, 0)]) 0 0 hperm (Barrier.init_inRound [(0, 0)]) rfl
  have h0 : (Barrier.init [(0, 0)]).sh.ack = 0 := rfl
  rw [h0, List.length_replicate] at h2
  have hv : wrapInt32 (0 + ((2 ^ 31 : Nat) : Int) * ((1 : Nat) : Int)) = -2 ^ 31 := by
    unfold wrapInt32
    norm_num
  refine ⟨hperm, h1, h2.trans hv, ?_⟩
  rw [h2, hv, List.length_replicate]
  norm_num

/-- C7 (amended): for any two `Server` instances created on the same
`(basename, namespace)` with `force_reconnection == false` (every value of the
other flags), the server-unique semaphore being absent or at most 1 before the
first construction, after every interleaving of their construct/run/stop/close
operations at most one of them is in the running state; when one is running,
`run()` on the other one (constructed and not closed) throws and leaves it not
running, the first one still running. -/
theorem server_uniqueness {α : Type} (cfg : Inst → ServerConfig)
    (hcfg : ∀ i, (cfg i).force_reconnection = false) (w : World α)
    (hw : w.srvr_sem.value ≤ 1) (ops : List Op) (p : Pair α)
    (hex : Pair.exec cfg (Pair.start w) ops = some p) :
    p.nRunning ≤ 1 ∧
    ∀ (i : Inst) (s s' : Server), p.get i = .alive s → s.running = true →
      p.get i.other = .alive s' → s'.terminated = false →
      ∃ p', Pair.step cfg p (.run i.other) = some (p', true) ∧
        (p'.get i.other).isRunning = false ∧ (p'.get i).isRunning = true := by
  have hinv := Pair.exec_inv cfg hcfg ops (Pair.start w) p (Pair.inv_start w hw) hex
  refine ⟨?_, fun i s s' hi hr hj ht => Pair.run_other_refused cfg p hinv i s s' hi hr hj ht⟩
  have := hinv.1
  omega

/-- C7, witness: both servers without the force flag; the second is constructed
while the first runs, the first stops, the second runs, the first closes. -/
theorem server_uniqueness_witness :
    ∃ p, Pair.exec (Pair.sampleCfg false) (Pair.start World.initial)
        [.construct .a, .run .a, .construct .b, .stop .a, .run .b, .close .a] = some p ∧
      p.nRunning ≤ 1 := by
  have h : (Pair.exec (Pair.sampleCfg false) (Pair.start World.initial)
      [.construct .a, .run .a, .construct .b, .stop .a, .run .b, .close .a]).isSome = true := by
    decide
  obtain ⟨p, hp⟩ := Option.isSome_iff_exists.mp h
  exact ⟨p, hp, (server_uniqueness (Pair.sampleCfg false) (fun i => by cases i <;> rfl)
    World.initial (by decide) _ p hp).1⟩

/-- C7, counterexample: the second server is created with
`force_reconnection == true`; after construct, run of the first and construct, run
of the second, both are in the running state and the second `run()` did not
throw. -/
theorem server_uniqueness_force_counterexample :
    ((Pair.exec (Pair.sampleCfg true) (Pair.start World.initial)
        [.construct .a, .run .a, .construct .b]).bind
      (fun p => (Pair.step (Pair.sampleCfg true) p (.run .b)).map
        (fun r => (p.a.isRunning, p.b.isRunning, r.2, r.1.a.isRunning, r.1.b.isRunning,
          r.1.nRunning)))) =
    some (true, false, false, true, true, 2) := by
  decide

/-- C8: for a running server with `safe == true`, each of the four `write` / `read`
overloads returns normally; the data-access semaphore ends with the value it had
at the start; either the try-acquire failed, the call returned false and neither
the shared tensor nor the output was touched, or the copy happened between a
successful try-acquire and a release, whatever the copy reported. -/
theorem safe_mode_semaphore_discipline {α : Type} (st : ServerState α)
    (hr : st.1.running = true) (hs : st.1.safe = true) (data output : Tensor α)
    (row col : Int) :
    (∃ b st', Server.write data row col st = .ok (b, st') ∧
      Sandwiched .memWrite st.2 st'.2 b) ∧
    (∃ b st', Server.writeView data row col st = .ok (b, st') ∧
      Sandwiched .memWrite st.2 st'.2 b) ∧
    (∃ b out st', Server.read output row col st = .ok (b, out, st') ∧
      Sandwiched .memRead st.2 st'.2 b ∧ st'.2.tensor = st.2.tensor ∧
      (st.2.data_sem.value = 0 → out = output)) ∧
    (∃ b out st', Server.readView output row col st = .ok (b, out, st') ∧
      Sandwiched .memRead st.2 st'.2 b ∧ st'.2.tensor = st.2.tensor ∧
      (st.2.data_sem.value = 0 → out = output)) := by
  rcases Nat.eq_zero_or_pos st.2.data_sem.value with hv | hv
  · refine ⟨⟨_, _, Server.write_safe_busy data row col st hr hs hv, rfl, ?_⟩,
      ⟨_, _, Server.writeView_safe_busy data row col st hr hs hv, rfl, ?_⟩,
      ⟨_, _, _, Server.read_safe_busy output row col st hr hs hv, ⟨rfl, ?_⟩, rfl, fun _ => rfl⟩,
      ⟨_, _, _, Server.readView_safe_busy output row col st hr hs hv, ⟨rfl, ?_⟩, rfl,
        fun _ => rfl⟩⟩ <;>
    exact Or.inl ⟨hv, rfl, rfl, rfl⟩
  · refine ⟨⟨_, _, Server.write_safe_free data row col st hr hs hv, rfl, ?_⟩,
      ⟨_, _, Server.writeView_safe_free data row col st hr hs hv, rfl, ?_⟩,
      ⟨_, _, _, Server.read_safe_free output row col st hr hs hv, ⟨rfl, ?_⟩, rfl,
        fun h => absurd h (by omega)⟩,
      ⟨_, _, _, Server.readView_safe_free output row col st hr hs hv, ⟨rfl, ?_⟩, rfl,
        fun h => absurd h (by omega)⟩⟩ <;>
    exact Or.inr ⟨hv, rfl⟩

/-- C8, witness: the running safe-mode 2x2 server. -/
theorem safe_mode_semaphore_discipline_witness :
    ((Server.sampleRunning false true).1.running = true ∧
      (Server.sampleRunning false true).1.safe = true) ∧
    ∃ b st', Server.write (Tensor.const 1 1 9) 5 5 (Server.sampleRunning false true) =
        .ok (b, st') ∧
      Sandwiched .memWrite (Server.sampleRunning false true).2 st'.2 b :=
  ⟨⟨by decide, by decide⟩,
    (safe_mode_semaphore_discipline (Server.sampleRunning false true) (by decide) (by decide)
      (Tensor.const 1 1 9) (Tensor.const 1 1 0) 5 5).1⟩

/-- C9: for a server that is not running, every `write` and `read` overload
returns false without throwing, for all arguments; the server object, the shared
tensor, the output and both semaphores are unchanged, and the only call made is
the non-throwing `EXCEP` diagnostic of `_checkIsRunning` (when `verbose`). -/
theorem server_not_running_refuses {α : Type} (st : ServerState α)
    (hr : st.1.running = false) (data output : Tensor α) (row col : Int) :
    ∃ st', st'.1 = st.1 ∧ st'.2.tensor = st.2.tensor ∧ st'.2.data_sem = st.2.data_sem ∧
      st'.2.srvr_sem = st.2.srvr_sem ∧
      st'.2.log = st.2.log ++ (if st.1.verbose then [Event.journal .EXCEP false] else []) ∧
      Server.write data row col st = .ok (false, st') ∧
      Server.writeView data row col st = .ok (false, st') ∧
      Server.read output row col st = .ok (false, output, st') ∧
      Server.readView output row col st = .ok (false, output, st') := by
  obtain ⟨h1, h2, h3, h4, h5⟩ := Server.checkIsRunning_spec st
  refine ⟨Server._checkIsRunning st, h1, h2, h3, h4, ?_,
    Server.write_not_running data row col st hr, Server.writeView_not_running data row col st hr,
    Server.read_not_running output row col st hr,
    Server.readView_not_running output row col st hr⟩
  rw [h5, hr]
  simp

/-- C9, witness: the 2x2 server after construction, before `run()`. -/
theorem server_not_running_refuses_witness :
    (Server.sample false true).1.running = false ∧
    ∃ st', st'.2.data_sem = (Server.sample false true).2.data_sem ∧
      Server.write (Tensor.const 2 2 9) 0 0 (Server.sample false true) = .ok (false, st') ∧
      Server.read (Tensor.const 2 2 0) 0 0 (Server.sample false true) =
        .ok (false, Tensor.const 2 2 0, st') :=
  ⟨by decide,
    let ⟨st', _, _, h3, _, _, h6, _, h8, _⟩ := server_not_running_refuses
      (Server.sample false true) (by decide) (Tensor.const 2 2 9) (Tensor.const 2 2 0) 0 0
    ⟨st', h3, h6, h8⟩⟩

/-- C10: starting from both named semaphores at their initial value 1, after a
successful construction data-access is held (value 0, acquired once and not
released), server-unique is free (value 1), the published is-running cell and the
local flag are 0; the first `run()` then succeeds, after it server-unique is held
(value 0), data-access has been released exactly once (value 1) and both the local
flag and the published is-running cell are 1. -/
theorem deferred_release_of_data_access {α : Type} (n_rows n_cols scalar_size mem_layout : Nat)
    (verbose : Bool) (vlevel : Nat) (force_reconnection safe : Bool) (w : World α)
    (hs : w.srvr_sem.value = 1) (hd : w.data_sem.value = 1) (st : ServerState α)
    (hc : Server.construct n_rows n_cols scalar_size mem_layout verbose vlevel
      force_reconnection safe w = .ok st) :
    (st.2.data_sem.value = 0 ∧ st.2.srvr_sem.value = 1 ∧ st.2.isrunning_cell = false ∧
      st.1.running = false ∧
      ∃ tail, st.2.log = w.log ++ tail ∧ tail.count (.semAcquire .datasem) = 1 ∧
        tail.count (.semRelease .datasem) = 0 ∧ tail.count (.semAcquire .serversem) = 0) ∧
    ∃ st1, Server.run st = .ok st1 ∧ st1.2.srvr_sem.value = 0 ∧ st1.2.data_sem.value = 1 ∧
      st1.1.running = true ∧ st1.2.isrunning_cell = true ∧
      ∃ tail, st1.2.log = st.2.log ++ tail ∧ tail.count (.semRelease .datasem) = 1 ∧
        tail.count (.semAcquire .serversem) = 1 := by
  obtain ⟨h1, h2, h3, h4, h5⟩ := Server.construct_spec n_rows n_cols scalar_size mem_layout
    verbose vlevel force_reconnection safe w hs hd st hc
  have hrun : st.1.running = false := by rw [h1]; rfl
  refine ⟨⟨h2, h3, h4, hrun, h5⟩, _, Server.run_spec st hrun (by omega), ?_, ?_, rfl, rfl,
    _, List.append_assoc _ _ _, ?_, ?_⟩
  · simp [h3]
  · simp [h2]
  · split <;> simp
  · split <;> simp

/-- C10, witness: construction of the 2x2 server on `World.initial` succeeds. -/
theorem deferred_release_of_data_access_witness :
    (World.initial.srvr_sem.value = 1 ∧ World.initial.data_sem.value = 1 ∧
      (Server.construct 2 2 4 1 false 0 false true World.initial).isFatal = false) ∧
    (Server.sample false true).2.data_sem.value = 0 ∧
    ∃ st1, Server.run (Server.sample false true) = .ok st1 ∧ st1.2.srvr_sem.value = 0 ∧
      st1.2.data_sem.value = 1 :=
  ⟨⟨rfl, rfl, rfl⟩,
    let h := deferred_release_of_data_access 2 2 4 1 false 0 false true World.initial rfl rfl
      (Server.sample false true) rfl
    let ⟨st1, hrun, h1, h2, _⟩ := h.2
    ⟨h.1.1, st1, hrun, h1, h2⟩⟩

/-- C11 (published metadata): after a successful construction of
`Server<Scalar, Layout>(n_rows, n_cols, ...)` the metadata cells hold `n_rows`,
`n_cols`, `n_clients = 0`, is-running `= 0`, element-type code `sizeof(Scalar)`
and layout code `Layout` (0 for column-major, 1 for row-major);
`getNRows()`/`getNCols()` return `n_rows`/`n_cols`; and after any sequence of
`run`, `stop`, `read` and `write` calls (either overload, any arguments, returned
or thrown) the `n_rows`, `n_cols`, element-type and layout cells are as
published. -/
theorem server_published_metadata {α : Type} (n_rows n_cols scalar_size mem_layout : Nat)
    (verbose : Bool) (vlevel : Nat) (force_reconnection safe : Bool) (w : World α)
    (st : ServerState α)
    (hc : Server.construct n_rows n_cols scalar_size mem_layout verbose vlevel
      force_reconnection safe w = .ok st) :
    (st.2.n_rows_cell = n_rows ∧ st.2.n_cols_cell = n_cols ∧ st.2.n_clients_cell = 0 ∧
      st.2.isrunning_cell = false ∧ st.2.dtype_cell = scalar_size ∧
      st.2.mem_layout_cell = mem_layout) ∧
    (mem_layout = ColMajor → st.2.mem_layout_cell = 0) ∧
    (mem_layout = RowMajor → st.2.mem_layout_cell = 1) ∧
    Server.getNRows st.1 = n_rows ∧ Server.getNCols st.1 = n_cols ∧
    ∀ calls : List (ServerCall α),
      (ServerCall.afterAll calls st).2.n_rows_cell = n_rows ∧
      (ServerCall.afterAll calls st).2.n_cols_cell = n_cols ∧
      (ServerCall.afterAll calls st).2.dtype_cell = scalar_size ∧
      (ServerCall.afterAll calls st).2.mem_layout_cell = mem_layout := by
  obtain ⟨m1, m2, c1, c2, c3, c4, c5, c6⟩ := Server.construct_cells n_rows n_cols scalar_size
    mem_layout verbose vlevel force_reconnection safe w st hc
  refine ⟨⟨c1, c2, c3, c4, c5, c6⟩, ?_, ?_, ?_, ?_, ?_⟩
  · intro h
    rw [c6, h]
    rfl
  · intro h
    rw [c6, h]
    rfl
  · simp [Server.getNRows, m1]
  · simp [Server.getNCols, m2]
  · intro calls
    have h := ServerCall.afterAll_cells calls st
    simp only [World.shapeCells, Prod.mk.injEq] at h
    obtain ⟨h1, h2, h3, h4⟩ := h
    exact ⟨h1.trans c1, h2.trans c2, h3.trans c5, h4.trans c6⟩

/-- C11, witness: the 2x2 row-major `Server<int>` on fresh named objects, then
`run`, a write, a read and `stop`. -/
theorem server_published_metadata_witness :
    ((Server.sample false true).2.n_rows_cell = (2 : Nat) ∧
      (Server.sample false true).2.n_cols_cell = (2 : Nat) ∧
      (Server.sample false true).2.n_clients_cell = 0 ∧
      (Server.sample false true).2.isrunning_cell = false ∧
      (Server.sample false true).2.dtype_cell = (4 : Nat) ∧
      (Server.sample false true).2.mem_layout_cell = (1 : Nat)) ∧
    (Server.sample false true).2.mem_layout_cell = 1 ∧
    Server.getNRows (Server.sample false true).1 = (2 : Nat) ∧
    Server.getNCols (Server.sample false true).1 = (2 : Nat) ∧
    (ServerCall.afterAll [.run, .write (Tensor.const 1 1 9) 0 0, .read (Tensor.const 1 1 0) 0 0,
        .stop] (Server.sample false true)).2.n_rows_cell = (2 : Nat) ∧
    (ServerCall.afterAll [.run, .write (Tensor.const 1 1 9) 0 0, .read (Tensor.const 1 1 0) 0 0,
        .stop] (Server.sample false true)).2.n_cols_cell = (2 : Nat) ∧
    (ServerCall.afterAll [.run, .write (Tensor.const 1 1 9) 0 0, .read (Tensor.const 1 1 0) 0 0,
        .stop] (Server.sample false true)).2.dtype_cell = (4 : Nat) ∧
    (ServerCall.afterAll [.run, .write (Tensor.const 1 1 9) 0 0, .read (Tensor.const 1 1 0) 0 0,
        .stop] (Server.sample false true)).2.mem_layout_cell = (1 : Nat) :=
  let h := server_published_metadata 2 2 4 1 false 0 false true World.initial
    (Server.sample false true) rfl
  ⟨h.1, h.2.2.1 rfl, h.2.2.2.1, h.2.2.2.2.1,
    h.2.2.2.2.2 [.run, .write (Tensor.const 1 1 9) 0 0, .read (Tensor.const 1 1 0) 0 0, .stop]⟩

/-- C12 (return value of the vector string write), evaluated on the running
wrapper with `n_rows_fixed = 2` and `length = 2`: `write(vec, 0)` with one string
of 9 bytes satisfies `col_offset + |vec| <= length`, yet it returns neither what
the forwarded write returns nor false. `_encode_vec` passes `_fits` and
`_encode_str`, whose loop has no bound on the row, assigns row 2 of a buffer of
2 rows: the call has no defined result (the missing row bound of C14). The same
holds for `write(vec, -1)` with one string: `-1 + 1 <= length`, `_fits`,
evaluated in `size_t`, accepts the negative index, and `_encode_str` addresses
column `-1` (the missing sign test of C27). -/
theorem string_vector_write_leaves_buffer :
    StringTensor.sample.running = true ∧
    ((0 : Int) + ([[11, 12, 13, 14, 15, 16, 17, 18, 19]] : List (List Byte)).length ≤
      StringTensor.sample.length) ∧
    StringTensor.write serverShMem StringTensor.sample
      [[11, 12, 13, 14, 15, 16, 17, 18, 19]] 0 = none ∧
    ((-1 : Int) + ([[97]] : List (List Byte)).length ≤ StringTensor.sample.length) ∧
    StringTensor._fits StringTensor.sample ([[97]] : List (List Byte)).length (-1) = true ∧
    StringTensor.write serverShMem StringTensor.sample [[97]] (-1) = none := by
  have he : _encode_str StringTensor.sample.buffer [11, 12, 13, 14, 15, 16, 17, 18, 19] 0 = none :=
    encode_str_overflow _ _ _ (by decide)
  have he2 : _encode_str StringTensor.sample.buffer [97] (-1) = none :=
    encode_str_bad_col _ _ _ (Or.inl (by decide))
  have hf2 : StringTensor._fits StringTensor.sample ([[97]] : List (List Byte)).length (-1) = true := by
    decide
  refine ⟨rfl, by decide, ?_, by decide, hf2, ?_⟩
  · unfold StringTensor.write
    rw [if_neg (by decide)]
    have hv : StringTensor._encode_vec StringTensor.sample
        [[11, 12, 13, 14, 15, 16, 17, 18, 19]] 0 = none := by
      unfold StringTensor._encode_vec
      rw [if_neg (by decide)]
      simp [StringTensor.encodeVecLoop, he]
    rw [hv]
  · unfold StringTensor.write
    rw [if_neg (by decide)]
    have hv : StringTensor._encode_vec StringTensor.sample [[97]] (-1) = none := by
      unfold StringTensor._encode_vec
      rw [if_neg (by rw [hf2]; decide)]
      simp [StringTensor.encodeVecLoop, he2]
    rw [hv]

/-- C13 (single-string column bounds), evaluated on the running wrapper with
`n_rows_fixed = 2` and `length = 2`: `write(s, 1)` with a string of 9 bytes has
`col_offset` in `[0, length)`, yet it does not return the result of the forwarded
width-1 write. Before forwarding, `_encode_str`, whose loop has no bound on the
row, assigns row 2 of a buffer of 2 rows: the call has no defined result (the
missing row bound of C14). -/
theorem string_single_write_leaves_buffer :
    StringTensor.sample.running = true ∧ (0 : Int) ≤ 1 ∧ (1 : Int) < StringTensor.sample.length ∧
    StringTensor.writeStr serverShMem StringTensor.sample
      [21, 22, 23, 24, 25, 26, 27, 28, 29] 1 = none := by
  refine ⟨rfl, by decide, by decide, ?_⟩
  unfold StringTensor.writeStr
  rw [if_neg (by decide), encode_str_overflow _ _ _ (by decide)]

/-- C14 (overflow refusal), evaluated on the running wrapper with
`n_rows_fixed = 2` (a column holds 8 bytes) and a string of 9 bytes: neither
`write(s, 0)` nor `write(vec, 0)` with `vec = [s]` returns false. Both go on to
`_encode_str`, whose loop assigns the cells of rows 0, 1 and 2 of the column,
and row 2 is not a row of the owned buffer: the call has no defined result. -/
theorem string_write_overflow_not_refused :
    StringTensor.sample.n_rows = 2 ∧ StringTensor.sample.running = true ∧
    StringTensor.sample.buffer.rows = 2 ∧
    ([1, 2, 3, 4, 5, 6, 7, 8, 9] : List Byte).length = 9 ∧
    encodeRows [1, 2, 3, 4, 5, 6, 7, 8, 9] 0 = [0, 1, 2] ∧
    _encode_str StringTensor.sample.buffer [1, 2, 3, 4, 5, 6, 7, 8, 9] 0 = none ∧
    StringTensor.writeStr serverShMem StringTensor.sample [1, 2, 3, 4, 5, 6, 7, 8, 9] 0 = none ∧
    StringTensor.write serverShMem StringTensor.sample [[1, 2, 3, 4, 5, 6, 7, 8, 9]] 0 = none := by
  have he : _encode_str StringTensor.sample.buffer [1, 2, 3, 4, 5, 6, 7, 8, 9] 0 = none :=
    encode_str_overflow _ _ _ (by decide)
  refine ⟨rfl, rfl, rfl, rfl, ?_, he, ?_, ?_⟩
  · rw [encodeRows_spec 9 _ 0 (by decide)]
    decide
  · unfold StringTensor.writeStr
    rw [if_neg (by decide), he]
  · unfold StringTensor.write
    rw [if_neg (by decide)]
    have hv : StringTensor._encode_vec StringTensor.sample [[1, 2, 3, 4, 5, 6, 7, 8, 9]] 0 = none := by
      unfold StringTensor._encode_vec
      rw [if_neg (by decide)]
      simp [StringTensor.encodeVecLoop, he]
    rw [hv]

/-- C15 (zero byte terminates decoding), evaluated on the two-cell column whose
row 0 holds 0 and whose row 1 holds the byte 97: the first byte of the column is
zero, so the bytes that precede the first zero byte are none, but `_decode_str`
returns the one-byte string 97. The zero byte at the start of cell 0 ends the
inner loop only; `str.size() % sizeof(int)` is then 0, the outer loop goes on to
row 1, and a byte located after a zero byte appears in the decoded string. -/
theorem decode_str_resumes_after_leading_zero :
    _decode_str 2 (columnOf 0 97) 0 = some [97] ∧
    columnBytes 2 (columnOf 0 97) 0 = [0, 0, 0, 0, 97, 0, 0, 0] ∧
    untilZero (columnBytes 2 (columnOf 0 97) 0) = [] := by
  refine ⟨by decide, by decide, by decide⟩

/-- C16 (wire format of an encoded string): `_encode_str(S, col)` with
`|S| <= n_rows_fixed * 4` on a column inside the buffer succeeds, and afterwards,
for every row `r < n_rows_fixed`, the 32-bit pattern of cell `(r, col)` is the sum
over `j` in `0..3` with `4r + j < |S|` of `S[4r+j] * 2^(8j)` (a number below
`2^32`, so equal to itself modulo `2^32`); byte `j` of the cell is `S[4r+j]` where
that exists and 0 beyond the end of `S`; and every cell with `4r >= |S|` is 0,
whatever the buffer held before. -/
theorem encoded_string_wire_format (n_rows_fixed length : Nat) (buf : Tensor Int)
    (S : List Byte) (col : Int)
    (hrows : buf.rows = n_rows_fixed) (hcols : buf.cols = length)
    (hcol0 : 0 ≤ col) (hcol1 : col < length) (hS : S.length ≤ n_rows_fixed * 4) :
    ∃ buf1, _encode_str buf S col = some buf1 ∧
      ∀ r, r < n_rows_fixed →
        bitPattern32 (buf1.cell r col.toNat) = wireValue S r % 2 ^ 32 ∧
        (∀ j, j < 4 → byteAt (buf1.cell r col.toNat) j =
          if 4 * r + j < S.length then S.getD (4 * r + j) 0 else 0) ∧
        (S.length ≤ 4 * r → buf1.cell r col.toNat = 0) := by
  obtain ⟨buf1, he, _, _, hcell⟩ := encode_str_spec buf S col hcol0 (by rw [hcols]; exact hcol1)
    (by rw [hrows]; omega)
  refine ⟨buf1, he, fun r _ => ?_⟩
  rw [hcell r col.toNat, if_pos rfl]
  refine ⟨?_, ?_, ?_⟩
  · rw [bitPattern32_encodedCell, Nat.mod_eq_of_lt (wireValue_lt S r)]
  · intro j hj
    rw [byteAt_encodedCell S r j hj]
    split
    · rfl
    · exact List.getD_eq_default _ _ (by omega)
  · intro h
    simp [encodedCell, Nat.not_lt.mpr h]

/-- C16, witness: a five-byte string written to column 1 of a 2x2 buffer filled
with 7; row 0 holds the first four bytes packed little-endian, row 1 the fifth. -/
theorem encoded_string_wire_format_witness :
    ∃ buf1, _encode_str (Tensor.const 2 2 7) [97, 98, 99, 100, 101] 1 = some buf1 ∧
      bitPattern32 (buf1.cell 0 1) = 97 + 98 * 2 ^ 8 + 99 * 2 ^ 16 + 100 * 2 ^ 24 ∧
      bitPattern32 (buf1.cell 1 1) = 101 :=
  (encoded_string_wire_format 2 2 (Tensor.const 2 2 7) [97, 98, 99, 100, 101] 1 rfl rfl
    (by decide) (by decide) (by decide)).imp
    fun _ h => ⟨h.1, (h.2 0 (by decide)).1.trans (by decide),
      (h.2 1 (by decide)).1.trans (by decide)⟩

/-- C17 (`Server::run()` is idempotent): `run()` on a server that is already
running returns and leaves the server object and the named objects exactly as
they were (same semaphore counters, same running flag, same is-running cell and
metadata, no event added to the trace, so no semaphore is acquired or released);
and the state after a `run()` that returned is a state on which a further
`run()` changes nothing, so `run(); run()` ends in the state of a single
`run()`. -/
theorem server_run_idempotent {α : Type} (st : ServerState α) :
    (st.1.running = true →
      Server.run st = .ok st ∧ World.since st.2 (Server.run st).state.2 = []) ∧
    (∀ st1, Server.run st = .ok st1 →
      Server.run st1 = .ok st1 ∧ World.since st1.2 (Server.run st1).state.2 = []) := by
  have key : ∀ s : ServerState α, s.1.running = true →
      Server.run s = .ok s ∧ World.since s.2 (Server.run s).state.2 = [] := by
    intro s hs
    rw [Server.run_running s hs]
    exact ⟨rfl, by simp [World.since, Outcome.state]⟩
  exact ⟨key st, fun st1 h => key st1 (Server.run_ok_running st st1 h)⟩

/-- C17, witness: the 2x2 server, constructed and run once. -/
theorem server_run_idempotent_witness :
    (Server.run (Server.sampleRunning false true) = .ok (Server.sampleRunning false true) ∧
      World.since (Server.sampleRunning false true).2
        (Server.run (Server.sampleRunning false true)).state.2 = []) ∧
    Server.run (Server.sample false true) = .ok (Server.sampleRunning false true) ∧
    (Server.sampleRunning false true).1.running = true :=
  ⟨((server_run_idempotent (Server.sample false true)).2 (Server.sampleRunning false true) rfl),
    rfl, rfl⟩

/-- C18 (`Server::close()` is idempotent and safe from the destructor): in the
state left by a `close()`, a second `close()` leaves the server object as it is
and changes nothing of the named objects; all it adds to the trace are journal
diagnostics, so no unmap, unlink, semaphore release or semaphore close; the
destructor does nothing at all; and `close()` on a running server first stops it:
the first event of the call is the release of the server semaphore, no other
release of it follows, and the running flag and the is-running cell end false. -/
theorem server_close_idempotent {α : Type} (st : ServerState α) :
    (Server.close (Server.close st)).1 = (Server.close st).1 ∧
    (∃ es, (∀ e ∈ es, Event.isJournal e = true) ∧
      (Server.close (Server.close st)).2 =
        { (Server.close st).2 with log := (Server.close st).2.log ++ es }) ∧
    Server.destroy (Server.close st) = Server.close st ∧
    (st.1.running = true →
      (Server.close st).1.running = false ∧ (Server.close st).2.isrunning_cell = false ∧
      (World.since st.2 (Server.close st).2).head? = some (.semRelease .serversem) ∧
      (World.since st.2 (Server.close st).2).count (.semRelease .serversem) = 1) := by
  obtain ⟨f1, f2, _, _, _⟩ := Server.close_frame st
  have hc := Server.close_closed (Server.close st) f1 f2
  refine ⟨?_, ?_, ?_, ?_⟩
  · rw [hc]
  · refine ⟨_, ?_, by rw [hc]⟩
    intro e he
    split at he
    · simp only [List.mem_singleton] at he
      rw [he]
      rfl
    · cases he
  · simp [Server.destroy, f2]
  · intro hr
    obtain ⟨es, hes, hcount⟩ := Server.close_trace_running st hr
    refine ⟨f1, ?_, ?_, ?_⟩
    · unfold Server.close
      rw [Server.logVerbose_spec]
      unfold Server._cleanMems
      rw [Server.stop_running st hr]
      dsimp only
      split
      · rw [Server.logVerbose_spec]
        simp [Server._closeSems, Server._cleanMetaMem, MemUtils.semClose, MemUtils.cleanUpMem,
          World.sem, World.setSem, World.emit]
      · rfl
    · rw [hes]
      rfl
    · rw [hes, List.count_cons_self, hcount]

/-- C18, witness: `close()` on the running 2x2 server. -/
theorem server_close_idempotent_witness :
    (Server.sampleRunning false true).1.running = true ∧
    (Server.close (Server.sampleRunning false true)).1.running = false ∧
    (Server.close (Server.sampleRunning false true)).2.isrunning_cell = false ∧
    (World.since (Server.sampleRunning false true).2
      (Server.close (Server.sampleRunning false true)).2).head? =
        some (.semRelease .serversem) ∧
    (World.since (Server.sampleRunning false true).2
      (Server.close (Server.sampleRunning false true)).2).count (.semRelease .serversem) = 1 ∧
    Server.destroy (Server.close (Server.sampleRunning false true)) =
      Server.close (Server.sampleRunning false true) :=
  let h := server_close_idempotent (Server.sampleRunning false true)
  ⟨rfl, (h.2.2.2 rfl).1, (h.2.2.2 rfl).2.1, (h.2.2.2 rfl).2.2.1, (h.2.2.2 rfl).2.2.2, h.2.2.1⟩

/-- C19 (`close()` tears down everything the constructor created), evaluated on
the 2x2 server constructed on fresh named objects, run and then closed:
construction called `initMem` on all seven segments, `close()` closes both
semaphores with unlink requested, but it calls `cleanUpMem` on six segments
only; the is-running segment, created by `_initMetaMem`, is left without a
clean-up call (`_cleanMetaMem` has no call for it). -/
theorem server_close_leaves_isrunning_segment :
    createdSegments (Server.sampleRunning false true).2.log =
      [.data, .nrows, .ncols, .clients, .dtype, .isrunning, .memlayout] ∧
    World.since (Server.sampleRunning false true).2
        (Server.close (Server.sampleRunning false true)).2 =
      [.semRelease .serversem, .cleanUpMem .data true, .cleanUpMem .nrows true,
        .cleanUpMem .ncols true, .cleanUpMem .clients true, .cleanUpMem .dtype true,
        .cleanUpMem .memlayout true, .semClose .serversem true, .semClose .datasem true] ∧
    cleanedSegments (World.since (Server.sampleRunning false true).2
        (Server.close (Server.sampleRunning false true)).2) =
      [.data, .nrows, .ncols, .clients, .dtype, .memlayout] ∧
    Segment.isrunning ∈ createdSegments (Server.sampleRunning false true).2.log ∧
    Segment.isrunning ∉ cleanedSegments (World.since (Server.sampleRunning false true).2
        (Server.close (Server.sampleRunning false true)).2) := by
  refine ⟨by decide, by decide, by decide, by decide, by decide⟩

/-- C20 (segment failures at construction are fatal), evaluated on named objects
on which creating the data segment reports `MEMCREATFAIL`: the constructor of the
2x2 server calls `initMem` on the data segment, does not end in the fatal-error
call, and populates the metadata cells. `_initDataMem` looks for the failure
codes in a return code it has just reset, before `initMem` is called, and resets
the code again after the call. The same failure on a metadata segment is fatal. -/
theorem server_construct_survives_data_segment_failure :
    (World.failing .data .MEMCREATFAIL).memFail .data = [.MEMCREATFAIL] ∧
    (Server.construct 2 2 4 1 false 0 false true (World.failing .data .MEMCREATFAIL)).isFatal =
      false ∧
    Event.initMem .data ∈
      (Server.construct 2 2 4 1 false 0 false true
        (World.failing .data .MEMCREATFAIL)).state.2.log ∧
    (World.failing .data .MEMCREATFAIL).n_rows_cell = 0 ∧
    (Server.construct 2 2 4 1 false 0 false true
      (World.failing .data .MEMCREATFAIL)).state.2.n_rows_cell = 2 ∧
    (Server.construct 2 2 4 1 false 0 false true
      (World.failing .data .MEMCREATFAIL)).state.2.n_cols_cell = 2 ∧
    (Server.construct 2 2 4 1 false 0 false true
      (World.failing .data .MEMCREATFAIL)).state.2.dtype_cell = 4 ∧
    (Server.construct 2 2 4 1 false 0 false true
      (World.failing .data .MEMCREATFAIL)).state.2.mem_layout_cell = 1 ∧
    (Server.construct 2 2 4 1 false 0 false true (World.failing .nrows .MEMCREATFAIL)).isFatal =
      true ∧
    (Server.construct 2 2 4 1 false 0 false true
      (World.failing .nrows .MEMCREATFAIL)).state.2.n_rows_cell = 0 := by
  refine ⟨by decide, by decide, by decide, by decide, by decide, by decide, by decide, by decide,
    by decide, by decide⟩

/-- C21, counterexample: with `ms_timeout = 0`, `_wait` does not use the timed
wait and does not report expiry: it waits on `TriggerCond` without a timeout
and returns true; `wait(0)` on a running consumer that sees no new trigger does
not return false when its only wake-up is over, it is still waiting. -/
theorem consumer_wait_zero_timeout_blocks :
    Consumer._wait 0 false (Consumer.run (Consumer.fresh 0 0), { ack := 0, trace := [] }) =
      (true, (Consumer.run (Consumer.fresh 0 0), { ack := 0, trace := [.blockingWait] })) ∧
    (Consumer.wait 0 [{ readOk := true, value := 0, notified := false }]
      (Consumer.run (Consumer.fresh 0 0), { ack := 0, trace := [] })).isNone = true := by
  refine ⟨by decide, by decide⟩

/-- C21 (amended), timeout convention of `Consumer::wait`: for every `ms_timeout`,
`_wait` uses the untimed blocking wait on `TriggerCond` exactly when
`ms_timeout <= 0` (and then returns true), and for every positive `ms_timeout`
it uses the timed wait bounded by `ms_timeout` and returns false exactly when
that timed wait reports expiry; `wait()` on a running consumer that sees no new
trigger then returns false. -/
theorem consumer_wait_timeout_convention (ms_timeout : Int) (notified : Bool)
    (st : ConsumerState) :
    (ms_timeout ≤ 0 →
      Consumer._wait ms_timeout notified st = (true, (st.1, st.2.emit .blockingWait))) ∧
    (0 < ms_timeout →
      Consumer._wait ms_timeout notified st =
        (notified, ({ st.1 with timeout := !notified }, st.2.emit (.timedWait ms_timeout))) ∧
      ((Consumer._wait ms_timeout notified st).1 = false ↔ notified = false) ∧
      (st.1.is_running = true →
        ∀ (o : Obs) (rest : List Obs),
          Consumer.delta o ({ st.1 with trigger_received := false }) = 0 →
          o.notified = false →
          ∃ r, Consumer.wait ms_timeout (o :: rest) st = some (.ok (false, r)) ∧
            r.2.trace = st.2.trace ++ [.readTrigger o.readOk, .timedWait ms_timeout])) := by
  refine ⟨Consumer.wait_blocking_of_nonpos ms_timeout notified st, fun h => ⟨?_, ?_, ?_⟩⟩
  · exact Consumer.wait_timed_of_pos ms_timeout notified st h
  · rw [Consumer.wait_timed_of_pos ms_timeout notified st h]
  · intro hr o rest hd hn
    obtain ⟨r, h1, _, h3⟩ := Consumer.wait_expired ms_timeout o rest st h hr hd hn
    exact ⟨r, h1, h3⟩

/-- C21, witness: a timeout of 5 ms on a running consumer that sees no new
trigger and is not notified, and the default `-1`. -/
theorem consumer_wait_timeout_convention_witness :
    (∃ r, Consumer.wait 5 [{ readOk := true, value := 0, notified := false }]
        (Consumer.run (Consumer.fresh 0 0), { ack := 0, trace := [] }) = some (.ok (false, r)) ∧
      r.2.trace = [.readTrigger true, .timedWait 5]) ∧
    Consumer._wait (-1) false (Consumer.run (Consumer.fresh 0 0), { ack := 0, trace := [] }) =
      (true, (Consumer.run (Consumer.fresh 0 0), { ack := 0, trace := [.blockingWait] })) :=
  ⟨((consumer_wait_timeout_convention 5 false
      (Consumer.run (Consumer.fresh 0 0), { ack := 0, trace := [] })).2 (by decide)).2.2 rfl
      { readOk := true, value := 0, notified := false } [] (by decide) rfl,
    (consumer_wait_timeout_convention (-1) false
      (Consumer.run (Consumer.fresh 0 0), { ack := 0, trace := [] })).1 (by decide)⟩

/-- C22, counterexample: `Server<int>` and `Server<float>`, two distinct element
types, both constructed successfully, publish the same value 4 in the dtype
cell. -/
theorem server_dtype_cell_int_equals_float :
    DType.Int ≠ DType.Float ∧
    (Server.constructFor DType.Int 2 2 1 false 0 false true World.initial).isFatal = false ∧
    (Server.constructFor DType.Float 2 2 1 false 0 false true World.initial).isFatal = false ∧
    (Server.constructFor DType.Int 2 2 1 false 0 false true World.initial).state.2.dtype_cell =
      4 ∧
    (Server.constructFor DType.Float 2 2 1 false 0 false true World.initial).state.2.dtype_cell =
      4 := by
  refine ⟨by decide, by decide, by decide, by decide, by decide⟩

/-- C22 (amended): the published element-type discriminator is `sizeof(Scalar)`:
for any two element types `T1`, `T2` among bool, int, float, double (host sizes
1, 4, 4, 8), `Server<T1>` and `Server<T2>` publish different values in the dtype
cell if and only if the two types have different sizes, that is for every pair
of distinct types except int and float, which both publish 4. -/
theorem server_dtype_cell_is_size {α : Type} (T1 T2 : DType)
    (n_rows1 n_cols1 layout1 : Nat) (verbose1 : Bool) (vlevel1 : Nat) (force1 safe1 : Bool)
    (n_rows2 n_cols2 layout2 : Nat) (verbose2 : Bool) (vlevel2 : Nat) (force2 safe2 : Bool)
    (w1 w2 : World α) (st1 st2 : ServerState α)
    (h1 : Server.constructFor T1 n_rows1 n_cols1 layout1 verbose1 vlevel1 force1 safe1 w1 =
      .ok st1)
    (h2 : Server.constructFor T2 n_rows2 n_cols2 layout2 verbose2 vlevel2 force2 safe2 w2 =
      .ok st2) :
    st1.2.dtype_cell = T1.sizeofScalar ∧ st2.2.dtype_cell = T2.sizeofScalar ∧
    (st1.2.dtype_cell ≠ st2.2.dtype_cell ↔ T1.sizeofScalar ≠ T2.sizeofScalar) ∧
    (st1.2.dtype_cell ≠ st2.2.dtype_cell ↔
      T1 ≠ T2 ∧ ¬ (T1 = .Int ∧ T2 = .Float) ∧ ¬ (T1 = .Float ∧ T2 = .Int)) := by
  have c1 := (Server.construct_cells _ _ _ _ _ _ _ _ _ _ h1).2.2.2.2.2.2.1
  have c2 := (Server.construct_cells _ _ _ _ _ _ _ _ _ _ h2).2.2.2.2.2.2.1
  refine ⟨c1, c2, ?_, ?_⟩
  · rw [c1, c2]
    exact Iff.intro (fun h e => h (by rw [e])) (fun h e => h (by exact_mod_cast e))
  · rw [c1, c2]
    cases T1 <;> cases T2 <;> simp [DType.sizeofScalar]

/-- C22, witness: `Server<bool>` and `Server<double>` on fresh named objects. -/
theorem server_dtype_cell_is_size_witness :
    (Server.constructFor DType.Bool 2 2 1 false 0 false true World.initial).state.2.dtype_cell =
      (1 : Nat) ∧
    (Server.constructFor DType.Double 2 2 1 false 0 false true World.initial).state.2.dtype_cell =
      (8 : Nat) ∧
    (Server.constructFor DType.Bool 2 2 1 false 0 false true World.initial).state.2.dtype_cell ≠
      (Server.constructFor DType.Double 2 2 1 false 0 false true
        World.initial).state.2.dtype_cell :=
  let h := server_dtype_cell_is_size DType.Bool DType.Double 2 2 1 false 0 false true 2 2 1 false
    0 false true World.initial World.initial
    (Server.constructFor DType.Bool 2 2 1 false 0 false true World.initial).state
    (Server.constructFor DType.Double 2 2 1 false 0 false true World.initial).state rfl rfl
  ⟨h.1, h.2.1, h.2.2.1.mpr (by decide)⟩

/-- C23, counterexample: with the shared ack counter at `INT_MAX = 2^31 - 1`,
`ack()` on a running consumer reads and writes the counter successfully and
returns true, and the counter afterwards is `-2^31` (the `int` increment wraps),
not its value before the call plus 1. -/
theorem consumer_ack_wraps_at_int_max :
    (Consumer.ack true true
      (Consumer.run (Consumer.fresh 0 0), { ack := 2 ^ 31 - 1, trace := [] })).isFatal = false ∧
    (Consumer.ack true true
      (Consumer.run (Consumer.fresh 0 0), { ack := 2 ^ 31 - 1, trace := [] })).state.1 = true ∧
    (Consumer.ack true true
      (Consumer.run (Consumer.fresh 0 0), { ack := 2 ^ 31 - 1, trace := [] })).state.2.2.ack =
        -2 ^ 31 ∧
    (-2 ^ 31 : Int) ≠ (2 ^ 31 - 1) + 1 := by
  refine ⟨by decide, by decide, by decide, by decide⟩

/-- C23 (amended): `Consumer::ack()` on a running consumer returns, and returns
true if and only if both the read and the write of the shared ack counter
succeed; when it returns true and the counter was below `INT_MAX` before the
call, the shared ack counter afterwards equals its value before the call plus
exactly 1 (in general it is that sum reduced to `int`); and `notify_one` is
issued on `AckCond` exactly once per call, whatever the call returns. -/
theorem consumer_ack_increments_once (readOk writeOk : Bool) (st : ConsumerState)
    (hr : st.1.is_running = true) (hlo : -2 ^ 31 ≤ st.2.ack) (hhi : st.2.ack < 2 ^ 31) :
    ∃ b r, Consumer.ack readOk writeOk st = .ok (b, r) ∧
      (b = true ↔ readOk = true ∧ writeOk = true) ∧
      (b = true → r.2.ack = wrapInt32 (st.2.ack + 1)) ∧
      (b = true → st.2.ack < 2 ^ 31 - 1 → r.2.ack = st.2.ack + 1) ∧
      (Shared.since st.2 r.2).count .notifyOne = 1 ∧
      Shared.since st.2 r.2 = ackActions readOk writeOk := by
  refine ⟨_, _, Consumer.ack_spec readOk writeOk st hr, ?_, ?_, ?_, ?_, ?_⟩
  · simp
  · intro hb
    simp only [Bool.and_eq_true] at hb
    simp [hb.1, hb.2]
  · intro hb hmax
    simp only [Bool.and_eq_true] at hb
    simp only [hb.1, hb.2, if_true]
    exact wrapInt32_of_range _ (by omega) (by omega)
  · rw [Shared.trace_since_append _ _ _ rfl]
    cases readOk <;> cases writeOk <;> decide
  · exact Shared.trace_since_append _ _ _ rfl

/-- C23, witness: a running consumer, the shared ack counter at 41, both the read
and the write succeeding. -/
theorem consumer_ack_increments_once_witness :
    ∃ b r, Consumer.ack true true
        (Consumer.run (Consumer.fresh 0 0), { ack := 41, trace := [] }) = .ok (b, r) ∧
      (b = true ↔ true = true ∧ true = true) ∧ r.2.ack = 41 + 1 ∧
      (Shared.since { ack := 41, trace := [] } r.2).count .notifyOne = 1 :=
  (consumer_ack_increments_once true true
    (Consumer.run (Consumer.fresh 0 0), { ack := 41, trace := [] }) rfl (by decide)
    (by decide)).imp fun _ h => h.imp fun _ h =>
      ⟨h.1, h.2.1, h.2.2.2.1 (h.2.1.mpr ⟨rfl, rfl⟩) (by decide), h.2.2.2.2.1⟩

/-- C24 (binary use of the semaphores), evaluated on the 2x2 server constructed
on fresh named objects (both semaphores at 1): after `run(); stop(); run()` the
data-access semaphore is at 2. The constructor acquires it once, and each of the
two `run()` calls releases it; `stop()` does not take it back. -/
theorem server_data_sem_reaches_two :
    World.initial.data_sem.value = 1 ∧ World.initial.srvr_sem.value = 1 ∧
    (Server.sample false true).2.data_sem.value = 0 ∧
    (ServerCall.afterAll [.run] (Server.sample false true)).2.data_sem.value = 1 ∧
    (ServerCall.afterAll [.run, .stop] (Server.sample false true)).2.data_sem.value = 1 ∧
    (ServerCall.afterAll [.run, .stop, .run] (Server.sample false true)).2.data_sem.value = 2 ∧
    (ServerCall.afterAll [.run, .stop, .run] (Server.sample false true)).2.srvr_sem.value = 0 ∧
    (ServerCall.afterAll [.run, .stop, .run] (Server.sample false true)).1.running = true ∧
    (ServerCall.afterAll [.run, .stop, .run] (Server.sample false true)).2.log.count
      (.semAcquire .datasem) = 1 ∧
    (ServerCall.afterAll [.run, .stop, .run] (Server.sample false true)).2.log.count
      (.semRelease .datasem) = 2 := by
  refine ⟨by decide, by decide, by decide, by decide, by decide, by decide, by decide, by decide,
    by decide, by decide⟩

/-- C26 (legacy `SharsorIPCpp` string-vector write), evaluated on a running
wrapper with two columns of two cells over the running 2x2 server, with
`vec = ["a", "b"]` and `col_offset = 0`: the call returns true, but afterwards
column 0 of the owned buffer holds 0, not the encoding 97 of `"a"` (each
`_encode_str` starts with `_buffer.setZero()`, which clears the whole buffer, so
only the last string survives), and no block write is forwarded: the underlying
server, its shared tensor and its trace are as before (the call of
`writeTensor` stands after `return _encode_vec(...)`). -/
theorem legacy_string_vector_write_drops_columns :
    StringTensor.sample.running = true ∧
    ((0 : Int) + ([[97], [98]] : List (List Byte)).length ≤ StringTensor.sample.length) ∧
    encodedCell [97] 0 = 97 ∧
    (SharsorIPCpp.write StringTensor.sample [[97], [98]] 0).map
      (fun r => (r.1, r.2.buffer.cell 0 0, r.2.buffer.cell 1 0, r.2.buffer.cell 0 1,
        r.2.buffer.cell 1 1)) = some (true, 0, 0, 98, 0) ∧
    (SharsorIPCpp.write StringTensor.sample [[97], [98]] 0).map
      (fun r => (r.2.sh_mem.2.log, r.2.sh_mem.2.tensor.cell 0 0, r.2.sh_mem.2.tensor.cell 0 1)) =
      some (StringTensor.sample.sh_mem.2.log, StringTensor.sample.sh_mem.2.tensor.cell 0 0,
        StringTensor.sample.sh_mem.2.tensor.cell 0 1) ∧
    (StringTensor.write serverShMem StringTensor.sample [[97], [98]] 0).map
      (fun r => (r.1, r.2.buffer.cell 0 0, r.2.buffer.cell 0 1,
        r.2.sh_mem.2.tensor.cell 0 0, r.2.sh_mem.2.tensor.cell 0 1)) =
      some (true, 97, 98, 97, 98) := by
  have e1 : ∀ buf : Tensor Int, 0 < buf.rows → ∀ (b : Byte) (col : Nat),
      encodeLoop [b] 0 col buf = some (buf.set 0 col (toInt32 (encodeChunk [b] 0 0))) := by
    intro buf hb b col
    rw [encodeLoop, if_pos hb]
    simp [encodeLoop]
  refine ⟨rfl, by decide, by decide, ?_, ?_, ?_⟩
  · simp [SharsorIPCpp.write, StringTensor.isRunning, StringTensor.sample,
      SharsorIPCpp._encode_vec, SharsorIPCpp._fits, toSizeT, SharsorIPCpp.encodeVecLoop,
      SharsorIPCpp._encode_str, Tensor.const, e1, Tensor.set]
    decide
  · have hs := SharsorIPCpp.write_keeps_sh_mem StringTensor.sample [[97], [98]] 0
    cases hw : SharsorIPCpp.write StringTensor.sample [[97], [98]] 0 with
    | none =>
      exfalso
      revert hw
      simp [SharsorIPCpp.write, StringTensor.isRunning, StringTensor.sample,
        SharsorIPCpp._encode_vec, SharsorIPCpp._fits, toSizeT, SharsorIPCpp.encodeVecLoop,
        SharsorIPCpp._encode_str, Tensor.const, e1, Tensor.set]
    | some r =>
      simp only [Option.map_some']
      rw [hs r.1 r.2 hw]
  · simp [StringTensor.write, StringTensor.isRunning, StringTensor.sample,
      StringTensor._encode_vec, StringTensor._fits, toSizeT, StringTensor.encodeVecLoop,
      _encode_str, Tensor.const, e1, Tensor.set, setColZero, StringTensor.bufferBlock]
    refine ⟨by decide, by decide, by decide, by decide, by decide⟩

/-- C27 (column indices stay in range), evaluated on the running wrapper with
`length = 2` and a vector of one string: `_fits(vec, -1)` returns true although
the index is negative. In `size_t` the sum `index + vec.size()` is
`(2^64 - 1) + 1 = 0`, which is not greater than `length`. `_encode_vec` and
`_decode_vec` then go on to column `-1`, which is outside the buffer. The
single-string overloads test `col_index < 0`; `_fits` does not. -/
theorem string_fits_accepts_negative_index :
    StringTensor.sample.length = 2 ∧
    toSizeT (-1) = 2 ^ 64 - 1 ∧
    (toSizeT (-1) + 1) % 2 ^ 64 = 0 ∧
    StringTensor._fits StringTensor.sample 1 (-1) = true ∧
    ¬ ((0 : Int) ≤ -1) ∧
    StringTensor._encode_vec StringTensor.sample [[120]] (-1) = none ∧
    StringTensor._decode_vec StringTensor.sample [[]] (-1) = none ∧
    StringTensor.writeStr serverShMem StringTensor.sample [120] (-1) =
      some (false, StringTensor.sample) := by
  have hf : StringTensor._fits StringTensor.sample 1 (-1) = true := by decide
  refine ⟨rfl, by decide, by decide, hf, by decide, ?_, ?_, ?_⟩
  · unfold StringTensor._encode_vec
    rw [if_neg (by simp only [List.length_singleton]; rw [hf]; decide)]
    simp [StringTensor.encodeVecLoop, encode_str_bad_col _ [120] (-1) (Or.inl (by decide))]
  · unfold StringTensor._decode_vec
    rw [if_neg (by simp only [List.length_singleton]; rw [hf]; decide)]
    simp [StringTensor.decodeVecLoop, _decode_str]
  · exact StringTensor.writeStr_refused _ _ _ _ (Or.inr (Or.inl (by decide)))

/-- C28 (a failed trigger-counter read is never mistaken for a trigger),
evaluated on a consumer whose local 1x1 tensor `_trigger_counter`, allocated by
the constructor and not initialised, holds 1: after `run()`, the very first
`_check_trigger_received`, whose read of the shared counter fails, computes
`delta == 1` from the stale cell and returns true, and `wait()` returns true,
although no trigger was ever read. With the cell holding 2 the same call throws.
The result of the read is not looked at. -/
theorem consumer_failed_first_read_taken_for_trigger :
    (Consumer.run (Consumer.fresh 1 0)).trigger_counter = 1 ∧
    (Consumer.run (Consumer.fresh 1 0)).internal_trigger_counter = 0 ∧
    Consumer.delta { readOk := false, value := 0, notified := false }
      (Consumer.run (Consumer.fresh 1 0)) = 1 ∧
    (Consumer._check_trigger_received { readOk := false, value := 0, notified := false }
      (Consumer.run (Consumer.fresh 1 0), { ack := 0, trace := [] })).isFatal = false ∧
    (Consumer._check_trigger_received { readOk := false, value := 0, notified := false }
      (Consumer.run (Consumer.fresh 1 0), { ack := 0, trace := [] })).state.1 = true ∧
    (Consumer.wait (-1) [{ readOk := false, value := 0, notified := false }]
        (Consumer.run (Consumer.fresh 1 0), { ack := 0, trace := [] })).map
      (fun o => (o.isFatal, o.state.1, o.state.2.2.trace)) =
      some (false, true, [.readTrigger false]) ∧
    (Consumer._check_trigger_received { readOk := false, value := 0, notified := false }
      (Consumer.run (Consumer.fresh 2 0), { ack := 0, trace := [] })).isFatal = true := by
  refine ⟨by decide, by decide, by decide, by decide, by decide, by decide, by decide⟩

/-- C29 (call order inside `Consumer::wait_and_ack`): if `wait(ms_timeout)`
returns false, `wait_and_ack` returns false and its actions are those of `wait`
alone: the callback `pre_ack` and `ack()` are not invoked and the shared ack
counter keeps its value; if `wait` returns true, the actions of `wait` are
followed by exactly one invocation of `pre_ack` and then by the actions of
exactly one `ack()` (one read and one write of the ack counter, one
`notify_one`), also when `pre_ack` returned false. -/
theorem consumer_wait_and_ack_call_order (pre_ack : Bool) (ms_timeout : Int) (obs : List Obs)
    (readOk writeOk : Bool) (st : ConsumerState) :
    (∀ st1, Consumer.wait ms_timeout obs ({ st.1 with fail_count := 0 }, st.2) =
        some (.ok (false, st1)) →
      ∃ r, Consumer.wait_and_ack pre_ack ms_timeout obs readOk writeOk st =
          some (.ok (false, r)) ∧
        r.2 = st1.2 ∧ r.2.ack = st.2.ack ∧
        ∀ e ∈ Shared.since st.2 r.2, CEvent.isWait e = true) ∧
    (∀ st1, Consumer.wait ms_timeout obs ({ st.1 with fail_count := 0 }, st.2) =
        some (.ok (true, st1)) →
      ∃ b r ws, Consumer.wait_and_ack pre_ack ms_timeout obs readOk writeOk st =
          some (.ok (b, r)) ∧
        Shared.since st.2 st1.2 = ws ∧ (∀ e ∈ ws, CEvent.isWait e = true) ∧
        Shared.since st.2 r.2 = ws ++ CEvent.preAck pre_ack :: ackActions readOk writeOk) := by
  constructor
  · intro st1 hw
    obtain ⟨_, f2, f3, es, f4, f5⟩ := Consumer.wait_frame _ _ _ _ _ hw
    simp only at f2 f3 f4
    unfold Consumer.wait_and_ack
    rw [hw]
    simp only [f2]
    refine ⟨_, rfl, rfl, f3, ?_⟩
    rw [Shared.trace_since_append _ _ _ f4]
    exact f5
  · intro st1 hw
    obtain ⟨f1, _, _, es, f4, f5⟩ := Consumer.wait_frame _ _ _ _ _ hw
    simp only at f4
    unfold Consumer.wait_and_ack
    rw [hw]
    simp only
    have hack : ∀ c : Consumer, c.is_running = true →
        Consumer.ack readOk writeOk (c, st1.2.emit (.preAck pre_ack)) =
          .ok (readOk && writeOk,
            ({ c with
                fail_count := (if readOk then 0 else 1) + (if writeOk then 0 else 1)
                ack_counter := wrapInt32 ((if readOk then st1.2.ack else c.ack_counter) + 1) },
              { ack := if writeOk then
                  wrapInt32 ((if readOk then st1.2.ack else c.ack_counter) + 1) else st1.2.ack
                trace := st1.2.trace ++ [.preAck pre_ack] ++ ackActions readOk writeOk })) := by
      intro c hc
      rw [Consumer.ack_spec readOk writeOk _ hc]
      simp [Shared.emit]
    have htr : ∀ (sh : Shared),
        sh.trace = st1.2.trace ++ [.preAck pre_ack] ++ ackActions readOk writeOk →
        Shared.since st.2 sh = es ++ CEvent.preAck pre_ack :: ackActions readOk writeOk := by
      intro sh hsh
      apply Shared.trace_since_append
      rw [hsh, f4]
      simp
    cases pre_ack
    · simp only [Bool.not_false, if_true]
      rw [hack { st1.1 with fail_count := st1.1.fail_count + 1 } f1]
      cases hb : (readOk && writeOk)
      · exact ⟨_, _, es, rfl, Shared.trace_since_append _ _ _ f4, f5, htr _ rfl⟩
      · exact ⟨_, _, es, rfl, Shared.trace_since_append _ _ _ f4, f5, htr _ rfl⟩
    · simp only [Bool.not_true, Bool.false_eq_true, if_false]
      rw [hack _ f1]
      cases hb : (readOk && writeOk)
      · exact ⟨_, _, es, rfl, Shared.trace_since_append _ _ _ f4, f5, htr _ rfl⟩
      · exact ⟨_, _, es, rfl, Shared.trace_since_append _ _ _ f4, f5, htr _ rfl⟩

/-- C29, witness: a running consumer whose timed wait expires without a trigger,
and the same consumer seeing a trigger with a callback that returns false. -/
theorem consumer_wait_and_ack_call_order_witness :
    (∃ r, Consumer.wait_and_ack false 5 [{ readOk := true, value := 0, notified := false }]
        true true (Consumer.run (Consumer.fresh 0 0), { ack := 0, trace := [] }) =
          some (.ok (false, r)) ∧
      r.2 = { ack := 0, trace := [.readTrigger true, .timedWait 5] }) ∧
    (∃ b r ws, Consumer.wait_and_ack false 5 [{ readOk := true, value := 1, notified := false }]
        true true (Consumer.run (Consumer.fresh 0 0), { ack := 0, trace := [] }) =
          some (.ok (b, r)) ∧
      Shared.since { ack := 0, trace := [] } r.2 =
        ws ++ CEvent.preAck false :: ackActions true true) :=
  ⟨((consumer_wait_and_ack_call_order false 5 [{ readOk := true, value := 0, notified := false }]
      true true (Consumer.run (Consumer.fresh 0 0), { ack := 0, trace := [] })).1
      ({ is_running := true, closed := false, trigger_received := false, timeout := true,
         internal_trigger_counter := 0, trigger_counter_increment := 0, fail_count := 0,
         trigger_counter := 0, ack_counter := 0 },
        { ack := 0, trace := [.readTrigger true, .timedWait 5] }) rfl).imp
      fun _ h => ⟨h.1, h.2.1⟩,
    ((consumer_wait_and_ack_call_order false 5 [{ readOk := true, value := 1, notified := false }]
      true true (Consumer.run (Consumer.fresh 0 0), { ack := 0, trace := [] })).2
      ({ is_running := true, closed := false, trigger_received := true, timeout := false,
         internal_trigger_counter := 1, trigger_counter_increment := 1, fail_count := 0,
         trigger_counter := 1, ack_counter := 0 },
        { ack := 0, trace := [.readTrigger true] }) rfl).imp
      fun _ h => h.imp fun _ h => h.imp fun _ h => ⟨h.1, h.2.2.2⟩⟩

/-- C30 (local and published running state agree): after a successful
construction and after every subsequent sequence of `run()` and `stop()` calls in
any order (calls of `read` and `write` may be mixed in, and a `run()` may throw),
the flag returned by `isRunning()` equals the published is-running cell, and the
server holds the server semaphore if and only if `isRunning()` is true: among
the calls made since before the construction, its acquisitions of that semaphore
exceed its releases by one when it is running and by none when it is not; and
when the semaphore was absent or at 1 before the construction, its counter is 0
when the server is running and 1 when it is not. -/
theorem server_running_state_agrees {α : Type} (n_rows n_cols scalar_size mem_layout : Nat)
    (verbose : Bool) (vlevel : Nat) (force_reconnection safe : Bool) (w : World α)
    (st : ServerState α)
    (hc : Server.construct n_rows n_cols scalar_size mem_layout verbose vlevel
      force_reconnection safe w = .ok st) (calls : List (ServerCall α)) :
    Server.isRunning (ServerCall.afterAll calls st).1 =
      (ServerCall.afterAll calls st).2.isrunning_cell ∧
    heldSem .serversem (World.since w (ServerCall.afterAll calls st).2) =
      (if Server.isRunning (ServerCall.afterAll calls st).1 then 1 else 0) ∧
    (heldSem .serversem (World.since w (ServerCall.afterAll calls st).2) = 1 ↔
      Server.isRunning (ServerCall.afterAll calls st).1 = true) ∧
    ((w.srvr_sem.linked = false ∨ w.srvr_sem.value = 1) →
      (ServerCall.afterAll calls st).2.srvr_sem.value =
        if Server.isRunning (ServerCall.afterAll calls st).1 then 0 else 1) := by
  obtain ⟨hr, _, hcell, tail, hl, hs, _, _⟩ := Server.construct_trace n_rows n_cols scalar_size
    mem_layout verbose vlevel force_reconnection safe w st hc
  obtain ⟨hagree, hval, es, hl2, hd⟩ := ServerCall.afterAll_step calls st
  have hheld : heldSem .serversem (World.since w (ServerCall.afterAll calls st).2) =
      (if Server.isRunning (ServerCall.afterAll calls st).1 then 1 else 0) := by
    rw [World.since_append w _ (tail ++ es) (by rw [hl2, hl, List.append_assoc]),
      heldSem_append, hs, hd, hr]
    simp [Server.isRunning]
  refine ⟨hagree (by rw [hr, hcell]), hheld, ?_, ?_⟩
  · rw [hheld]
    cases Server.isRunning (ServerCall.afterAll calls st).1 <;> simp
  · intro hw
    have hf := (Server.construct_frame n_rows n_cols scalar_size mem_layout verbose vlevel
      force_reconnection safe w).1
    rw [hc] at hf
    simp only [Outcome.state] at hf
    have h0 : st.2.srvr_sem.value + (if st.1.running then 1 else 0) = 1 := by
      rw [hf, hr]
      rcases hw with hw | hw
      · simp [hw]
      · cases hlk : w.srvr_sem.linked <;> simp [hw]
    have h1 := hval h0
    unfold Server.isRunning
    cases hrun : (ServerCall.afterAll calls st).1.running
    · simp [hrun] at h1 ⊢
      exact h1
    · simp [hrun] at h1 ⊢
      exact h1

/-- C30, witness: the 2x2 server on fresh named objects after `run(); stop();
run()`. -/
theorem server_running_state_agrees_witness :
    Server.isRunning (ServerCall.afterAll [.run, .stop, .run] (Server.sample false true)).1 =
      (ServerCall.afterAll [.run, .stop, .run] (Server.sample false true)).2.isrunning_cell ∧
    heldSem .serversem (World.since World.initial
      (ServerCall.afterAll [.run, .stop, .run] (Server.sample false true)).2) =
      (if Server.isRunning (ServerCall.afterAll [.run, .stop, .run]
        (Server.sample false true)).1 then 1 else 0) ∧
    (ServerCall.afterAll [.run, .stop, .run] (Server.sample false true)).2.srvr_sem.value =
      (if Server.isRunning (ServerCall.afterAll [.run, .stop, .run]
        (Server.sample false true)).1 then 0 else 1) :=
  let h := server_running_state_agrees 2 2 4 1 false 0 false true World.initial
    (Server.sample false true) rfl [.run, .stop, .run]
  ⟨h.1, h.2.1, h.2.2.2 (Or.inl rfl)⟩

end EigenIPC
